import Mathlib

/-!
# Shared memory between two processes, with and without semaphores

A verification development of the three programs SharedMemoryNoSemaphores.c,
SharedMemorySemaphore.c and SharedMemorySemaphoresSynchronization.c.

* The buffer passes (the stores of the father, the copy and the pattern control of the
  child) are functions on lists of integers, with signed 64-bit arithmetic made explicit.
* One process is a function from the results of its system calls to the trace of the
  operations it issues and to its exit.
* The two processes together are a step function on a state with the semaphore counters,
  the shared buffer, the private copy and the program point of each role; a schedule picks
  the role that moves.
-/

namespace ShmTutorial

/-! ## The buffer and its passes -/

/-- Source: `#define BUFFER_SIZE 16`, in the three files. -/
def BUFFER_SIZE : Nat := 16

/-- Source: `#define OFFSET 65000`, in the two semaphore programs. -/
def OFFSET : Int := 65000

/-- Source: SharedMemoryNoSemaphores.c, `#define OFFSET 6500`. -/
def NoSemaphores.OFFSET : Int := 6500

/-- An array of `long long`: the shared `mem` or the private `tmpBuff`. -/
abbrev Buffer := List Int

/-- The value a signed 64-bit variable holds after a result `x` of exact arithmetic. -/
def wrap64 (x : Int) : Int := (x + 2 ^ 63) % 2 ^ 64 - 2 ^ 63

/-- The read `mem[i]`. -/
def load (mem : Buffer) (i : Nat) : Int := mem.getD i 0

/-- The write `mem[i] = v`. -/
def store (mem : Buffer) (i : Nat) (v : Int) : Buffer := mem.set i v

/-- The expression `(long long) i + OFFSET`. -/
def expected (off : Int) (i : Nat) : Int := wrap64 ((i : Int) + off)

/-- The store `mem[i] = (long long) i + OFFSET;`. -/
def storeInit (off : Int) (mem : Buffer) (i : Nat) : Buffer := store mem i (expected off i)

/-- The store `mem[i] = mem[i]*2;`. -/
def storeDouble (mem : Buffer) (i : Nat) : Buffer := store mem i (wrap64 (load mem i * 2))

/-- The store `mem[i] = mem[i]/2;`, the division of C truncating toward zero. -/
def storeHalve (mem : Buffer) (i : Nat) : Buffer := store mem i (Int.tdiv (load mem i) 2)

/-- One turn of the `for` loop of the father: the three stores on slot `i`. -/
def writeElem (off : Int) (mem : Buffer) (i : Nat) : Buffer :=
  storeHalve (storeDouble (storeInit off mem i) i) i

/-- The write pass of the father: `for (i=0; i < BUFFER_SIZE; i++)` over the three stores. -/
def writePass (off : Int) (mem : Buffer) : Buffer :=
  (List.range BUFFER_SIZE).foldl (writeElem off) mem

/-- One turn of the copy loop of the child: `tmpBuff[i] = mem[i];`. -/
def copyElem (mem : Buffer) (tmpBuff : Buffer) (i : Nat) : Buffer := store tmpBuff i (load mem i)

/-- The copy pass of the child: `for (i=0; i < BUFFER_SIZE; i++) tmpBuff[i] = mem[i];`. -/
def copyPass (mem tmpBuff : Buffer) : Buffer :=
  (List.range BUFFER_SIZE).foldl (copyElem mem) tmpBuff

/-- What a verification scan did: the indices it compared, in order, and the index at which
it found a mismatch and left the loop, if it did. -/
structure Scan where
  examined : List Nat
  mismatch : Option Nat
deriving DecidableEq

/-- The verification loop of the child from index `i` with `n` turns left:
`if (tmpBuff[i] != (long long) i + OFFSET) { ...; break; }`. -/
def checkLoop (off : Int) (tmpBuff : Buffer) : Nat → Nat → List Nat → Scan
  | 0, _, seen => ⟨seen, none⟩
  | n + 1, i, seen =>
    if load tmpBuff i ≠ expected off i then ⟨seen ++ [i], some i⟩
    else checkLoop off tmpBuff n (i + 1) (seen ++ [i])

/-- The verification scan of the child: `for (i=0; i < BUFFER_SIZE; i++)` over the test. -/
def verify (off : Int) (tmpBuff : Buffer) : Scan := checkLoop off tmpBuff BUFFER_SIZE 0 []

/-- The canonical pattern: slot `i` holds `i + OFFSET`. -/
def pattern (off : Int) : Buffer := (List.range BUFFER_SIZE).map (fun (i : Nat) => (i : Int) + off)


/-! ## Sequential model of one process: system calls, their results, the trace -/

inductive Sig
  | SIGINT
  | SIGUSR1
deriving DecidableEq

/-- The lines the programs print; the arguments kept are the ones a claim speaks about. -/
inductive Msg
  | childKillRequest
  | childKilling
  | fatherKillRequest
  | fatherKilling
  | shmCreated
  | shmctlError
  | shmNotFound
  | attached
  | detachError
  | detached
  | semCreated
  | semRemoved
  | semCount (v : Int)
  | semCreationError
  | semAcquisitionFailed
  | parentCreated
  | childCreated
  | sequenceError (index : Nat)
  | segmentRemoved
  | segmentRemoveFail
  | forkError
  | exiting
deriving DecidableEq

/-- One entry of a process trace: a system call with its result, a pass over the buffer,
or a printed line. -/
inductive Op
  | signal (sig : Sig)
  | shmget (key : Int) (size : Nat) (creat : Bool) (ret : Int)
  | shmctlStat (shmid : Int) (ok : Bool)
  | shmat (shmid : Int)
  | shmdt (ret : Int)
  | shmctlRmid (shmid : Int) (ret : Int)
  | semget (key : Int) (ret : Int)
  | semctlSetVal (semid : Int) (v : Int) (ret : Int)
  | semctlGetVal (semid : Int) (ret : Int)
  | semctlRmid (semid : Int) (ret : Int)
  | semop (semid : Int) (delta : Int) (ret : Int)
  | fork (ret : Int)
  | waitChild
  | usleep (us : Nat)
  | writePass
  | copyPass (tmpBuff : Buffer)
  | kill (pid : Int) (sig : Sig)
  | printf (m : Msg)
  | exit (code : Int)
deriving DecidableEq

/-- What the process cannot decide itself: the platform and the results of its calls. -/
structure Env where
  /-- The value of `sizeof(long long *)`. -/
  sizeofPtr : Nat
  /-- The result of `shmget` in `sharedMemCreation`. -/
  shmgetRet : Int
  /-- The result of the lookup `shmget(SHARED_MEM_ID, 0, 0)`. -/
  shmgetChildRet : Int
  /-- Whether `shmctl(IPC_STAT)` returns 0 in `sharedMemCreation`. -/
  statCreate : Bool
  /-- Whether `shmctl(IPC_STAT)` returns 0 in `sharedMemAttach`. -/
  statAttach : Bool
  /-- Whether `shmctl(IPC_STAT)` returns 0 in `sharedMemDetaches`. -/
  statDetach : Bool
  /-- Whether `semget` on the key is refused. -/
  semgetFails : Int → Bool
  /-- Whether `semctl(SETVAL)` is refused. -/
  setValFails : Bool
  /-- The result of `fork()`. -/
  forkRet : Int
  /-- The result of the k-th `semop` call of this process. -/
  semopRet : Nat → Int
  /-- The sixteen values the loads of the k-th copy pass return. -/
  shared : Nat → Buffer
  shmdtRet : Int
  shmRmidRet : Int

/-- The state of one process besides its trace: the semaphore table as its own
administrative calls (`semget`, `semctl`) leave it, the counters of the calls whose results
come from the environment, and its private variables. -/
structure St where
  /-- Semaphore sets of one counter, by key; `none` when no set exists under the key. The
  identifier `semget` returns for a key is the key itself. -/
  sems : Int → Option Int
  semopCalls : Nat
  copyPasses : Nat
  tmpBuff : Buffer
  childPid : Int

/-- The result of running a piece of the program: the operations it issued, in order, the
state it leaves, and either its value or the code it passed to `exit`. -/
structure Res (α : Type) where
  ops : List Op
  st : St
  val : Except Int α

/-- A computation of the process. -/
def M (α : Type) : Type := St → Res α

def M.pure {α : Type} (a : α) : M α := fun s => ⟨[], s, Except.ok a⟩

/-- Sequencing: nothing runs after an `exit`. -/
def M.bind {α β : Type} (m : M α) (f : α → M β) : M β := fun s =>
  match m s with
  | ⟨o, t, Except.ok a⟩ => ⟨o ++ (f a t).ops, (f a t).st, (f a t).val⟩
  | ⟨o, t, Except.error c⟩ => ⟨o, t, Except.error c⟩

instance : Monad M where
  pure := M.pure
  bind := M.bind

def emit (o : Op) : M Unit := fun s => ⟨[o], s, Except.ok ()⟩

def printf (m : Msg) : M Unit := emit (Op.printf m)

/-- The call `exit(code)`. -/
def exit {α : Type} (code : Int) : M α := fun s => ⟨[Op.exit code], s, Except.error code⟩

def shmctlStat (shmid : Int) (ok : Bool) : M Bool := fun s =>
  ⟨[Op.shmctlStat shmid ok], s, Except.ok ok⟩

def setSem (sems : Int → Option Int) (key : Int) (v : Option Int) : Int → Option Int :=
  fun k => if k = key then v else sems k

/-- The call `semget(key, 1, 0666 | IPC_CREAT)`: the set under the key when there is one,
otherwise a new set, whose counter Linux starts at 0. -/
def semget (e : Env) (key : Int) : M Int := fun s =>
  if e.semgetFails key then
    ⟨[Op.semget key (-1)], s, Except.ok (-1)⟩
  else
    match s.sems key with
    | some _ => ⟨[Op.semget key key], s, Except.ok key⟩
    | none => ⟨[Op.semget key key], { s with sems := setSem s.sems key (some 0) }, Except.ok key⟩

/-- The call `semctl(semid, 0, SETVAL, value)`. -/
def semctlSetVal (e : Env) (semid value : Int) : M Int := fun s =>
  if e.setValFails ∨ s.sems semid = none then
    ⟨[Op.semctlSetVal semid value (-1)], s, Except.ok (-1)⟩
  else
    ⟨[Op.semctlSetVal semid value 0], { s with sems := setSem s.sems semid (some value) },
      Except.ok 0⟩

/-- The call `semctl(semid, 0, GETVAL)`. -/
def semctlGetVal (semid : Int) : M Int := fun s =>
  ⟨[Op.semctlGetVal semid ((s.sems semid).getD (-1))], s, Except.ok ((s.sems semid).getD (-1))⟩

/-- The call `semctl(semid, 0, IPC_RMID)`. -/
def semctlRmid (semid : Int) : M Int := fun s =>
  match s.sems semid with
  | some _ => ⟨[Op.semctlRmid semid 0], { s with sems := setSem s.sems semid none }, Except.ok 0⟩
  | none => ⟨[Op.semctlRmid semid (-1)], s, Except.ok (-1)⟩

/-- The call `semop(semid, &sb, 1)` with `sb.sem_op = delta`, as the calling process sees it
when the call returns: its result depends on the other process and is taken from the
environment. Whether a wait returns at all is not decided here but on the interleavings of
the two processes (`Semaphore.step`, `Synchronization.step`), where a wait on a counter at 0
is not enabled. -/
def semop (e : Env) (semid delta : Int) : M Int := fun s =>
  ⟨[Op.semop semid delta (e.semopRet s.semopCalls)], { s with semopCalls := s.semopCalls + 1 },
    Except.ok (e.semopRet s.semopCalls)⟩

def SHARED_MEM_ID : Int := 111

/-- Source: `sharedMemCreation`, the same text in the three files. -/
def sharedMemCreation (e : Env) (key : Int) : M Int := do
  emit (Op.shmget key (e.sizeofPtr * BUFFER_SIZE) true e.shmgetRet)
  let shmid := e.shmgetRet
  if shmid ≥ 0 then
    if (← shmctlStat shmid e.statCreate) then
      printf Msg.shmCreated
    else
      printf Msg.shmctlError
  else
    printf Msg.shmNotFound
    exit (-1)
  return shmid

/-- Source: `sharedMemAttach` of the two semaphore programs, which returns `success`. -/
def sharedMemAttach (e : Env) (shmid : Int) : M Bool := do
  emit (Op.shmat shmid)
  if (← shmctlStat shmid e.statAttach) then
    printf Msg.attached
    return true
  else
    printf Msg.shmctlError
    return false

/-- Source: `sharedMemDetaches`. -/
def sharedMemDetaches (e : Env) (shmid : Int) : M Unit := do
  emit (Op.shmdt e.shmdtRet)
  if e.shmdtRet = -1 then
    printf Msg.detachError
  else
    if (← shmctlStat shmid e.statDetach) then
      printf Msg.detached
    else
      printf Msg.shmctlError

/-- Source: `semCreate`. -/
def semCreate (e : Env) (key : Int) : M Int := do
  let semid ← semget e key
  if semid ≠ -1 then
    printf Msg.semCreated
  return semid

/-- Source: `semDelete`. -/
def semDelete (semid : Int) : M Unit := do
  let res ← semctlRmid semid
  if res ≠ -1 then
    printf Msg.semRemoved

/-- Source: `semSetVal`. -/
def semSetVal (e : Env) (semid value : Int) : M Int := semctlSetVal e semid value

/-- Source: `semAcquire` (named `semWait` in the handshake program). -/
def semAcquire (e : Env) (semid : Int) : M Unit := do
  if (← semop e semid (-1)) = -1 then
    printf Msg.semAcquisitionFailed
    exit (-1)

/-- Source: `semRelease` (named `semSignal` in the handshake program). -/
def semRelease (e : Env) (semid : Int) : M Unit := do
  if (← semop e semid 1) = -1 then
    printf Msg.semAcquisitionFailed
    exit (-1)

/-- Source: `main`, the block "Semaphore create / Semaphore unlock (set value equal 1)":
SharedMemorySemaphore.c lines 213-228 with `MY_SEM_ID`, and
SharedMemorySemaphoresSynchronization.c lines 216-231 with `SEM_ID_1`. -/
def createUnlocked (e : Env) (key : Int) : M Int := do
  let semid ← semCreate e key
  if semid ≥ 0 then
    if (← semSetVal e semid 1) ≠ -1 then
      let v ← semctlGetVal semid
      printf (Msg.semCount v)
  else
    printf Msg.semCreationError
    exit (-1)
  return semid

/-- Source: SharedMemorySemaphoresSynchronization.c, `main`, the block "Semaphore 2 create
(leave value equal 0)", lines 233-245: no `semSetVal` is called on this one. -/
def createLocked (e : Env) (key : Int) : M Int := do
  let semid ← semCreate e key
  if semid ≥ 0 then
    let v ← semctlGetVal semid
    printf (Msg.semCount v)
  else
    printf Msg.semCreationError
    exit (-1)
  return semid

/-- The copy pass of the child, `tmpBuff[i] = mem[i]` for the sixteen indices: the loads of
the k-th pass return `e.shared k`. -/
def copyOut (e : Env) : M Unit := fun s =>
  ⟨[Op.copyPass (copyPass (e.shared s.copyPasses) s.tmpBuff)],
    { s with tmpBuff := copyPass (e.shared s.copyPasses) s.tmpBuff,
             copyPasses := s.copyPasses + 1 }, Except.ok ()⟩

/-- The pattern control of the two semaphore programs: the first mismatch is printed and the
scan left by `break`; nothing else is done. -/
def patternControl : M Unit := fun s =>
  match (verify OFFSET s.tmpBuff).mismatch with
  | some i => printf (Msg.sequenceError i) s
  | none => M.pure () s

def fork (e : Env) : M Int := do
  emit (Op.fork e.forkRet)
  return e.forkRet

def setChildPid (pid : Int) : M Unit := fun s => ⟨[], { s with childPid := pid }, Except.ok ()⟩

/-- Source: the lines of `main` after the two branches, the same in the three files. -/
def epilogue : M Int := do
  printf Msg.exiting
  return 0

namespace Semaphore

def MY_SEM_ID : Int := 112
def CYCLE_NUMBER : Nat := 100
def USLEEP_40_MS : Nat := 40000

/-- Source: SharedMemorySemaphore.c, `while(cycle--)` of the father. The counter is unsigned:
the loop is left when it reads 0. -/
def parentLoop (e : Env) (semid : Int) : Nat → M Unit
  | 0 => pure ()
  | cycle + 1 => do
    semAcquire e semid
    emit Op.writePass
    semRelease e semid
    emit (Op.usleep USLEEP_40_MS)
    parentLoop e semid cycle

/-- Source: SharedMemorySemaphore.c, `while(cycle--)` of the child. -/
def childLoop (e : Env) (semid : Int) : Nat → M Unit
  | 0 => pure ()
  | cycle + 1 => do
    semAcquire e semid
    copyOut e
    semRelease e semid
    patternControl
    emit (Op.usleep USLEEP_40_MS)
    childLoop e semid cycle

/-- Source: SharedMemorySemaphore.c, `main` up to `fork`. -/
def startup (e : Env) : M (Int × Int) := do
  emit (Op.signal Sig.SIGINT)
  let shmid ← sharedMemCreation e SHARED_MEM_ID
  let semid ← createUnlocked e MY_SEM_ID
  return (shmid, semid)

/-- Source: SharedMemorySemaphore.c, `main`, the branch `retFork > 0`. -/
def father (e : Env) (shmid semid : Int) : M Unit := do
  printf Msg.parentCreated
  let success ← sharedMemAttach e shmid
  (if success then parentLoop e semid CYCLE_NUMBER else pure ())
  emit Op.waitChild
  sharedMemDetaches e shmid
  emit (Op.shmctlRmid shmid e.shmRmidRet)
  (if e.shmRmidRet = 0 then printf Msg.segmentRemoved else printf Msg.segmentRemoveFail)
  semDelete semid

/-- Source: SharedMemorySemaphore.c, `main`, the branch `retFork == 0`. -/
def child (e : Env) (semid : Int) : M Unit := do
  printf Msg.childCreated
  emit (Op.shmget SHARED_MEM_ID 0 false e.shmgetChildRet)
  let shmid := e.shmgetChildRet
  let success ← sharedMemAttach e shmid
  (if success then childLoop e semid CYCLE_NUMBER else pure ())
  sharedMemDetaches e shmid

/-- Source: SharedMemorySemaphore.c, `main`. -/
def main (e : Env) : M Int := do
  let ids ← startup e
  let retFork ← fork e
  (if retFork > 0 then setChildPid retFork else pure ())
  (if retFork > 0 then father e ids.1 ids.2
   else if retFork = 0 then child e ids.2
   else printf Msg.forkError)
  epilogue

end Semaphore

namespace Synchronization

def SEM_ID_1 : Int := 112
def SEM_ID_2 : Int := 113
def CYCLE_NUMBER : Nat := 50
def USLEEP_20_MS : Nat := 20000
def USLEEP_100_MS : Nat := 100000

/-- Source: SharedMemorySemaphoresSynchronization.c, `while(cycle--)` of the father. -/
def parentLoop (e : Env) (semid1 semid2 : Int) : Nat → M Unit
  | 0 => pure ()
  | cycle + 1 => do
    semAcquire e semid1
    emit Op.writePass
    semRelease e semid2
    emit (Op.usleep USLEEP_20_MS)
    parentLoop e semid1 semid2 cycle

/-- Source: SharedMemorySemaphoresSynchronization.c, `while(cycle--)` of the child. -/
def childLoop (e : Env) (semid1 semid2 : Int) : Nat → M Unit
  | 0 => pure ()
  | cycle + 1 => do
    semAcquire e semid2
    copyOut e
    semRelease e semid1
    patternControl
    emit (Op.usleep USLEEP_100_MS)
    childLoop e semid1 semid2 cycle

/-- Source: SharedMemorySemaphoresSynchronization.c, `main` up to `fork`. -/
def startup (e : Env) : M (Int × Int × Int) := do
  emit (Op.signal Sig.SIGINT)
  let shmid ← sharedMemCreation e SHARED_MEM_ID
  let semid1 ← createUnlocked e SEM_ID_1
  let semid2 ← createLocked e SEM_ID_2
  return (shmid, semid1, semid2)

/-- Source: SharedMemorySemaphoresSynchronization.c, `main`, the branch `retFork > 0`. -/
def father (e : Env) (shmid semid1 semid2 : Int) : M Unit := do
  printf Msg.parentCreated
  let success ← sharedMemAttach e shmid
  (if success then parentLoop e semid1 semid2 CYCLE_NUMBER else pure ())
  emit Op.waitChild
  sharedMemDetaches e shmid
  emit (Op.shmctlRmid shmid e.shmRmidRet)
  (if e.shmRmidRet = 0 then printf Msg.segmentRemoved else printf Msg.segmentRemoveFail)
  semDelete semid1
  semDelete semid2

/-- Source: SharedMemorySemaphoresSynchronization.c, `main`, the branch `retFork == 0`. -/
def child (e : Env) (semid1 semid2 : Int) : M Unit := do
  printf Msg.childCreated
  emit (Op.shmget SHARED_MEM_ID 0 false e.shmgetChildRet)
  let shmid := e.shmgetChildRet
  let success ← sharedMemAttach e shmid
  (if success then childLoop e semid1 semid2 CYCLE_NUMBER else pure ())
  sharedMemDetaches e shmid

/-- Source: SharedMemorySemaphoresSynchronization.c, `main`. -/
def main (e : Env) : M Int := do
  let ids ← startup e
  let retFork ← fork e
  (if retFork > 0 then setChildPid retFork else pure ())
  (if retFork > 0 then father e ids.1 ids.2.1 ids.2.2
   else if retFork = 0 then child e ids.2.1 ids.2.2
   else printf Msg.forkError)
  epilogue

end Synchronization

/-- Source: `endProcessesSignaller`, the same text in the two semaphore programs; `childPid`
is the static variable, `pid` the result of `getpid()`. -/
def endProcessesSignaller (childPid pid : Int) : List Op :=
  if childPid = 0 then
    [Op.printf Msg.childKillRequest, Op.printf Msg.childKilling, Op.kill pid Sig.SIGUSR1]
  else
    [Op.printf Msg.fatherKillRequest, Op.printf Msg.childKilling, Op.kill childPid Sig.SIGUSR1,
     Op.printf Msg.fatherKilling, Op.kill pid Sig.SIGUSR1]

/-- The signals a trace sends, in order, as (target pid, signal) pairs. -/
def sentSignals : List Op → List (Int × Sig)
  | [] => []
  | Op.kill pid sig :: rest => (pid, sig) :: sentSignals rest
  | _ :: rest => sentSignals rest


/-- The number of write passes in a trace. -/
def writePasses (t : List Op) : Nat := t.countP (fun o => o = Op.writePass)

def isCopyPass : Op → Bool
  | Op.copyPass _ => true
  | _ => false

/-- The number of copy passes in a trace. -/
def copyPasses (t : List Op) : Nat := t.countP isCopyPass

def isSetVal : Op → Bool
  | Op.semctlSetVal _ _ _ => true
  | _ => false

def isExit : Op → Bool
  | Op.exit _ => true
  | _ => false

def isKill : Op → Bool
  | Op.kill _ _ => true
  | _ => false

/-- The three failed calls the programs answer by `exit(-1)`: the creating `shmget` with a
negative result, `semget` with result -1, `semop` with result -1. -/
def fatal : Op → Bool
  | Op.shmget _ _ creat r => creat && decide (r < 0)
  | Op.semget _ r => decide (r = -1)
  | Op.semop _ _ r => decide (r = -1)
  | _ => false

/-- The operations of a trace other than the stat query and the printed lines. -/
def protocolOps (t : List Op) : List Op :=
  t.filter (fun o =>
    match o with
    | Op.printf _ => false
    | Op.shmctlStat _ _ => false
    | _ => true)


/-! ## The two processes together: interleavings of their steps -/

inductive Role
  | producer
  | consumer
deriving DecidableEq

/-- The three stores of one turn of the `for` loop of the father, named by the store that comes
next: `mem[i] = i + OFFSET`, `mem[i] = mem[i]*2`, `mem[i] = mem[i]/2`. -/
inductive Stage
  | init
  | double
  | halve
deriving DecidableEq

/-- Program points of the father inside its `while(cycle--)` loop. -/
inductive PPc
  /-- About to evaluate `cycle--`. -/
  | loopHead
  /-- About to call `semAcquire` / `semWait`. -/
  | acquire
  /-- Inside the `for` loop at index `i`, about to do the store `k`. -/
  | write (i : Nat) (k : Stage)
  /-- About to call `semRelease` / `semSignal`. -/
  | release
  /-- In `usleep`. -/
  | sleep
  /-- The loop is left. -/
  | done
  /-- The call `exit(-1)` was taken. -/
  | exited
deriving DecidableEq

/-- Program points of the child inside its `while(cycle--)` loop. -/
inductive CPc
  | loopHead
  | acquire
  /-- Inside the copy loop, about to do `tmpBuff[i] = mem[i]`. -/
  | copy (i : Nat)
  | release
  /-- About to run the pattern control on the private copy. -/
  | verify
  | sleep
  | done
  | exited
deriving DecidableEq

/-- What the two processes share and own, the semaphores apart. `writes` and `reads` count
the completed write passes and the completed copy passes. -/
structure Core where
  mem : Buffer
  tmpBuff : Buffer
  ppc : PPc
  pcycle : Nat
  writes : Nat
  cpc : CPc
  ccycle : Nat
  reads : Nat
deriving DecidableEq

/-- A step of the father that touches no semaphore. The counter `cycle` is unsigned: the loop
is left when it reads 0. -/
def producerLocal (off : Int) (s : Core) : Option Core :=
  match s.ppc with
  | PPc.loopHead =>
    if s.pcycle = 0 then some { s with ppc := PPc.done }
    else some { s with pcycle := s.pcycle - 1, ppc := PPc.acquire }
  | PPc.write i Stage.init =>
    some { s with mem := storeInit off s.mem i, ppc := PPc.write i Stage.double }
  | PPc.write i Stage.double =>
    some { s with mem := storeDouble s.mem i, ppc := PPc.write i Stage.halve }
  | PPc.write i Stage.halve =>
    if i + 1 < BUFFER_SIZE then
      some { s with mem := storeHalve s.mem i, ppc := PPc.write (i + 1) Stage.init }
    else
      some { s with mem := storeHalve s.mem i, ppc := PPc.release, writes := s.writes + 1 }
  | PPc.sleep => some { s with ppc := PPc.loopHead }
  | _ => none

/-- A step of the child that touches no semaphore. -/
def consumerLocal (s : Core) : Option Core :=
  match s.cpc with
  | CPc.loopHead =>
    if s.ccycle = 0 then some { s with cpc := CPc.done }
    else some { s with ccycle := s.ccycle - 1, cpc := CPc.acquire }
  | CPc.copy i =>
    if i + 1 < BUFFER_SIZE then
      some { s with tmpBuff := copyElem s.mem s.tmpBuff i, cpc := CPc.copy (i + 1) }
    else
      some { s with tmpBuff := copyElem s.mem s.tmpBuff i, cpc := CPc.release,
                    reads := s.reads + 1 }
  | CPc.verify => some { s with cpc := CPc.sleep }
  | CPc.sleep => some { s with cpc := CPc.loopHead }
  | _ => none

/-- What the scheduler and the kernel choose: the role that takes its next step, or a role
whose pending `semop` returns -1. -/
inductive Act
  | run (r : Role)
  | semopFails (r : Role)
deriving DecidableEq

namespace Semaphore

/-- The single-semaphore program: the state of the two loops and the counter of the
semaphore. -/
structure Sys where
  sem : Nat
  core : Core
deriving DecidableEq

/-- One step. `semop` with -1 waits until the counter is positive and takes one; with +1 it
adds one. A failed `semop` is answered by `exit(-1)`. -/
def step (a : Act) (s : Sys) : Option Sys :=
  match a with
  | Act.run Role.producer =>
    match s.core.ppc with
    | PPc.acquire =>
      if 0 < s.sem then some { sem := s.sem - 1, core := { s.core with ppc := PPc.write 0 Stage.init } }
      else none
    | PPc.release => some { sem := s.sem + 1, core := { s.core with ppc := PPc.sleep } }
    | _ => (producerLocal OFFSET s.core).map (fun c => { s with core := c })
  | Act.run Role.consumer =>
    match s.core.cpc with
    | CPc.acquire =>
      if 0 < s.sem then some { sem := s.sem - 1, core := { s.core with cpc := CPc.copy 0 } }
      else none
    | CPc.release => some { sem := s.sem + 1, core := { s.core with cpc := CPc.verify } }
    | _ => (consumerLocal s.core).map (fun c => { s with core := c })
  | Act.semopFails Role.producer =>
    match s.core.ppc with
    | PPc.acquire => some { s with core := { s.core with ppc := PPc.exited } }
    | PPc.release => some { s with core := { s.core with ppc := PPc.exited } }
    | _ => none
  | Act.semopFails Role.consumer =>
    match s.core.cpc with
    | CPc.acquire => some { s with core := { s.core with cpc := CPc.exited } }
    | CPc.release => some { s with core := { s.core with cpc := CPc.exited } }
    | _ => none

/-- The run of a schedule; `none` when one of its actions is not enabled. -/
def exec : List Act → Sys → Option Sys
  | [], s => some s
  | a :: rest, s =>
    match step a s with
    | some t => exec rest t
    | none => none

/-- The start of the two loops: semaphore value 1, the segment and the private copy with
any content. -/
def init (mem tmpBuff : Buffer) : Sys :=
  { sem := 1,
    core := { mem := mem, tmpBuff := tmpBuff, ppc := PPc.loopHead, pcycle := CYCLE_NUMBER,
              writes := 0, cpc := CPc.loopHead, ccycle := CYCLE_NUMBER, reads := 0 } }

end Semaphore

namespace Synchronization

/-- The handshake program: the state of the two loops and the counters of the two
semaphores, `turnToWrite` under `SEM_ID_1` and `turnToRead` under `SEM_ID_2`. -/
structure Sys where
  turnToWrite : Nat
  turnToRead : Nat
  core : Core
deriving DecidableEq

/-- One step: the father waits on `semid1` and signals `semid2`, the child waits on `semid2`
and signals `semid1`. -/
def step (a : Act) (s : Sys) : Option Sys :=
  match a with
  | Act.run Role.producer =>
    match s.core.ppc with
    | PPc.acquire =>
      if 0 < s.turnToWrite then
        some { s with turnToWrite := s.turnToWrite - 1,
                      core := { s.core with ppc := PPc.write 0 Stage.init } }
      else none
    | PPc.release =>
      some { s with turnToRead := s.turnToRead + 1, core := { s.core with ppc := PPc.sleep } }
    | _ => (producerLocal OFFSET s.core).map (fun c => { s with core := c })
  | Act.run Role.consumer =>
    match s.core.cpc with
    | CPc.acquire =>
      if 0 < s.turnToRead then
        some { s with turnToRead := s.turnToRead - 1,
                      core := { s.core with cpc := CPc.copy 0 } }
      else none
    | CPc.release =>
      some { s with turnToWrite := s.turnToWrite + 1,
                    core := { s.core with cpc := CPc.verify } }
    | _ => (consumerLocal s.core).map (fun c => { s with core := c })
  | Act.semopFails Role.producer =>
    match s.core.ppc with
    | PPc.acquire => some { s with core := { s.core with ppc := PPc.exited } }
    | PPc.release => some { s with core := { s.core with ppc := PPc.exited } }
    | _ => none
  | Act.semopFails Role.consumer =>
    match s.core.cpc with
    | CPc.acquire => some { s with core := { s.core with cpc := CPc.exited } }
    | CPc.release => some { s with core := { s.core with cpc := CPc.exited } }
    | _ => none

/-- The run of a schedule; `none` when one of its actions is not enabled. -/
def exec : List Act → Sys → Option Sys
  | [], s => some s
  | a :: rest, s =>
    match step a s with
    | some t => exec rest t
    | none => none

/-- The start of the two loops: `turnToWrite` = 1, `turnToRead` = 0. -/
def init (mem tmpBuff : Buffer) : Sys :=
  { turnToWrite := 1, turnToRead := 0,
    core := { mem := mem, tmpBuff := tmpBuff, ppc := PPc.loopHead, pcycle := CYCLE_NUMBER,
              writes := 0, cpc := CPc.loopHead, ccycle := CYCLE_NUMBER, reads := 0 } }

end Synchronization

/-- The father is inside its write pass. -/
def PPc.inWrite : PPc → Bool
  | PPc.write _ _ => true
  | _ => false

/-- The child is inside its copy pass. -/
def CPc.inCopy : CPc → Bool
  | CPc.copy _ => true
  | _ => false

/-- The schedule of one whole pass of the father: loop head, wait, 48 stores, signal, sleep. -/
def producerPass : List Act := List.replicate 52 (Act.run Role.producer)

/-- The schedule of one whole pass of the child: loop head, wait, 16 copies, signal, pattern
control, sleep. -/
def consumerPass : List Act := List.replicate 21 (Act.run Role.consumer)


/-! ## Predicates on traces and runs -/

/-- Every fatal call of the trace is directly followed by one printed line and `exit(-1)`,
which end the trace. -/
def failFast : List Op → Prop
  | [] => True
  | o :: rest =>
    if fatal o then ∃ m, rest = [Op.printf m, Op.exit (-1)]
    else failFast rest

/-- A reason in the environment for a fatal call. -/
def Cause (e : Env) : Prop :=
  e.shmgetRet < 0 ∨ (∃ k, e.semgetFails k = true) ∨ ∃ k, e.semopRet k = -1

/-- What a piece of the program does, whatever the environment answers: it sends no signal;
when it ends normally no call was fatal, no `exit` was taken and it made `w` write passes and
`c` copy passes; when it leaves by `exit` the code is -1 and the trace ends with the fatal call,
one printed line and the `exit`. -/
structure Run (e : Env) {α : Type} (r : Res α) (w c : Nat) : Prop where
  fast : failFast r.ops
  signals : sentSignals r.ops = []
  atMost : writePasses r.ops ≤ w ∧ copyPasses r.ops ≤ c
  ok : ∀ a, r.val = Except.ok a →
    (∀ o, o ∈ r.ops → fatal o = false ∧ isExit o = false) ∧
      writePasses r.ops = w ∧ copyPasses r.ops = c
  err : ∀ x, r.val = Except.error x → x = -1 ∧ Cause e ∧
    ∃ pre o m, fatal o = true ∧ r.ops = pre ++ [o, Op.printf m, Op.exit (-1)]

/-- An operation that is neither a fatal call, nor an `exit`, nor a pass, nor a signal. -/
def quietOp (o : Op) : Bool :=
  !fatal o && !isExit o && !isKill o && !isCopyPass o && !decide (o = Op.writePass)

/-- The number of write passes and of copy passes `main` makes when nothing is fatal. -/
def Semaphore.passes (e : Env) : Nat × Nat :=
  if 0 < e.forkRet then (if e.statAttach = true then Semaphore.CYCLE_NUMBER else 0, 0)
  else if e.forkRet = 0 then (0, if e.statAttach = true then Semaphore.CYCLE_NUMBER else 0)
  else (0, 0)

/-- The number of write passes and of copy passes `main` makes when nothing is fatal. -/
def Synchronization.passes (e : Env) : Nat × Nat :=
  if 0 < e.forkRet then (if e.statAttach = true then Synchronization.CYCLE_NUMBER else 0, 0)
  else if e.forkRet = 0 then (0, if e.statAttach = true then Synchronization.CYCLE_NUMBER else 0)
  else (0, 0)

/-- The environment with other results of the stat queries of create and detach. -/
def withStat (e : Env) (create detach : Bool) : Env :=
  { e with statCreate := create, statDetach := detach }

/-- Two results with the same operations, stat queries and printed lines apart. -/
def sameProtocol {α : Type} (r q : Res α) : Prop :=
  protocolOps r.ops = protocolOps q.ops ∧ r.st = q.st ∧ r.val = q.val


/-! ## Invariants of the interleavings -/

/-- What the father has written so far: inside a write pass the slots below `i` hold the
pattern and slot `i` holds the value its last store left; outside a write pass the buffer is
the initial one before the first pass and the pattern after it. -/
def PData (mem0 : Buffer) (c : Core) : Prop :=
  c.mem.length = 16 ∧
  match c.ppc with
  | PPc.write i k => i < 16 ∧ (∀ j, j < i → load c.mem j = (j : Int) + 65000) ∧
      (k = Stage.double → load c.mem i = (i : Int) + 65000) ∧
      (k = Stage.halve → load c.mem i = 2 * ((i : Int) + 65000))
  | _ => (c.writes = 0 → c.mem = mem0) ∧ (1 ≤ c.writes → c.mem = pattern OFFSET)

/-- Whether the father holds a semaphore it has taken and not yet given back. -/
def heldP : PPc → Nat
  | PPc.write _ _ => 1
  | PPc.release => 1
  | _ => 0

/-- Whether the child holds a semaphore it has taken and not yet given back. -/
def heldC : CPc → Nat
  | CPc.copy _ => 1
  | CPc.release => 1
  | _ => 0

/-- Whether the father has taken a turn of its loop whose write pass is not yet complete. -/
def pendingP : PPc → Nat
  | PPc.acquire => 1
  | PPc.write _ _ => 1
  | _ => 0

/-- Whether the child has taken a turn of its loop whose copy pass is not yet complete. -/
def pendingC : CPc → Nat
  | CPc.acquire => 1
  | CPc.copy _ => 1
  | _ => 0

/-- The indices of the two `for` loops stay inside the buffer. -/
def inBounds (c : Core) : Prop :=
  (match c.ppc with
    | PPc.write i _ => i < 16
    | _ => True) ∧
  (match c.cpc with
    | CPc.copy i => i < 16
    | _ => True)

namespace Synchronization

/-- The control invariant of the handshake: one token moves between the two counters and
the two critical sections, and the pass counters follow it. -/
def Ctl (s : Sys) : Prop :=
  s.turnToWrite + s.turnToRead + heldP s.core.ppc + heldC s.core.cpc ≤ 1 ∧
  (s.turnToWrite = 1 → s.core.writes = s.core.reads) ∧
  (s.turnToRead = 1 → s.core.writes = s.core.reads + 1) ∧
  (match s.core.ppc with
    | PPc.write _ _ => s.core.writes = s.core.reads
    | PPc.release => s.core.writes = s.core.reads + 1
    | _ => True) ∧
  (match s.core.cpc with
    | CPc.copy _ => s.core.writes = s.core.reads + 1
    | CPc.release => s.core.writes = s.core.reads
    | _ => True) ∧
  (s.core.writes = s.core.reads ∨ s.core.writes = s.core.reads + 1) ∧
  s.core.writes + s.core.pcycle + pendingP s.core.ppc ≤ CYCLE_NUMBER ∧
  s.core.reads + s.core.ccycle + pendingC s.core.cpc ≤ CYCLE_NUMBER ∧
  inBounds s.core

/-- What the private copy holds in the handshake: inside a copy pass the pattern below the
index, and the whole pattern once the pass is complete. -/
def CData (c : Core) : Prop :=
  c.tmpBuff.length = 16 ∧
  match c.cpc with
  | CPc.copy i => ∀ j, j < i → load c.tmpBuff j = (j : Int) + 65000
  | CPc.release => c.tmpBuff = pattern OFFSET
  | CPc.verify => c.tmpBuff = pattern OFFSET
  | _ => True

/-- The data invariant of the handshake. -/
def Data (mem0 : Buffer) (s : Sys) : Prop := PData mem0 s.core ∧ CData s.core

end Synchronization

namespace Semaphore

/-- The control invariant of the single semaphore: one token. -/
def Ctl (s : Sys) : Prop :=
  s.sem + heldP s.core.ppc + heldC s.core.cpc ≤ 1 ∧
  s.core.writes + s.core.pcycle + pendingP s.core.ppc ≤ CYCLE_NUMBER ∧
  s.core.reads + s.core.ccycle + pendingC s.core.cpc ≤ CYCLE_NUMBER ∧
  inBounds s.core

/-- What the private copy holds with the single semaphore: inside a copy pass the shared
buffer below the index, the whole shared buffer once the pass is complete, and from then to
the pattern control either the pattern or the initial content of the segment. -/
def CData (mem0 : Buffer) (c : Core) : Prop :=
  c.tmpBuff.length = 16 ∧
  match c.cpc with
  | CPc.copy i => ∀ j, j < i → load c.tmpBuff j = load c.mem j
  | CPc.release => c.tmpBuff = c.mem
  | CPc.verify => c.tmpBuff = pattern OFFSET ∨ c.tmpBuff = mem0
  | _ => True

/-- The data invariant of the single semaphore. -/
def Data (mem0 : Buffer) (s : Sys) : Prop := PData mem0 s.core ∧ CData mem0 s.core

end Semaphore

/-- A buffer of sixteen zeros: a segment as the kernel hands it out. -/
def zeros : Buffer := List.replicate 16 0


/-! ## Concrete environments -/

/-- An environment in which every call succeeds, on a platform with 8-byte pointers; the
process is the child and the shared buffer always holds the pattern. -/
def calmEnv : Env :=
  { sizeofPtr := 8, shmgetRet := 3, shmgetChildRet := 3, statCreate := true,
    statAttach := true, statDetach := true, semgetFails := fun _ => false,
    setValFails := false, forkRet := 0, semopRet := fun _ => 0,
    shared := fun _ => pattern OFFSET, shmdtRet := 0, shmRmidRet := 0 }

/-- A start with no semaphore set in the system. -/
def freshSt : St :=
  { sems := fun _ => none, semopCalls := 0, copyPasses := 0,
    tmpBuff := List.replicate 16 0, childPid := 0 }

/-- A start in which a set is left under key 113, its counter at 1, by an earlier run. -/
def staleSt : St :=
  { freshSt with sems := fun k => if k = 113 then some 1 else none }

/-- The father in an environment where the second `semop`, the release of the first pass,
returns -1. -/
def failingEnv : Env :=
  { calmEnv with forkRet := 7, semopRet := fun k => if k = 1 then -1 else 0 }

/-- The child in an environment where every copy pass reads sixteen zeros, so that every
verification fails. -/
def zeroEnv : Env := { calmEnv with shared := fun _ => List.replicate 16 0 }


/-- The schedule in which the father makes its first pass and the child then enters its
first copy pass and copies three slots. -/
def firstCopySchedule : List Act :=
  producerPass ++ List.replicate 5 (Act.run Role.consumer)

/-- The state of the handshake after `firstCopySchedule`, from a zeroed segment. -/
def firstCopyState : Synchronization.Sys :=
  { turnToWrite := 0, turnToRead := 0,
    core := { mem := pattern OFFSET,
              tmpBuff := [65000, 65001, 65002, 0, 0, 0, 0, 0, 0, 0, 0, 0, 0, 0, 0, 0],
              ppc := PPc.loopHead, pcycle := 49, writes := 1,
              cpc := CPc.copy 3, ccycle := 49, reads := 0 } }

/-- The schedule in which the child runs first: loop head, acquire, sixteen copies. -/
def consumerFirst : List Act := List.replicate 18 (Act.run Role.consumer)

/-- The schedule in which the father makes its first pass and the child then makes a whole
copy pass. -/
def producerFirst : List Act := producerPass ++ consumerFirst

/-- The state of the single-semaphore program after `producerFirst`, from a zeroed segment. -/
def afterFirstRead : Semaphore.Sys :=
  { sem := 0,
    core := { mem := pattern OFFSET, tmpBuff := pattern OFFSET,
              ppc := PPc.loopHead, pcycle := 99, writes := 1,
              cpc := CPc.release, ccycle := 99, reads := 1 } }


/-- A private copy that departs from the pattern at the indices 5 and 9. -/
def twoMismatches : Buffer := ((pattern OFFSET).set 5 3).set 9 2

/-- The schedule of `k` turns, in each of which the father makes a whole pass and the child
then makes a whole pass, followed by the two steps in which each role leaves its loop. -/
def alternating (k : Nat) : List Act :=
  (List.replicate k (producerPass ++ consumerPass)).flatten ++
    [Act.run Role.producer, Act.run Role.consumer]


/-! ## The program without semaphores -/

namespace NoSemaphores

def USLEEP_5_MS : Nat := 5000
def USLEEP_2_MS : Nat := 2000

/-- Source: SharedMemoryNoSemaphores.c, the check for sequence errors of the child, lines
221-232: at the first mismatch the line is printed, `finishChild` is set, `SIGUSR1` is sent
to `getppid()` and the scan is left by `break`. The value is `finishChild` after the scan. -/
def sequenceCheck (ppid : Int) (finishChild : Bool) : M Bool := fun s =>
  match (verify OFFSET s.tmpBuff).mismatch with
  | some i =>
    ⟨[Op.printf (Msg.sequenceError i), Op.kill ppid Sig.SIGUSR1], s, Except.ok true⟩
  | none => ⟨[], s, Except.ok finishChild⟩

/-- Source: SharedMemoryNoSemaphores.c, `while(!finishChild)` of the child, lines 210-235,
followed for at most `n` turns from the value `finishChild` of the flag. The value tells
whether the loop has been left; `false` after `n` turns means that it is still running. -/
def childLoop (e : Env) (ppid : Int) : Nat → Bool → M Bool
  | _, true => pure true
  | 0, false => pure false
  | n + 1, false => do
    copyOut e
    let fin ← sequenceCheck ppid false
    emit (Op.usleep USLEEP_2_MS)
    childLoop e ppid n fin

/-- The private copy after `k` copy passes of the child started in state `s`: the copy that
pass number `k` leaves and verifies. -/
def tmpAfter (e : Env) (s : St) : Nat → Buffer
  | 0 => s.tmpBuff
  | k + 1 => copyPass (e.shared (s.copyPasses + k)) (tmpAfter e s k)

/-- What moves the two processes: the scheduler lets a role take its next step, or the
kernel delivers the pending `SIGUSR1` to the father, whose handler then runs. -/
inductive Move
  | run (r : Role)
  | handle
deriving DecidableEq

/-- The two loops of the program without semaphores. `finished` is the static flag of the
father, `finishChild` the local flag of the child, `pending` tells whether a `SIGUSR1` sent
to the father waits for delivery, `sent` lists the signals the child has sent and `started`
counts the write passes the father has started. -/
structure Sys where
  core : Core
  finished : Bool
  finishChild : Bool
  pending : Bool
  sent : List (Int × Sig)
  started : Nat
deriving DecidableEq

/-- Source: `raceConditionSignaller`, the handler of `SIGUSR1`: `finished = true`. -/
def raceConditionSignaller (s : Sys) : Sys := { s with finished := true }

/-- One step of the father: `while(!finished)` over the write pass and `usleep`. -/
def producerStep (s : Sys) : Option Sys :=
  match s.core.ppc with
  | PPc.loopHead =>
    if s.finished then some { s with core := { s.core with ppc := PPc.done } }
    else some { s with core := { s.core with ppc := PPc.write 0 Stage.init },
                       started := s.started + 1 }
  | PPc.write i Stage.init =>
    some { s with core := { s.core with mem := storeInit OFFSET s.core.mem i,
                                        ppc := PPc.write i Stage.double } }
  | PPc.write i Stage.double =>
    some { s with core := { s.core with mem := storeDouble s.core.mem i,
                                        ppc := PPc.write i Stage.halve } }
  | PPc.write i Stage.halve =>
    if i + 1 < BUFFER_SIZE then
      some { s with core := { s.core with mem := storeHalve s.core.mem i,
                                          ppc := PPc.write (i + 1) Stage.init } }
    else
      some { s with core := { s.core with mem := storeHalve s.core.mem i,
                                          ppc := PPc.sleep,
                                          writes := s.core.writes + 1 } }
  | PPc.sleep => some { s with core := { s.core with ppc := PPc.loopHead } }
  | _ => none

/-- One step of the child: `while(!finishChild)` over the copy pass, the check for sequence
errors and `usleep`; `ppid` is the result of `getppid()`. -/
def consumerStep (ppid : Int) (s : Sys) : Option Sys :=
  match s.core.cpc with
  | CPc.loopHead =>
    if s.finishChild then some { s with core := { s.core with cpc := CPc.done } }
    else some { s with core := { s.core with cpc := CPc.copy 0 } }
  | CPc.copy i =>
    if i + 1 < BUFFER_SIZE then
      some { s with core := { s.core with tmpBuff := copyElem s.core.mem s.core.tmpBuff i,
                                          cpc := CPc.copy (i + 1) } }
    else
      some { s with core := { s.core with tmpBuff := copyElem s.core.mem s.core.tmpBuff i,
                                          cpc := CPc.verify,
                                          reads := s.core.reads + 1 } }
  | CPc.verify =>
    match (verify OFFSET s.core.tmpBuff).mismatch with
    | some _ =>
      some { s with core := { s.core with cpc := CPc.sleep }, finishChild := true,
                    pending := true, sent := s.sent ++ [(ppid, Sig.SIGUSR1)] }
    | none => some { s with core := { s.core with cpc := CPc.sleep } }
  | CPc.sleep => some { s with core := { s.core with cpc := CPc.loopHead } }
  | _ => none

/-- One step of the two processes. -/
def step (ppid : Int) (a : Move) (s : Sys) : Option Sys :=
  match a with
  | Move.run Role.producer => producerStep s
  | Move.run Role.consumer => consumerStep ppid s
  | Move.handle =>
    if s.pending then some (raceConditionSignaller { s with pending := false }) else none

/-- The run of a schedule; `none` when one of its moves is not enabled. -/
def exec (ppid : Int) : List Move → Sys → Option Sys
  | [], s => some s
  | a :: rest, s =>
    match step ppid a s with
    | some t => exec ppid rest t
    | none => none

/-- The start of the two loops, after `init()`: both flags false, no signal sent. -/
def init (mem tmpBuff : Buffer) : Sys :=
  { core := { mem := mem, tmpBuff := tmpBuff, ppc := PPc.loopHead, pcycle := 0, writes := 0,
              cpc := CPc.loopHead, ccycle := 0, reads := 0 },
    finished := false, finishChild := false, pending := false, sent := [], started := 0 }

end NoSemaphores

/-- The offset keeps the two values the father stores inside signed 64 bits. -/
def Fits (off : Int) : Prop :=
  ∀ i, i < 16 → expected off i = (i : Int) + off ∧
    wrap64 (((i : Int) + off) * 2) = 2 * ((i : Int) + off)

/-- The buffer in the race window of slot `i`: the pattern but for slot `i`, which holds
the doubled value. -/
def bump (off : Int) (i : Nat) : Buffer := (pattern off).set i (2 * ((i : Int) + off))

/-- What the buffer holds while the father is about to do store `k` on slot `i`, `w` write
passes being complete: the slots below `i` hold the pattern, slot `i` what the last store
left, and once a pass is complete the slots above `i` hold the pattern too. -/
def Filling (off : Int) (w : Nat) (mem : Buffer) (i : Nat) (k : Stage) : Prop :=
  mem.length = 16 ∧ i < 16 ∧ (∀ j, j < i → load mem j = (j : Int) + off) ∧
  (k = Stage.double → load mem i = (i : Int) + off) ∧
  (k = Stage.halve → load mem i = 2 * ((i : Int) + off)) ∧
  (1 ≤ w → (∀ j, i < j → j < 16 → load mem j = (j : Int) + off) ∧
    (k = Stage.init → load mem i = (i : Int) + off))

/-- The invariant of the write passes: inside a pass the buffer is as `Filling` says, and
outside a pass it holds the pattern once a pass is complete. -/
def Fill (off : Int) (c : Core) : Prop :=
  match c.ppc with
  | PPc.write i k => Filling off c.writes c.mem i k
  | _ => c.mem.length = 16 ∧ (1 ≤ c.writes → c.mem = pattern off)


/-- An environment of the program without semaphores in which the first two copy passes
read the pattern and the third reads it with slot 3 doubled. -/
def thirdPassFails : Env :=
  { calmEnv with shared := fun k =>
      if k < 2 then pattern NoSemaphores.OFFSET else bump NoSemaphores.OFFSET 3 }

/-- A schedule of the program without semaphores in which the child copies the buffer inside
the race window: the father makes a whole pass (loop head, 48 stores, sleep) and then the
loop head and the first two stores on slot 0; the child makes a whole copy pass and its
check; the signal is delivered; the father ends its pass and leaves at the next loop head;
the child leaves at its loop head. -/
def raceSchedule : List NoSemaphores.Move :=
  List.replicate 53 (NoSemaphores.Move.run Role.producer) ++
  List.replicate 18 (NoSemaphores.Move.run Role.consumer) ++
  [NoSemaphores.Move.handle] ++
  List.replicate 48 (NoSemaphores.Move.run Role.producer) ++
  List.replicate 2 (NoSemaphores.Move.run Role.consumer)

/-- The state of the program without semaphores, from a zeroed segment, after the first 53
moves of `raceSchedule`: the father stands inside the race window of slot 0. -/
def inWindow : NoSemaphores.Sys :=
  { core := { mem := bump NoSemaphores.OFFSET 0, tmpBuff := zeros,
              ppc := PPc.write 0 Stage.halve, pcycle := 0, writes := 1,
              cpc := CPc.loopHead, ccycle := 0, reads := 0 },
    finished := false, finishChild := false, pending := false, sent := [], started := 2 }

/-- The state of the single-semaphore program, from a zeroed segment, after a whole pass of
the father and then its loop head, its acquire and its first two stores on slot 0. -/
def inWindowLocked : Semaphore.Sys :=
  { sem := 0,
    core := { mem := bump OFFSET 0, tmpBuff := zeros,
              ppc := PPc.write 0 Stage.halve, pcycle := 98, writes := 1,
              cpc := CPc.loopHead, ccycle := 100, reads := 0 } }

/-- The state of the program without semaphores after `raceSchedule`, from a zeroed segment:
both roles have left their loops, the child with the doubled slot 0 in its private copy. -/
def afterRace : NoSemaphores.Sys :=
  { core := { mem := pattern NoSemaphores.OFFSET, tmpBuff := bump NoSemaphores.OFFSET 0,
              ppc := PPc.done, pcycle := 0, writes := 2,
              cpc := CPc.done, ccycle := 0, reads := 1 },
    finished := true, finishChild := true, pending := false, sent := [(77, Sig.SIGUSR1)],
    started := 2 }


/-! ## The loops from the counters the startup left, and the steps left to the two roles -/

namespace Semaphore

/-- The state in which the two loops start after `fork`: the counter of the semaphore is the
one the startup left under `MY_SEM_ID`; a role whose `sharedMemAttach` returned false
(`fatherIn`, `childIn` false) skips its loop. -/
def start (st : St) (mem tmpBuff : Buffer) (fatherIn childIn : Bool) : Sys :=
  { sem := ((st.sems MY_SEM_ID).getD 0).toNat,
    core := { mem := mem, tmpBuff := tmpBuff,
              ppc := if fatherIn then PPc.loopHead else PPc.done,
              pcycle := CYCLE_NUMBER, writes := 0,
              cpc := if childIn then CPc.loopHead else CPc.done,
              ccycle := CYCLE_NUMBER, reads := 0 } }

end Semaphore

namespace Synchronization

/-- The state in which the two loops start after `fork`: the counters are the ones the
startup left under `SEM_ID_1` and `SEM_ID_2`; a role whose `sharedMemAttach` returned false
(`fatherIn`, `childIn` false) skips its loop. -/
def start (st : St) (mem tmpBuff : Buffer) (fatherIn childIn : Bool) : Sys :=
  { turnToWrite := ((st.sems SEM_ID_1).getD 0).toNat,
    turnToRead := ((st.sems SEM_ID_2).getD 0).toNat,
    core := { mem := mem, tmpBuff := tmpBuff,
              ppc := if fatherIn then PPc.loopHead else PPc.done,
              pcycle := CYCLE_NUMBER, writes := 0,
              cpc := if childIn then CPc.loopHead else CPc.done,
              ccycle := CYCLE_NUMBER, reads := 0 } }

end Synchronization

/-- The stores still to make on the slot the father stands on. -/
def Stage.left : Stage → Nat
  | Stage.init => 3
  | Stage.double => 2
  | Stage.halve => 1

/-- The steps the father still takes when no `semop` fails: 52 for each turn of the loop
(loop head, wait, 48 stores, signal, sleep) and the last look at `cycle`. -/
def stepsLeftP (c : Core) : Nat :=
  match c.ppc with
  | PPc.loopHead => 52 * c.pcycle + 1
  | PPc.acquire => 52 * c.pcycle + 52
  | PPc.write i k => 52 * c.pcycle + 3 + 3 * (15 - i) + k.left
  | PPc.release => 52 * c.pcycle + 3
  | PPc.sleep => 52 * c.pcycle + 2
  | PPc.done => 0
  | PPc.exited => 0

/-- The steps the child still takes when no `semop` fails: 21 for each turn of the loop
(loop head, wait, 16 copies, signal, pattern control, sleep) and the last look at `cycle`. -/
def stepsLeftC (c : Core) : Nat :=
  match c.cpc with
  | CPc.loopHead => 21 * c.ccycle + 1
  | CPc.acquire => 21 * c.ccycle + 21
  | CPc.copy i => 21 * c.ccycle + 5 + (15 - i)
  | CPc.release => 21 * c.ccycle + 4
  | CPc.verify => 21 * c.ccycle + 3
  | CPc.sleep => 21 * c.ccycle + 2
  | CPc.done => 0
  | CPc.exited => 0

/-- The steps the two roles still take. -/
def stepsLeft (c : Core) : Nat := stepsLeftP c + stepsLeftC c

/-- The bookkeeping of the two loops, of `n` turns each, as long as no `semop` has failed: for
a role that entered its loop the passes made and the turns left add up to `n`, and the loop
is left with `cycle` at 0 only; a role that skipped its loop has made no pass. -/
def Turns (n : Nat) (fatherIn childIn : Bool) (c : Core) : Prop :=
  (fatherIn = true →
    c.writes + c.pcycle + pendingP c.ppc = n ∧ (c.ppc = PPc.done → c.pcycle = 0)) ∧
  (fatherIn = false → c.ppc = PPc.done ∧ c.writes = 0) ∧
  (childIn = true →
    c.reads + c.ccycle + pendingC c.cpc = n ∧ (c.cpc = CPc.done → c.ccycle = 0)) ∧
  (childIn = false → c.cpc = CPc.done ∧ c.reads = 0) ∧
  c.ppc ≠ PPc.exited ∧ c.cpc ≠ CPc.exited

/-- Whether the father has taken a token for a write pass that `writes` does not count yet. -/
def tookP : PPc → Nat
  | PPc.write _ _ => 1
  | _ => 0

/-- Whether the father has completed a write pass and not yet given the token for it. -/
def owesP : PPc → Nat
  | PPc.release => 1
  | _ => 0

/-- Whether the child has taken a token for a copy pass that `reads` does not count yet. -/
def tookC : CPc → Nat
  | CPc.copy _ => 1
  | _ => 0

/-- Whether the child has completed a copy pass and not yet given the token for it. -/
def owesC : CPc → Nat
  | CPc.release => 1
  | _ => 0

namespace Semaphore

/-- The invariant of the runs in which no `semop` fails, from a counter at `v`: the tokens
in the counter and the ones held add up to `v`. -/
def Live (v : Nat) (fatherIn childIn : Bool) (s : Sys) : Prop :=
  s.sem + heldP s.core.ppc + heldC s.core.cpc = v ∧
  Turns CYCLE_NUMBER fatherIn childIn s.core

end Semaphore

namespace Synchronization

/-- The invariant of the runs in which no `semop` fails, from the counters at `w` and `r`:
each counter is its first value, plus the signals given to it, minus the waits passed on
it. -/
def Live (w r : Nat) (s : Sys) : Prop :=
  s.turnToWrite + s.core.writes + tookP s.core.ppc + owesC s.core.cpc = w + s.core.reads ∧
  s.turnToRead + s.core.reads + tookC s.core.cpc + owesP s.core.ppc = r + s.core.writes ∧
  Turns CYCLE_NUMBER true true s.core

end Synchronization

/-- The indices named by the sequence-error lines of a trace, in order. -/
def sequenceErrors : List Op → List Nat
  | [] => []
  | Op.printf (Msg.sequenceError i) :: rest => i :: sequenceErrors rest
  | _ :: rest => sequenceErrors rest

/-- The indices the pattern control reports in `n` turns of the child started in state `t`:
for each turn whose private copy departs from the pattern, the first index where it does. -/
def firstMismatches (e : Env) (t : St) (n : Nat) : List Nat :=
  (List.range n).filterMap
    (fun k => (verify OFFSET (NoSemaphores.tmpAfter e t (k + 1))).mismatch)

/-- A schedule in which no `semop` fails: each entry names the role that takes a step. -/
def runs (roles : List Role) : List Act := roles.map Act.run

/-! ### More concrete inputs -/

/-- The environment in which `semctl(SETVAL)` is refused and every other call succeeds. -/
def refusedEnv : Env := { calmEnv with setValFails := true }

/-- The father in an environment where the first `semop`, the wait of the first pass,
returns -1. -/
def waitFailsEnv : Env :=
  { calmEnv with forkRet := 7, semopRet := fun k => if k = 0 then -1 else 0 }

/-- The single-semaphore program with the counter at 0 and both roles at their first
`semAcquire`. -/
def bothWaiting : Semaphore.Sys :=
  { sem := 0,
    core := { mem := zeros, tmpBuff := zeros, ppc := PPc.acquire, pcycle := 99, writes := 0,
              cpc := CPc.acquire, ccycle := 99, reads := 0 } }

/-- The father of the handshake at its second `semWait`, after one write pass, the child
out of its loop. -/
def fatherWaiting : Synchronization.Sys :=
  { turnToWrite := 0, turnToRead := 1,
    core := { mem := pattern OFFSET, tmpBuff := zeros, ppc := PPc.acquire, pcycle := 48,
              writes := 1, cpc := CPc.done, ccycle := 50, reads := 0 } }

/-- The schedule in which the father enters its first write pass and makes two stores on
slot 0, and the child then enters its first copy pass and copies slot 0. -/
def overlapSchedule : List Act :=
  List.replicate 4 (Act.run Role.producer) ++ List.replicate 3 (Act.run Role.consumer)

/-- The handshake with both counters at 0 and both roles at their first `semWait`. -/
def bothWaitingHs : Synchronization.Sys :=
  { turnToWrite := 0, turnToRead := 0,
    core := { mem := zeros, tmpBuff := zeros, ppc := PPc.acquire, pcycle := 49, writes := 0,
              cpc := CPc.acquire, ccycle := 49, reads := 0 } }

/-- The state of the handshake after `overlapSchedule` when both counters start at 1, from a
zeroed segment: both roles inside their passes, the child with the doubled value. -/
def overlapState : Synchronization.Sys :=
  { turnToWrite := 0, turnToRead := 0,
    core := { mem := zeros.set 0 130000, tmpBuff := zeros.set 0 130000,
              ppc := PPc.write 0 Stage.halve, pcycle := 49, writes := 0,
              cpc := CPc.copy 1, ccycle := 49, reads := 0 } }

/-- The schedule of the first write pass of the father: 52 steps of the father alone. -/
def firstPass : List Role := List.replicate 52 Role.producer

/-- The single-semaphore program after the first write pass of the father, the child still
at its loop head, from a zeroed segment. -/
def afterFirstPass : Semaphore.Sys :=
  { sem := 1,
    core := { mem := pattern OFFSET, tmpBuff := zeros, ppc := PPc.loopHead, pcycle := 99,
              writes := 1, cpc := CPc.loopHead, ccycle := 100, reads := 0 } }

/-! ## Lemmas on the buffer passes -/

theorem length_store (m : Buffer) (i : Nat) (v : Int) : (store m i v).length = m.length := by
  simp [store]

theorem load_store (m : Buffer) (i j : Nat) (v : Int) :
    load (store m i v) j = if i = j ∧ i < m.length then v else load m j := by
  unfold load store
  simp only [List.getD_eq_getElem?_getD, List.getElem?_set]
  by_cases h : i = j
  · subst h
    by_cases h2 : i < m.length
    · simp [h2]
    · simp [h2]
      rw [List.getElem?_eq_none (by omega)]
      rfl
  · simp [h]

theorem load_store_same (m : Buffer) (i : Nat) (v : Int) (h : i < m.length) :
    load (store m i v) i = v := by
  rw [load_store]; simp [h]

theorem store_store (m : Buffer) (i : Nat) (v w : Int) : store (store m i v) i w = store m i w := by
  simp [store, List.set_set]

theorem expected_OFFSET (i : Nat) (h : i < 16) : expected OFFSET i = (i : Int) + 65000 := by
  unfold expected wrap64 OFFSET
  norm_num
  omega

theorem expected_NoSemaphores (i : Nat) (h : i < 16) :
    expected NoSemaphores.OFFSET i = (i : Int) + NoSemaphores.OFFSET := by
  unfold expected wrap64 NoSemaphores.OFFSET
  norm_num
  omega

theorem double_halve_OFFSET (i : Nat) (h : i < 16) :
    Int.tdiv (wrap64 (expected OFFSET i * 2)) 2 = (i : Int) + 65000 := by
  rw [expected_OFFSET i h]
  have : wrap64 (((i : Int) + 65000) * 2) = ((i : Int) + 65000) * 2 := by
    unfold wrap64
    norm_num
    omega
  rw [this]
  exact Int.mul_tdiv_cancel _ (by decide)

theorem writeElem_eq (off : Int) (m : Buffer) (i : Nat) (h : i < m.length) :
    writeElem off m i = store m i (Int.tdiv (wrap64 (expected off i * 2)) 2) := by
  unfold writeElem storeHalve storeDouble storeInit
  rw [load_store_same _ _ _ h, load_store_same _ _ _ (by rw [length_store]; exact h),
    store_store, store_store]

theorem foldl_store_range (f : Buffer → Nat → Buffer) (g : Nat → Int)
    (hf : ∀ m i, i < m.length → f m i = store m i (g i)) (m : Buffer) (n : Nat)
    (hn : n ≤ m.length) :
    ((List.range n).foldl f m).length = m.length ∧
      ∀ j, load ((List.range n).foldl f m) j = if j < n then g j else load m j := by
  induction n with
  | zero => simp
  | succ k ih =>
    obtain ⟨hl, hv⟩ := ih (by omega)
    rw [List.range_succ, List.foldl_append]
    simp only [List.foldl_cons, List.foldl_nil]
    rw [hf _ _ (by omega)]
    refine ⟨by rw [length_store, hl], fun j => ?_⟩
    rw [load_store, hv j, hl]
    by_cases h1 : k = j
    · subst h1; simp; omega
    · have : ¬ (k = j ∧ k < m.length) := fun h => h1 h.1
      rw [if_neg this]
      by_cases h2 : j < k
      · rw [if_pos h2, if_pos (by omega)]
      · rw [if_neg h2, if_neg (by omega)]

theorem length_pattern (off : Int) : (pattern off).length = 16 := by
  simp [pattern, BUFFER_SIZE]

theorem load_pattern (off : Int) (j : Nat) (h : j < 16) : load (pattern off) j = (j : Int) + off := by
  unfold load pattern BUFFER_SIZE
  rw [List.getD_eq_getElem?_getD, List.getElem?_map, List.getElem?_range h]
  rfl

theorem eq_pattern_of_load (off : Int) (l : Buffer) (hl : l.length = 16)
    (h : ∀ j, j < 16 → load l j = (j : Int) + off) : l = pattern off := by
  apply List.ext_getElem (by rw [hl, length_pattern])
  intro n h1 h2
  have hn : n < 16 := by omega
  have e1 := h n hn
  have e2 := load_pattern off n hn
  unfold load at e1 e2
  rw [List.getD_eq_getElem?_getD, List.getElem?_eq_getElem h1] at e1
  rw [List.getD_eq_getElem?_getD, List.getElem?_eq_getElem h2] at e2
  simp only [Option.getD_some] at e1 e2
  rw [e1, e2]

theorem writePass_OFFSET (mem : Buffer) (h : mem.length = 16) :
    (writePass OFFSET mem).length = 16 ∧ ∀ j, j < 16 → load (writePass OFFSET mem) j = (j : Int) + 65000 := by
  have key := foldl_store_range (writeElem OFFSET)
    (fun i => Int.tdiv (wrap64 (expected OFFSET i * 2)) 2)
    (fun m i hi => writeElem_eq OFFSET m i hi) mem 16 (by omega)
  refine ⟨by unfold writePass BUFFER_SIZE; rw [key.1, h], fun j hj => ?_⟩
  unfold writePass BUFFER_SIZE
  rw [key.2 j, if_pos hj]
  exact double_halve_OFFSET j hj

theorem copyPass_spec (mem tmpBuff : Buffer) (h : tmpBuff.length = 16) :
    (copyPass mem tmpBuff).length = 16 ∧ ∀ j, j < 16 → load (copyPass mem tmpBuff) j = load mem j := by
  have key := foldl_store_range (copyElem mem) (fun i => load mem i)
    (fun m i _ => rfl) tmpBuff 16 (by omega)
  refine ⟨by unfold copyPass BUFFER_SIZE; rw [key.1, h], fun j hj => ?_⟩
  unfold copyPass BUFFER_SIZE
  rw [key.2 j, if_pos hj]

theorem checkLoop_spec (off : Int) (tmpBuff : Buffer) (n i : Nat) (seen : List Nat) :
    ((checkLoop off tmpBuff n i seen).mismatch = none ∧
        (∀ j, i ≤ j → j < i + n → load tmpBuff j = expected off j) ∧
        (checkLoop off tmpBuff n i seen).examined = seen ++ List.range' i n) ∨
    (∃ k, (checkLoop off tmpBuff n i seen).mismatch = some k ∧ i ≤ k ∧ k < i + n ∧
        load tmpBuff k ≠ expected off k ∧
        (∀ j, i ≤ j → j < k → load tmpBuff j = expected off j) ∧
        (checkLoop off tmpBuff n i seen).examined = seen ++ List.range' i (k + 1 - i)) := by
  induction n generalizing i seen with
  | zero =>
    left
    refine ⟨rfl, fun j h1 h2 => by omega, by simp [checkLoop]⟩
  | succ n ih =>
    unfold checkLoop
    by_cases hne : load tmpBuff i ≠ expected off i
    · right
      rw [if_pos hne]
      refine ⟨i, rfl, le_refl _, by omega, hne, fun j h1 h2 => by omega, ?_⟩
      simp
    · rw [if_neg hne]
      have heq : load tmpBuff i = expected off i := not_not.mp hne
      rcases ih (i + 1) (seen ++ [i]) with ⟨h1, h2, h3⟩ | ⟨k, h1, h2, h3, h4, h5, h6⟩
      · left
        refine ⟨h1, fun j hj1 hj2 => ?_, ?_⟩
        · rcases Nat.eq_or_lt_of_le hj1 with e | l
          · subst e; exact heq
          · exact h2 j l (by omega)
        · rw [h3, List.append_assoc]; rfl
      · right
        refine ⟨k, h1, by omega, by omega, h4, fun j hj1 hj2 => ?_, ?_⟩
        · rcases Nat.eq_or_lt_of_le hj1 with e | l
          · subst e; exact heq
          · exact h5 j l hj2
        · rw [h6, List.append_assoc]
          have : k + 1 - i = (k + 1 - (i + 1)) + 1 := by omega
          rw [this]; rfl


/-! ## Lemmas on the sequential model -/

theorem run_bind {α β : Type} (m : M α) (f : α → M β) (s : St) :
    (m >>= f) s = M.bind m f s := rfl

theorem run_pure {α : Type} (a : α) (s : St) : (pure a : M α) s = ⟨[], s, Except.ok a⟩ := rfl

theorem bind_ok {α β : Type} (m : M α) (f : α → M β) (s : St) (a : α)
    (h : (m s).val = Except.ok a) :
    M.bind m f s = ⟨(m s).ops ++ (f a (m s).st).ops, (f a (m s).st).st, (f a (m s).st).val⟩ := by
  unfold M.bind
  rcases hm : m s with ⟨o, t, v⟩
  rw [hm] at h
  simp only at h
  subst h
  rfl

theorem bind_error {α β : Type} (m : M α) (f : α → M β) (s : St) (c : Int)
    (h : (m s).val = Except.error c) :
    M.bind m f s = ⟨(m s).ops, (m s).st, Except.error c⟩ := by
  unfold M.bind
  rcases hm : m s with ⟨o, t, v⟩
  rw [hm] at h
  simp only at h
  subst h
  rfl

theorem failFast_append (a b : List Op) (ha : ∀ o, o ∈ a → fatal o = false) :
    failFast (a ++ b) ↔ failFast b := by
  induction a with
  | nil => simp
  | cons x xs ih =>
    have hx : fatal x = false := ha x (List.mem_cons_self _ _)
    simp only [List.cons_append, failFast, hx, Bool.false_eq_true, if_false]
    exact ih (fun o ho => ha o (List.mem_cons_of_mem _ ho))

theorem failFast_split (t : List Op) (h : failFast t) (pre post : List Op) (o : Op)
    (ho : fatal o = true) (ht : t = pre ++ o :: post) :
    ∃ m, post = [Op.printf m, Op.exit (-1)] := by
  induction pre generalizing t with
  | nil =>
    subst ht
    simpa [failFast, ho] using h
  | cons p ps ih =>
    subst ht
    simp only [List.cons_append, failFast] at h
    by_cases hp : fatal p = true
    · rw [if_pos hp] at h
      obtain ⟨m, hm⟩ := h
      have h2 : o ∈ ps ++ o :: post := by simp
      have hm2 : ps ++ o :: post = [Op.printf m, Op.exit (-1)] := hm
      rw [hm2] at h2
      simp only [List.mem_cons, List.mem_singleton, List.not_mem_nil, or_false] at h2
      rcases h2 with e1 | e1 <;> rw [e1] at ho <;> simp [fatal] at ho
    · rw [if_neg hp] at h
      exact ih _ h rfl

theorem sentSignals_append (a b : List Op) :
    sentSignals (a ++ b) = sentSignals a ++ sentSignals b := by
  induction a with
  | nil => rfl
  | cons x xs ih =>
    cases x <;> simp [sentSignals, ih]

theorem writePasses_append (a b : List Op) :
    writePasses (a ++ b) = writePasses a + writePasses b := by
  simp [writePasses, List.countP_append]

theorem copyPasses_append (a b : List Op) :
    copyPasses (a ++ b) = copyPasses a + copyPasses b := by
  simp [copyPasses, List.countP_append]

theorem Run.bind {e : Env} {α β : Type} {m : M α} {f : α → M β} {s : St} {w c v d : Nat}
    (hm : Run e (m s) w c) (hf : ∀ a, (m s).val = Except.ok a → Run e (f a (m s).st) v d) :
    Run e (M.bind m f s) (w + v) (c + d) := by
  cases hv : (m s).val with
  | error x =>
    rw [bind_error m f s x hv]
    refine ⟨hm.fast, hm.signals, ⟨Nat.le_add_right_of_le hm.atMost.1,
      Nat.le_add_right_of_le hm.atMost.2⟩, fun a ha => by simp at ha, fun y hy => ?_⟩
    have : x = y := by simpa using hy
    subst this
    exact hm.err x hv
  | ok a =>
    rw [bind_ok m f s a hv]
    have h1 := hm.ok a hv
    have h2 := hf a hv
    refine ⟨?_, ?_, ⟨?_, ?_⟩, fun b hb => ?_, fun y hy => ?_⟩
    · show failFast ((m s).ops ++ (f a (m s).st).ops)
      rw [failFast_append _ _ (fun o ho => (h1.1 o ho).1)]
      exact h2.fast
    · show sentSignals ((m s).ops ++ (f a (m s).st).ops) = []
      rw [sentSignals_append, hm.signals, h2.signals]; rfl
    · show writePasses ((m s).ops ++ (f a (m s).st).ops) ≤ w + v
      rw [writePasses_append]
      exact Nat.add_le_add hm.atMost.1 h2.atMost.1
    · show copyPasses ((m s).ops ++ (f a (m s).st).ops) ≤ c + d
      rw [copyPasses_append]
      exact Nat.add_le_add hm.atMost.2 h2.atMost.2
    · have h3 := h2.ok b hb
      refine ⟨fun o ho => ?_, ?_, ?_⟩
      · have ho2 : o ∈ (m s).ops ++ (f a (m s).st).ops := ho
        rw [List.mem_append] at ho2
        exact ho2.elim (h1.1 o) (h3.1 o)
      · show writePasses ((m s).ops ++ (f a (m s).st).ops) = w + v
        rw [writePasses_append, h1.2.1, h3.2.1]
      · show copyPasses ((m s).ops ++ (f a (m s).st).ops) = c + d
        rw [copyPasses_append, h1.2.2, h3.2.2]
    · obtain ⟨e1, e2, pre, o, msg, e3, e4⟩ := h2.err y hy
      refine ⟨e1, e2, (m s).ops ++ pre, o, msg, e3, ?_⟩
      show (m s).ops ++ (f a (m s).st).ops = _
      rw [e4, List.append_assoc]

theorem Run.cast {e : Env} {α : Type} {r : Res α} {w c v d : Nat} (h : Run e r w c)
    (hw : w = v) (hc : c = d) : Run e r v d := by
  subst hw; subst hc; exact h

theorem Run.congr {e : Env} {α : Type} {r q : Res α} {w c : Nat} (h : Run e r w c)
    (hq : q = r) : Run e q w c := by
  subst hq; exact h

theorem quiet_run (e : Env) {α : Type} (r : Res α) (a : α) (hv : r.val = Except.ok a)
    (hq : ∀ o, o ∈ r.ops → quietOp o = true) : Run e r 0 0 := by
  have hq2 : ∀ o, o ∈ r.ops → fatal o = false ∧ isExit o = false ∧ isKill o = false ∧
      isCopyPass o = false ∧ o ≠ Op.writePass := by
    intro o ho
    have := hq o ho
    simpa [quietOp, and_assoc] using this
  have hw : writePasses r.ops = 0 := by
    unfold writePasses
    rw [List.countP_eq_zero]
    intro o ho
    simpa using (hq2 o ho).2.2.2.2
  have hc : copyPasses r.ops = 0 := by
    unfold copyPasses
    rw [List.countP_eq_zero]
    intro o ho
    simpa using (hq2 o ho).2.2.2.1
  refine ⟨?_, ?_, ⟨by omega, by omega⟩,
    fun _ _ => ⟨fun o ho => ⟨(hq2 o ho).1, (hq2 o ho).2.1⟩, hw, hc⟩,
    fun x hx => by rw [hv] at hx; simp at hx⟩
  · have := failFast_append r.ops [] (fun o ho => (hq2 o ho).1)
    rw [List.append_nil] at this
    exact this.mpr trivial
  · generalize r.ops = l at hq2
    induction l with
    | nil => rfl
    | cons x xs ih =>
      have hx := hq2 x (List.mem_cons_self _ _)
      have := ih (fun o ho => hq2 o (List.mem_cons_of_mem _ ho))
      cases x <;> simp_all [sentSignals, isKill]

theorem run_emit (e : Env) (o : Op) (s : St) (h : quietOp o = true) : Run e (emit o s) 0 0 :=
  quiet_run e _ () rfl (by intro x hx; simp [emit] at hx; rw [hx]; exact h)

theorem run_printf (e : Env) (m : Msg) (s : St) : Run e (printf m s) 0 0 :=
  run_emit e _ s rfl

theorem run_pure_unit (e : Env) {α : Type} (a : α) (s : St) : Run e ((pure a : M α) s) 0 0 :=
  quiet_run e _ a rfl (by simp [run_pure])

theorem run_writePass (e : Env) (s : St) : Run e (emit Op.writePass s) 1 0 := by
  refine ⟨by simp [emit, failFast, fatal], by simp [emit, sentSignals],
    by simp [emit, writePasses, copyPasses, isCopyPass], fun _ _ => ⟨by simp [emit, fatal, isExit], by simp [emit, writePasses],
      by simp [emit, copyPasses, isCopyPass]⟩, fun x hx => by simp [emit] at hx⟩

theorem run_copyOut (e : Env) (s : St) : Run e (copyOut e s) 0 1 := by
  refine ⟨by simp [copyOut, failFast, fatal], by simp [copyOut, sentSignals],
    by simp [copyOut, writePasses, copyPasses, isCopyPass], fun _ _ => ⟨by simp [copyOut, fatal, isExit], by simp [copyOut, writePasses],
      by simp [copyOut, copyPasses, isCopyPass]⟩, fun x hx => by simp [copyOut] at hx⟩

theorem run_patternControl (e : Env) (s : St) : Run e (patternControl s) 0 0 := by
  unfold patternControl
  cases (verify OFFSET s.tmpBuff).mismatch with
  | none => exact quiet_run e _ () rfl (by simp [M.pure])
  | some i => exact run_printf e _ s

theorem run_semop_check (e : Env) (semid delta : Int) (s : St) :
    Run e (M.bind (semop e semid delta) (fun r =>
      if r = -1 then M.bind (printf Msg.semAcquisitionFailed) (fun _ => exit (-1))
      else M.pure ()) s) 0 0 := by
  by_cases h : e.semopRet s.semopCalls = -1
  · refine ⟨by simp [M.bind, semop, h, printf, emit, exit, failFast, fatal],
      by simp [M.bind, semop, h, printf, emit, exit, sentSignals],
      by simp [M.bind, semop, h, printf, emit, exit, writePasses, copyPasses, isCopyPass],
      fun a ha => by simp [M.bind, semop, h, printf, emit, exit] at ha,
      fun x hx => ⟨by simp [M.bind, semop, h, printf, emit, exit] at hx; omega,
        Or.inr (Or.inr ⟨_, h⟩), [], Op.semop semid delta (-1), Msg.semAcquisitionFailed,
        by simp [fatal], by simp [M.bind, semop, h, printf, emit, exit]⟩⟩
  · exact quiet_run e _ () (by simp [M.bind, M.pure, semop, h])
      (by simp [M.bind, M.pure, semop, h, quietOp, fatal, isExit, isKill, isCopyPass])

theorem run_semAcquire (e : Env) (semid : Int) (s : St) : Run e (semAcquire e semid s) 0 0 :=
  run_semop_check e semid (-1) s

theorem run_semRelease (e : Env) (semid : Int) (s : St) : Run e (semRelease e semid s) 0 0 :=
  run_semop_check e semid 1 s

namespace Semaphore

theorem run_parentLoop (e : Env) (semid : Int) (c : Nat) (s : St) :
    Run e (parentLoop e semid c s) c 0 := by
  induction c generalizing s with
  | zero => exact run_pure_unit e () s
  | succ c ih =>
    exact Run.cast
      (Run.bind (run_semAcquire e semid s) (fun _ _ =>
        Run.bind (run_writePass e _) (fun _ _ =>
          Run.bind (run_semRelease e semid _) (fun _ _ =>
            Run.bind (run_emit e _ _ (by rfl)) (fun _ _ => ih _)))))
      (by omega) (by omega)

theorem run_childLoop (e : Env) (semid : Int) (c : Nat) (s : St) :
    Run e (childLoop e semid c s) 0 c := by
  induction c generalizing s with
  | zero => exact run_pure_unit e () s
  | succ c ih =>
    exact Run.cast
      (Run.bind (run_semAcquire e semid s) (fun _ _ =>
        Run.bind (run_copyOut e _) (fun _ _ =>
          Run.bind (run_semRelease e semid _) (fun _ _ =>
            Run.bind (run_patternControl e _) (fun _ _ =>
              Run.bind (run_emit e _ _ (by rfl)) (fun _ _ => ih _))))))
      (by omega) (by omega)

end Semaphore

namespace Synchronization

theorem run_parentLoop_hs (e : Env) (semid1 semid2 : Int) (c : Nat) (s : St) :
    Run e (parentLoop e semid1 semid2 c s) c 0 := by
  induction c generalizing s with
  | zero => exact run_pure_unit e () s
  | succ c ih =>
    exact Run.cast
      (Run.bind (run_semAcquire e semid1 s) (fun _ _ =>
        Run.bind (run_writePass e _) (fun _ _ =>
          Run.bind (run_semRelease e semid2 _) (fun _ _ =>
            Run.bind (run_emit e _ _ (by rfl)) (fun _ _ => ih _)))))
      (by omega) (by omega)

theorem run_childLoop_hs (e : Env) (semid1 semid2 : Int) (c : Nat) (s : St) :
    Run e (childLoop e semid1 semid2 c s) 0 c := by
  induction c generalizing s with
  | zero => exact run_pure_unit e () s
  | succ c ih =>
    exact Run.cast
      (Run.bind (run_semAcquire e semid2 s) (fun _ _ =>
        Run.bind (run_copyOut e _) (fun _ _ =>
          Run.bind (run_semRelease e semid1 _) (fun _ _ =>
            Run.bind (run_patternControl e _) (fun _ _ =>
              Run.bind (run_emit e _ _ (by rfl)) (fun _ _ => ih _))))))
      (by omega) (by omega)

end Synchronization

theorem run_sharedMemCreation (e : Env) (key : Int) (s : St) :
    Run e (sharedMemCreation e key s) 0 0 := by
  by_cases h : 0 ≤ e.shmgetRet
  · have hn : ¬ e.shmgetRet < 0 := by omega
    cases hc : e.statCreate
    · exact quiet_run e _ e.shmgetRet
        (by simp [sharedMemCreation, run_bind, run_pure, M.bind, emit, printf, shmctlStat, h, hc])
        (by simp [sharedMemCreation, run_bind, run_pure, M.bind, emit, printf, shmctlStat, h, hc,
              quietOp, fatal, isExit, isKill, isCopyPass, hn])
    · exact quiet_run e _ e.shmgetRet
        (by simp [sharedMemCreation, run_bind, run_pure, M.bind, emit, printf, shmctlStat, h, hc])
        (by simp [sharedMemCreation, run_bind, run_pure, M.bind, emit, printf, shmctlStat, h, hc,
              quietOp, fatal, isExit, isKill, isCopyPass, hn])
  · have hn : e.shmgetRet < 0 := by omega
    have hops : (sharedMemCreation e key s).ops =
        [Op.shmget key (e.sizeofPtr * BUFFER_SIZE) true e.shmgetRet,
          Op.printf Msg.shmNotFound, Op.exit (-1)] := by
      simp [sharedMemCreation, run_bind, run_pure, M.bind, emit, printf, exit, h]
    have hval : (sharedMemCreation e key s).val = Except.error (-1) := by
      simp [sharedMemCreation, run_bind, run_pure, M.bind, emit, printf, exit, h]
    refine ⟨by rw [hops]; simp [failFast, fatal, hn], by rw [hops]; simp [sentSignals],
      by rw [hops]; simp [writePasses, copyPasses, isCopyPass],
      fun a ha => by rw [hval] at ha; simp at ha,
      fun x hx => ⟨by rw [hval] at hx; simp at hx; omega, Or.inl hn, [], _, _,
        by simp [fatal, hn], hops⟩⟩

theorem sharedMemCreation_val (e : Env) (key : Int) (s : St) (a : Int)
    (h : (sharedMemCreation e key s).val = Except.ok a) : a = e.shmgetRet := by
  by_cases h0 : 0 ≤ e.shmgetRet
  · cases hc : e.statCreate <;>
      simp [sharedMemCreation, run_bind, run_pure, M.bind, emit, printf, shmctlStat, h0, hc] at h <;>
      exact h.symm
  · simp [sharedMemCreation, run_bind, run_pure, M.bind, emit, printf, exit, h0] at h

theorem run_sharedMemAttach (e : Env) (shmid : Int) (s : St) :
    Run e (sharedMemAttach e shmid s) 0 0 ∧
      (sharedMemAttach e shmid s).val = Except.ok e.statAttach := by
  cases hc : e.statAttach
  · exact ⟨quiet_run e _ false
      (by simp [sharedMemAttach, run_bind, run_pure, M.bind, emit, printf, shmctlStat, hc])
      (by simp [sharedMemAttach, run_bind, run_pure, M.bind, emit, printf, shmctlStat, hc,
            quietOp, fatal, isExit, isKill, isCopyPass]),
      by simp [sharedMemAttach, run_bind, run_pure, M.bind, emit, printf, shmctlStat, hc]⟩
  · exact ⟨quiet_run e _ true
      (by simp [sharedMemAttach, run_bind, run_pure, M.bind, emit, printf, shmctlStat, hc])
      (by simp [sharedMemAttach, run_bind, run_pure, M.bind, emit, printf, shmctlStat, hc,
            quietOp, fatal, isExit, isKill, isCopyPass]),
      by simp [sharedMemAttach, run_bind, run_pure, M.bind, emit, printf, shmctlStat, hc]⟩

theorem run_sharedMemDetaches (e : Env) (shmid : Int) (s : St) :
    Run e (sharedMemDetaches e shmid s) 0 0 := by
  by_cases h : e.shmdtRet = -1
  · exact quiet_run e _ ()
      (by simp [sharedMemDetaches, run_bind, run_pure, M.bind, emit, printf, shmctlStat, h])
      (by simp [sharedMemDetaches, run_bind, run_pure, M.bind, emit, printf, shmctlStat, h,
              quietOp, fatal, isExit, isKill, isCopyPass])
  · cases hc : e.statDetach
    · exact quiet_run e _ ()
        (by simp [sharedMemDetaches, run_bind, run_pure, M.bind, emit, printf, shmctlStat, h, hc])
        (by simp [sharedMemDetaches, run_bind, run_pure, M.bind, emit, printf, shmctlStat, h, hc,
              quietOp, fatal, isExit, isKill, isCopyPass])
    · exact quiet_run e _ ()
        (by simp [sharedMemDetaches, run_bind, run_pure, M.bind, emit, printf, shmctlStat, h, hc])
        (by simp [sharedMemDetaches, run_bind, run_pure, M.bind, emit, printf, shmctlStat, h, hc,
              quietOp, fatal, isExit, isKill, isCopyPass])

theorem run_semDelete (e : Env) (semid : Int) (s : St) : Run e (semDelete semid s) 0 0 := by
  cases h : s.sems semid
  · exact quiet_run e _ ()
      (by simp [semDelete, run_bind, run_pure, M.bind, semctlRmid, printf, emit, h])
      (by simp [semDelete, run_bind, run_pure, M.bind, semctlRmid, printf, emit, h,
              quietOp, fatal, isExit, isKill, isCopyPass])
  · exact quiet_run e _ ()
      (by simp [semDelete, run_bind, run_pure, M.bind, semctlRmid, printf, emit, h])
      (by simp [semDelete, run_bind, run_pure, M.bind, semctlRmid, printf, emit, h,
              quietOp, fatal, isExit, isKill, isCopyPass])

theorem run_createUnlocked (e : Env) (key : Int) (hk : 0 ≤ key) (s : St) :
    Run e (createUnlocked e key s) 0 0 ∧
      ∀ a, (createUnlocked e key s).val = Except.ok a → a = key := by
  have hk2 : ¬ key = -1 := by omega
  cases hf : e.semgetFails key
  · cases hs : s.sems key <;> cases hv : e.setValFails <;>
      exact ⟨quiet_run e _ key
        (by simp [createUnlocked, semCreate, semSetVal, semget, semctlSetVal, semctlGetVal,
              run_bind, run_pure, M.bind, emit, printf, hf, hs, hv, hk, hk2, setSem])
        (by simp [createUnlocked, semCreate, semSetVal, semget, semctlSetVal, semctlGetVal,
              run_bind, run_pure, M.bind, emit, printf, hf, hs, hv, hk, hk2, setSem,
              quietOp, fatal, isExit, isKill, isCopyPass]),
        fun a ha => by
          simp [createUnlocked, semCreate, semSetVal, semget, semctlSetVal, semctlGetVal,
              run_bind, run_pure, M.bind, emit, printf, hf, hs, hv, hk, hk2, setSem] at ha
          exact ha.symm⟩
  · have hops : (createUnlocked e key s).ops =
        [Op.semget key (-1), Op.printf Msg.semCreationError, Op.exit (-1)] := by
      simp [createUnlocked, semCreate, semget, run_bind, run_pure, M.bind, emit, printf, exit, hf]
    have hval : (createUnlocked e key s).val = Except.error (-1) := by
      simp [createUnlocked, semCreate, semget, run_bind, run_pure, M.bind, emit, printf, exit, hf]
    refine ⟨⟨by rw [hops]; simp [failFast, fatal], by rw [hops]; simp [sentSignals],
      by rw [hops]; simp [writePasses, copyPasses, isCopyPass],
      fun a ha => by rw [hval] at ha; simp at ha,
      fun x hx => ⟨by rw [hval] at hx; simp at hx; omega, Or.inr (Or.inl ⟨key, hf⟩), [], _, _,
        by simp [fatal], hops⟩⟩, fun a ha => by rw [hval] at ha; simp at ha⟩

theorem run_createLocked (e : Env) (key : Int) (hk : 0 ≤ key) (s : St) :
    Run e (createLocked e key s) 0 0 ∧
      ∀ a, (createLocked e key s).val = Except.ok a → a = key := by
  have hk2 : ¬ key = -1 := by omega
  cases hf : e.semgetFails key
  · cases hs : s.sems key <;>
      exact ⟨quiet_run e _ key
        (by simp [createLocked, semCreate, semget, semctlGetVal,
              run_bind, run_pure, M.bind, emit, printf, hf, hs, hk, hk2, setSem])
        (by simp [createLocked, semCreate, semget, semctlGetVal,
              run_bind, run_pure, M.bind, emit, printf, hf, hs, hk, hk2, setSem,
              quietOp, fatal, isExit, isKill, isCopyPass]),
        fun a ha => by
          simp [createLocked, semCreate, semget, semctlGetVal,
              run_bind, run_pure, M.bind, emit, printf, hf, hs, hk, hk2, setSem] at ha
          exact ha.symm⟩
  · have hops : (createLocked e key s).ops =
        [Op.semget key (-1), Op.printf Msg.semCreationError, Op.exit (-1)] := by
      simp [createLocked, semCreate, semget, run_bind, run_pure, M.bind, emit, printf, exit, hf]
    have hval : (createLocked e key s).val = Except.error (-1) := by
      simp [createLocked, semCreate, semget, run_bind, run_pure, M.bind, emit, printf, exit, hf]
    refine ⟨⟨by rw [hops]; simp [failFast, fatal], by rw [hops]; simp [sentSignals],
      by rw [hops]; simp [writePasses, copyPasses, isCopyPass],
      fun a ha => by rw [hval] at ha; simp at ha,
      fun x hx => ⟨by rw [hval] at hx; simp at hx; omega, Or.inr (Or.inl ⟨key, hf⟩), [], _, _,
        by simp [fatal], hops⟩⟩, fun a ha => by rw [hval] at ha; simp at ha⟩

theorem run_ite (e : Env) {α : Type} (p : Prop) [Decidable p] (a b : M α) (s : St) (w c : Nat)
    (ha : p → Run e (a s) w c) (hb : ¬ p → Run e (b s) w c) :
    Run e ((if p then a else b) s) w c := by
  by_cases h : p
  · rw [if_pos h]; exact ha h
  · rw [if_neg h]; exact hb h

theorem run_fork (e : Env) (s : St) :
    Run e (fork e s) 0 0 ∧ (fork e s).val = Except.ok e.forkRet :=
  ⟨quiet_run e _ e.forkRet (by simp [fork, run_bind, run_pure, M.bind, emit])
    (by simp [fork, run_bind, run_pure, M.bind, emit, quietOp, fatal, isExit, isKill,
          isCopyPass]),
   by simp [fork, run_bind, run_pure, M.bind, emit]⟩

theorem run_setChildPid (e : Env) (pid : Int) (s : St) : Run e (setChildPid pid s) 0 0 :=
  quiet_run e _ () rfl (by simp [setChildPid])

theorem run_epilogue (e : Env) (s : St) :
    Run e (epilogue s) 0 0 ∧ (epilogue s).val = Except.ok 0 :=
  ⟨quiet_run e _ 0 (by simp [epilogue, run_bind, run_pure, M.bind, emit, printf])
    (by simp [epilogue, run_bind, run_pure, M.bind, emit, printf, quietOp, fatal, isExit,
          isKill, isCopyPass]),
   by simp [epilogue, run_bind, run_pure, M.bind, emit, printf]⟩

theorem bind_val {α β : Type} (m : M α) (f : α → M β) (s : St) (P : β → Prop)
    (h : ∀ a t b, (f a t).val = Except.ok b → P b) (b : β)
    (hb : (M.bind m f s).val = Except.ok b) : P b := by
  cases hv : (m s).val with
  | error x => rw [bind_error m f s x hv] at hb; simp at hb
  | ok a =>
    rw [bind_ok m f s a hv] at hb
    exact h a _ b hb

theorem Run.after {e : Env} {α β : Type} {m : M α} {f : α → M β} {s : St} {w c : Nat}
    (hm : Run e (m s) 0 0) (hf : ∀ a, (m s).val = Except.ok a → Run e (f a (m s).st) w c) :
    Run e (M.bind m f s) w c :=
  Run.cast (Run.bind hm hf) (Nat.zero_add w) (Nat.zero_add c)

theorem Run.before {e : Env} {α β : Type} {m : M α} {f : α → M β} {s : St} {w c : Nat}
    (hm : Run e (m s) w c) (hf : ∀ a, (m s).val = Except.ok a → Run e (f a (m s).st) 0 0) :
    Run e (M.bind m f s) w c :=
  Run.cast (Run.bind hm hf) (Nat.add_zero w) (Nat.add_zero c)

theorem run_rmidLine (e : Env) (s : St) :
    Run e ((if e.shmRmidRet = 0 then printf Msg.segmentRemoved
      else printf Msg.segmentRemoveFail) s) 0 0 :=
  run_ite e _ _ _ _ 0 0 (fun _ => run_printf e _ _) (fun _ => run_printf e _ _)

namespace Semaphore

theorem run_father (e : Env) (shmid semid : Int) (s : St) :
    Run e (father e shmid semid s) (if e.statAttach = true then CYCLE_NUMBER else 0) 0 := by
  unfold father
  apply Run.after (run_printf e _ _); intro _ _
  apply Run.after (run_sharedMemAttach e shmid _).1; intro a ha
  apply Run.before
  · rw [(run_sharedMemAttach e shmid _).2] at ha
    have ha2 : e.statAttach = a := by simpa using ha
    subst ha2
    cases hc : e.statAttach
    · simp only [Bool.false_eq_true, if_false]; exact run_pure_unit e _ _
    · simp only [if_true]; exact run_parentLoop e semid _ _
  intro _ _
  apply Run.after (run_emit e _ _ (by rfl)); intro _ _
  apply Run.after (run_sharedMemDetaches e shmid _); intro _ _
  apply Run.after (run_emit e _ _ (by rfl)); intro _ _
  apply Run.after (run_rmidLine e _); intro _ _
  exact run_semDelete e semid _

theorem run_child (e : Env) (semid : Int) (s : St) :
    Run e (child e semid s) 0 (if e.statAttach = true then CYCLE_NUMBER else 0) := by
  unfold child
  apply Run.after (run_printf e _ _); intro _ _
  apply Run.after (run_emit e _ _ (by rfl)); intro _ _
  apply Run.after (run_sharedMemAttach e _ _).1; intro a ha
  apply Run.before
  · rw [(run_sharedMemAttach e _ _).2] at ha
    have ha2 : e.statAttach = a := by simpa using ha
    subst ha2
    cases hc : e.statAttach
    · simp only [Bool.false_eq_true, if_false]; exact run_pure_unit e _ _
    · simp only [if_true]; exact run_childLoop e semid _ _
  intro _ _
  exact run_sharedMemDetaches e _ _

theorem run_startup (e : Env) (s : St) : Run e (startup e s) 0 0 := by
  unfold startup
  apply Run.after (run_emit e _ _ (by rfl)); intro _ _
  apply Run.after (run_sharedMemCreation e _ _); intro _ _
  apply Run.after (run_createUnlocked e MY_SEM_ID (by decide) _).1; intro _ _
  exact run_pure_unit e _ _

theorem run_main (e : Env) (s : St) : Run e (main e s) (passes e).1 (passes e).2 := by
  unfold main
  apply Run.after (run_startup e s); intro ids _
  apply Run.after (run_fork e _).1; intro r hr
  rw [(run_fork e _).2] at hr
  have hr2 : e.forkRet = r := by simpa using hr
  subst hr2
  apply Run.after (run_ite e _ _ _ _ 0 0 (fun _ => run_setChildPid e _ _)
          (fun _ => run_pure_unit e _ _)); intro _ _
  apply Run.before
  · unfold passes
    by_cases h1 : 0 < e.forkRet
    · have : e.forkRet > 0 := h1
      simp only [h1, this, if_true]
      exact run_father e _ _ _
    · by_cases h2 : e.forkRet = 0
      · simp only [h2, gt_iff_lt, lt_self_iff_false, if_false, if_true]
        exact run_child e _ _
      · have : ¬ e.forkRet > 0 := h1
        simp only [h1, this, h2, if_false]
        exact run_printf e _ _
  intro _ _
  exact (run_epilogue e _).1

theorem main_val (e : Env) (s : St) (a : Int) (h : (main e s).val = Except.ok a) : a = 0 := by
  refine bind_val _ _ s (fun b => b = 0) (fun ids t b hb => ?_) a h
  refine bind_val _ _ t (fun b => b = 0) (fun r t2 b hb => ?_) b hb
  refine bind_val _ _ t2 (fun b => b = 0) (fun _ t3 b hb => ?_) b hb
  refine bind_val _ _ t3 (fun b => b = 0) (fun _ t4 b hb => ?_) b hb
  rw [(run_epilogue e t4).2] at hb
  simpa using hb.symm

end Semaphore

namespace Synchronization

theorem run_father_hs (e : Env) (shmid semid1 semid2 : Int) (s : St) :
    Run e (father e shmid semid1 semid2 s) (if e.statAttach = true then CYCLE_NUMBER else 0) 0 := by
  unfold father
  apply Run.after (run_printf e _ _); intro _ _
  apply Run.after (run_sharedMemAttach e shmid _).1; intro a ha
  apply Run.before
  · rw [(run_sharedMemAttach e shmid _).2] at ha
    have ha2 : e.statAttach = a := by simpa using ha
    subst ha2
    cases hc : e.statAttach
    · simp only [Bool.false_eq_true, if_false]; exact run_pure_unit e _ _
    · simp only [if_true]; exact run_parentLoop_hs e semid1 semid2 _ _
  intro _ _
  apply Run.after (run_emit e _ _ (by rfl)); intro _ _
  apply Run.after (run_sharedMemDetaches e shmid _); intro _ _
  apply Run.after (run_emit e _ _ (by rfl)); intro _ _
  apply Run.after (run_rmidLine e _); intro _ _
  apply Run.after (run_semDelete e semid1 _); intro _ _
  exact run_semDelete e semid2 _

theorem run_child_hs (e : Env) (semid1 semid2 : Int) (s : St) :
    Run e (child e semid1 semid2 s) 0 (if e.statAttach = true then CYCLE_NUMBER else 0) := by
  unfold child
  apply Run.after (run_printf e _ _); intro _ _
  apply Run.after (run_emit e _ _ (by rfl)); intro _ _
  apply Run.after (run_sharedMemAttach e _ _).1; intro a ha
  apply Run.before
  · rw [(run_sharedMemAttach e _ _).2] at ha
    have ha2 : e.statAttach = a := by simpa using ha
    subst ha2
    cases hc : e.statAttach
    · simp only [Bool.false_eq_true, if_false]; exact run_pure_unit e _ _
    · simp only [if_true]; exact run_childLoop_hs e semid1 semid2 _ _
  intro _ _
  exact run_sharedMemDetaches e _ _

theorem run_startup_hs (e : Env) (s : St) : Run e (startup e s) 0 0 := by
  unfold startup
  apply Run.after (run_emit e _ _ (by rfl)); intro _ _
  apply Run.after (run_sharedMemCreation e _ _); intro _ _
  apply Run.after (run_createUnlocked e SEM_ID_1 (by decide) _).1; intro _ _
  apply Run.after (run_createLocked e SEM_ID_2 (by decide) _).1; intro _ _
  exact run_pure_unit e _ _

theorem run_main_hs (e : Env) (s : St) : Run e (main e s) (passes e).1 (passes e).2 := by
  unfold main
  apply Run.after (run_startup_hs e s); intro ids _
  apply Run.after (run_fork e _).1; intro r hr
  rw [(run_fork e _).2] at hr
  have hr2 : e.forkRet = r := by simpa using hr
  subst hr2
  apply Run.after (run_ite e _ _ _ _ 0 0 (fun _ => run_setChildPid e _ _)
          (fun _ => run_pure_unit e _ _)); intro _ _
  apply Run.before
  · unfold passes
    by_cases h1 : 0 < e.forkRet
    · have : e.forkRet > 0 := h1
      simp only [h1, this, if_true]
      exact run_father_hs e _ _ _ _
    · by_cases h2 : e.forkRet = 0
      · simp only [h2, gt_iff_lt, lt_self_iff_false, if_false, if_true]
        exact run_child_hs e _ _ _
      · have : ¬ e.forkRet > 0 := h1
        simp only [h1, this, h2, if_false]
        exact run_printf e _ _
  intro _ _
  exact (run_epilogue e _).1

theorem main_val_hs (e : Env) (s : St) (a : Int) (h : (main e s).val = Except.ok a) : a = 0 := by
  refine bind_val _ _ s (fun b => b = 0) (fun ids t b hb => ?_) a h
  refine bind_val _ _ t (fun b => b = 0) (fun r t2 b hb => ?_) b hb
  refine bind_val _ _ t2 (fun b => b = 0) (fun _ t3 b hb => ?_) b hb
  refine bind_val _ _ t3 (fun b => b = 0) (fun _ t4 b hb => ?_) b hb
  rw [(run_epilogue e t4).2] at hb
  simpa using hb.symm

end Synchronization

/-- With nothing fatal in the environment a run ends normally. -/
theorem run_ok {e : Env} {α : Type} {r : Res α} {w c : Nat} (h : Run e r w c)
    (hc : ¬ Cause e) : ∃ a, r.val = Except.ok a := by
  cases hv : r.val with
  | ok a => exact ⟨a, rfl⟩
  | error x => exact absurd (h.err x hv).2.1 hc

/-! ### Two runs that differ in printed lines and stat results only -/

theorem protocolOps_append (a b : List Op) :
    protocolOps (a ++ b) = protocolOps a ++ protocolOps b := by
  simp [protocolOps]

theorem sameProtocol_refl {α : Type} (r : Res α) : sameProtocol r r := ⟨rfl, rfl, rfl⟩

theorem sameProtocol_bind {α β : Type} (m n : M α) (f g : α → M β) (s : St)
    (hm : sameProtocol (m s) (n s)) (hf : ∀ a t, sameProtocol (f a t) (g a t)) :
    sameProtocol (M.bind m f s) (M.bind n g s) := by
  obtain ⟨h1, h2, h3⟩ := hm
  cases hv : (m s).val with
  | error x =>
    rw [bind_error m f s x hv, bind_error n g s x (by rw [← h3, hv])]
    exact ⟨h1, h2, rfl⟩
  | ok a =>
    rw [bind_ok m f s a hv, bind_ok n g s a (by rw [← h3, hv])]
    obtain ⟨k1, k2, k3⟩ := hf a (m s).st
    refine ⟨?_, ?_, ?_⟩
    · show protocolOps ((m s).ops ++ (f a (m s).st).ops) =
        protocolOps ((n s).ops ++ (g a (n s).st).ops)
      rw [protocolOps_append, protocolOps_append, h1, k1, h2]
    · show (f a (m s).st).st = (g a (n s).st).st
      rw [k2, h2]
    · show (f a (m s).st).val = (g a (n s).st).val
      rw [k3, h2]

theorem sameProtocol_sharedMemCreation (e : Env) (b d : Bool) (key : Int) (s : St) :
    sameProtocol (sharedMemCreation (withStat e b d) key s) (sharedMemCreation e key s) := by
  by_cases h : 0 ≤ e.shmgetRet
  · cases hc : e.statCreate <;> cases b <;>
      simp [sameProtocol, withStat, sharedMemCreation, run_bind, run_pure, M.bind, emit, printf,
        shmctlStat, h, hc, protocolOps]
  · simp [sameProtocol, withStat, sharedMemCreation, run_bind, run_pure, M.bind, emit, printf,
        exit, h, protocolOps]

theorem sameProtocol_sharedMemDetaches (e : Env) (b d : Bool) (shmid : Int) (s : St) :
    sameProtocol (sharedMemDetaches (withStat e b d) shmid s) (sharedMemDetaches e shmid s) := by
  by_cases h : e.shmdtRet = -1
  · simp [sameProtocol, withStat, sharedMemDetaches, run_bind, run_pure, M.bind, emit, printf,
        h, protocolOps]
  · cases hc : e.statDetach <;> cases d <;>
      simp [sameProtocol, withStat, sharedMemDetaches, run_bind, run_pure, M.bind, emit, printf,
        shmctlStat, h, hc, protocolOps]

namespace Semaphore

theorem parentLoop_withStat (e : Env) (b d : Bool) (semid : Int) (c : Nat) :
    parentLoop (withStat e b d) semid c = parentLoop e semid c := by
  induction c with
  | zero => rfl
  | succ c ih => simp only [parentLoop, ih]; rfl

theorem childLoop_withStat (e : Env) (b d : Bool) (semid : Int) (c : Nat) :
    childLoop (withStat e b d) semid c = childLoop e semid c := by
  induction c with
  | zero => rfl
  | succ c ih => simp only [childLoop, ih]; rfl

theorem sameProtocol_father (e : Env) (b d : Bool) (shmid semid : Int) (s : St) :
    sameProtocol (father (withStat e b d) shmid semid s) (father e shmid semid s) := by
  unfold father
  rw [parentLoop_withStat]
  apply sameProtocol_bind _ _ _ _ _ (sameProtocol_refl _); intro _ t
  apply sameProtocol_bind _ _ _ _ _ (sameProtocol_refl _); intro _ t
  apply sameProtocol_bind _ _ _ _ _ (sameProtocol_refl _); intro _ t
  apply sameProtocol_bind _ _ _ _ _ (sameProtocol_refl _); intro _ t
  apply sameProtocol_bind _ _ _ _ _ (sameProtocol_sharedMemDetaches e b d _ _); intro _ t
  exact sameProtocol_refl _

theorem sameProtocol_child (e : Env) (b d : Bool) (semid : Int) (s : St) :
    sameProtocol (child (withStat e b d) semid s) (child e semid s) := by
  unfold child
  rw [childLoop_withStat]
  apply sameProtocol_bind _ _ _ _ _ (sameProtocol_refl _); intro _ t
  apply sameProtocol_bind _ _ _ _ _ (sameProtocol_refl _); intro _ t
  apply sameProtocol_bind _ _ _ _ _ (sameProtocol_refl _); intro _ t
  apply sameProtocol_bind _ _ _ _ _ (sameProtocol_refl _); intro _ t
  exact sameProtocol_sharedMemDetaches e b d _ _

theorem sameProtocol_main (e : Env) (b d : Bool) (s : St) :
    sameProtocol (main (withStat e b d) s) (main e s) := by
  unfold main startup
  apply sameProtocol_bind
  · apply sameProtocol_bind _ _ _ _ _ (sameProtocol_refl _); intro _ t
    apply sameProtocol_bind _ _ _ _ _ (sameProtocol_sharedMemCreation e b d _ _); intro _ t
    exact sameProtocol_refl _
  intro ids t
  apply sameProtocol_bind _ _ _ _ _ (sameProtocol_refl _); intro r t
  apply sameProtocol_bind _ _ _ _ _ (sameProtocol_refl _); intro _ t
  apply sameProtocol_bind
  · by_cases h1 : r > 0
    · simp only [h1, if_true]; exact sameProtocol_father e b d _ _ _
    · by_cases h2 : r = 0
      · simp only [h2, gt_iff_lt, lt_self_iff_false, if_false, if_true]
        exact sameProtocol_child e b d _ _
      · simp only [h1, h2, if_false]; exact sameProtocol_refl _
  intro _ t
  exact sameProtocol_refl _

end Semaphore
theorem calm_no_cause (e : Env) (h1 : 0 ≤ e.shmgetRet) (h2 : ∀ k, e.semgetFails k = false)
    (h3 : ∀ k, e.semopRet k ≠ -1) : ¬ Cause e := by
  rintro (h | ⟨k, h⟩ | ⟨k, h⟩)
  · omega
  · rw [h2 k] at h; exact Bool.noConfusion h
  · exact h3 k h


/-! ## Lemmas on the interleavings -/

theorem store_values_OFFSET (i : Nat) (h : i < 16) :
    expected OFFSET i = (i : Int) + 65000 ∧
    wrap64 (((i : Int) + 65000) * 2) = 2 * ((i : Int) + 65000) ∧
    Int.tdiv (2 * ((i : Int) + 65000)) 2 = (i : Int) + 65000 := by
  refine ⟨expected_OFFSET i h, ?_, ?_⟩
  · unfold wrap64
    norm_num
    omega
  · exact Int.mul_tdiv_cancel_left _ (by decide)

theorem load_pattern_OFFSET (j : Nat) (h : j < 16) : load (pattern OFFSET) j = (j : Int) + 65000 :=
  load_pattern OFFSET j h

theorem PData_producerLocal (mem0 : Buffer) (c d : Core) (h : PData mem0 c)
    (hs : producerLocal OFFSET c = some d) : PData mem0 d := by
  rcases c with ⟨mem, tmp, ppc, pcy, w, cpc, ccy, r⟩
  obtain ⟨hl, hp⟩ := h
  simp only at hl
  cases ppc with
  | loopHead =>
    simp only [producerLocal] at hs
    split at hs <;> (have hs := Option.some.inj hs; subst hs; exact ⟨hl, hp⟩)
  | acquire => simp [producerLocal] at hs
  | release => simp [producerLocal] at hs
  | done => simp [producerLocal] at hs
  | exited => simp [producerLocal] at hs
  | sleep =>
    simp only [producerLocal] at hs
    have hs := Option.some.inj hs; subst hs; exact ⟨hl, hp⟩
  | write i k =>
    simp only at hp
    obtain ⟨hi, hlow, h1, h2⟩ := hp
    have hv := store_values_OFFSET i hi
    cases k with
    | init =>
      simp only [producerLocal] at hs
      have hs := Option.some.inj hs; subst hs
      refine ⟨by simp [storeInit, length_store, hl], hi, fun j hj => ?_, fun _ => ?_,
        fun h => by simp at h⟩
      · show load (storeInit OFFSET mem i) j = _
        unfold storeInit
        rw [load_store, if_neg (by omega)]
        exact hlow j hj
      · show load (storeInit OFFSET mem i) i = _
        unfold storeInit
        rw [load_store_same _ _ _ (by omega)]
        exact hv.1
    | double =>
      simp only [producerLocal] at hs
      have hs := Option.some.inj hs; subst hs
      refine ⟨by simp [storeDouble, length_store, hl], hi, fun j hj => ?_,
        fun h => by simp at h, fun _ => ?_⟩
      · show load (storeDouble mem i) j = _
        unfold storeDouble
        rw [load_store, if_neg (by omega)]
        exact hlow j hj
      · show load (storeDouble mem i) i = _
        unfold storeDouble
        rw [load_store_same _ _ _ (by omega), h1 rfl]
        exact hv.2.1
    | halve =>
      have hset : ∀ j, j < i + 1 → load (storeHalve mem i) j = (j : Int) + 65000 := by
        intro j hj
        unfold storeHalve
        rw [load_store]
        by_cases hij : i = j
        · subst hij
          rw [if_pos ⟨rfl, by omega⟩, h2 rfl]
          exact hv.2.2
        · rw [if_neg (fun h => hij h.1)]
          exact hlow j (by omega)
      have hlen : (storeHalve mem i).length = 16 := by simp [storeHalve, length_store, hl]
      simp only [producerLocal] at hs
      split at hs
      · rename_i hlt
        have hs := Option.some.inj hs; subst hs
        exact ⟨hlen, by unfold BUFFER_SIZE at hlt; omega, hset, fun h => by simp at h,
          fun h => by simp at h⟩
      · rename_i hlt
        have hs := Option.some.inj hs; subst hs
        have hi15 : i + 1 = 16 := by unfold BUFFER_SIZE at hlt; omega
        refine ⟨hlen, fun h => by simp at h, fun _ => ?_⟩
        exact eq_pattern_of_load OFFSET _ hlen (fun j hj => by
          rw [hset j (by omega)]; rfl)

/-- The father enters its write pass. -/
theorem PData_enter (mem0 : Buffer) (c : Core) (h : PData mem0 c) :
    PData mem0 { c with ppc := PPc.write 0 Stage.init } :=
  ⟨h.1, by decide, fun j hj => by omega, fun h => by simp at h, fun h => by simp at h⟩

/-- A step that leaves the buffer and the pass counter as they are and moves the father
between two points outside the write pass. -/
theorem PData_outside (mem0 : Buffer) (c d : Core) (h : PData mem0 c)
    (hm : d.mem = c.mem) (hw : d.writes = c.writes)
    (hc : c.ppc.inWrite = false) (hd : d.ppc.inWrite = false) : PData mem0 d := by
  rcases c with ⟨mem, tmp, ppc, pcy, w, cpc, ccy, r⟩
  rcases d with ⟨mem2, tmp2, ppc2, pcy2, w2, cpc2, ccy2, r2⟩
  simp only at hm hw hc hd
  subst hm; subst hw
  obtain ⟨hl, hp⟩ := h
  refine ⟨hl, ?_⟩
  cases ppc <;> cases ppc2 <;> simp_all [PPc.inWrite]

/-- A step of the child: buffer, pass counter and program point of the father unchanged. -/
theorem PData_same (mem0 : Buffer) (c d : Core) (h : PData mem0 c)
    (hm : d.mem = c.mem) (hw : d.writes = c.writes) (hp : d.ppc = c.ppc) : PData mem0 d := by
  rcases c with ⟨mem, tmp, ppc, pcy, w, cpc, ccy, r⟩
  rcases d with ⟨mem2, tmp2, ppc2, pcy2, w2, cpc2, ccy2, r2⟩
  simp only at hm hw hp
  subst hm; subst hw; subst hp
  exact h

theorem producerLocal_frame (off : Int) (c d : Core) (hs : producerLocal off c = some d) :
    d.tmpBuff = c.tmpBuff ∧ d.cpc = c.cpc ∧ d.reads = c.reads ∧ d.ccycle = c.ccycle ∧
    (c.ppc.inWrite = false → d.mem = c.mem ∧ d.writes = c.writes ∧ d.ppc.inWrite = false) := by
  rcases c with ⟨mem, tmp, ppc, pcy, w, cpc, ccy, r⟩
  rcases ppc with _ | _ | ⟨i, _ | _ | _⟩ | _ | _ | _ | _ <;>
    simp only [producerLocal] at hs <;>
    (try contradiction) <;>
    (try split_ifs at hs) <;>
    (simp only [Option.some.injEq] at hs; subst hs; simp [PPc.inWrite])

theorem consumerLocal_frame (c d : Core) (hs : consumerLocal c = some d) :
    d.mem = c.mem ∧ d.ppc = c.ppc ∧ d.writes = c.writes ∧ d.pcycle = c.pcycle := by
  rcases c with ⟨mem, tmp, ppc, pcy, w, cpc, ccy, r⟩
  rcases cpc with _ | _ | j | _ | _ | _ | _ | _ <;>
    simp only [consumerLocal] at hs <;>
    (try contradiction) <;>
    (try split_ifs at hs) <;>
    (simp only [Option.some.injEq] at hs; subst hs; simp)

theorem eq_of_load (l m : Buffer) (hl : l.length = 16) (hm : m.length = 16)
    (h : ∀ j, j < 16 → load l j = load m j) : l = m := by
  apply List.ext_getElem (by rw [hl, hm])
  intro n h1 h2
  have e := h n (by omega)
  unfold load at e
  rw [List.getD_eq_getElem?_getD, List.getD_eq_getElem?_getD, List.getElem?_eq_getElem h1,
    List.getElem?_eq_getElem h2] at e
  simpa using e

theorem load_copyElem (mem tmp : Buffer) (i j : Nat) (h : i < tmp.length) :
    load (copyElem mem tmp i) j = if i = j then load mem i else load tmp j := by
  unfold copyElem
  rw [load_store]
  by_cases hij : i = j
  · rw [if_pos ⟨hij, h⟩, if_pos hij]
  · rw [if_neg (fun hh => hij hh.1), if_neg hij]

namespace Synchronization

theorem CData_consumerLocal_hs (c d : Core) (h : CData c)
    (hm : ∀ i, c.cpc = CPc.copy i → i < 16 ∧ c.mem = pattern OFFSET)
    (hs : consumerLocal c = some d) : CData d := by
  rcases c with ⟨mem, tmp, ppc, pcy, w, cpc, ccy, r⟩
  obtain ⟨hl, hc⟩ := h
  simp only at hl hc hm
  cases cpc with
  | copy i =>
    obtain ⟨hi, hmem⟩ := hm i rfl
    simp only at hc
    have hset : ∀ j, j < i + 1 → load (copyElem mem tmp i) j = (j : Int) + 65000 := by
      intro j hj
      rw [load_copyElem _ _ _ _ (by omega)]
      by_cases hij : i = j
      · subst hij
        rw [if_pos rfl, hmem]
        exact load_pattern OFFSET i hi
      · rw [if_neg hij]
        exact hc j (by omega)
    have hlen : (copyElem mem tmp i).length = 16 := by simp [copyElem, length_store, hl]
    simp only [consumerLocal] at hs
    split_ifs at hs with hlt
    · simp only [Option.some.injEq] at hs; subst hs
      exact ⟨hlen, hset⟩
    · simp only [Option.some.injEq] at hs; subst hs
      have hi15 : i + 1 = 16 := by unfold BUFFER_SIZE at hlt; omega
      exact ⟨hlen, eq_pattern_of_load OFFSET _ hlen (fun j hj => by
        rw [hset j (by omega)]; rfl)⟩
  | loopHead =>
    simp only [consumerLocal] at hs
    split_ifs at hs <;> (simp only [Option.some.injEq] at hs; subst hs; exact ⟨hl, trivial⟩)
  | verify =>
    simp only [consumerLocal, Option.some.injEq] at hs; subst hs; exact ⟨hl, trivial⟩
  | sleep =>
    simp only [consumerLocal, Option.some.injEq] at hs; subst hs; exact ⟨hl, trivial⟩
  | acquire => simp [consumerLocal] at hs
  | release => simp [consumerLocal] at hs
  | done => simp [consumerLocal] at hs
  | exited => simp [consumerLocal] at hs

end Synchronization

namespace Synchronization

theorem step_ctl_hs (a : Act) (s t : Sys) (h : Ctl s) (hs : step a s = some t) : Ctl t := by
  rcases s with ⟨tw, tr, ⟨mem, tmp, ppc, pcy, w, cpc, ccy, r⟩⟩
  unfold Ctl inBounds at h
  rcases a with role | role <;> cases role <;>
    rcases ppc with _ | _ | ⟨i, _ | _ | _⟩ | _ | _ | _ | _ <;>
    rcases cpc with _ | _ | j | _ | _ | _ | _ | _ <;>
    simp only [step, producerLocal, consumerLocal, heldP, heldC, pendingP, pendingC,
      Option.map_some', Option.map_none', CYCLE_NUMBER, BUFFER_SIZE] at h hs <;>
    (try contradiction) <;>
    (try split_ifs at hs) <;>
    (try simp only [Option.map_some', Option.map_none', Option.some.injEq] at hs) <;>
    (try (subst hs
          simp only [Ctl, inBounds, heldP, heldC, pendingP, pendingC, CYCLE_NUMBER, and_true,
            true_and]
          omega))

end Synchronization

namespace Synchronization

theorem CData_frame_hs (c d : Core) (h : CData c) (ht : d.tmpBuff = c.tmpBuff)
    (hc : d.cpc = c.cpc) : CData d := by
  unfold CData at h ⊢
  rw [ht, hc]
  exact h

theorem step_data_hs (mem0 : Buffer) (a : Act) (s t : Sys) (hc : Ctl s) (hd : Data mem0 s)
    (hs : step a s = some t) : Data mem0 t := by
  obtain ⟨hp, hcd⟩ := hd
  rcases s with ⟨tw, tr, c⟩
  rcases a with role | role <;> cases role
  · -- the father runs
    simp only [step] at hs
    split at hs
    · split_ifs at hs
      simp only [Option.some.injEq] at hs; subst hs
      exact ⟨PData_enter mem0 c hp, CData_frame_hs _ _ hcd rfl rfl⟩
    · rename_i hpc
      simp only [Option.some.injEq] at hs; subst hs
      exact ⟨PData_outside mem0 c _ hp rfl rfl (by rw [hpc]; rfl) rfl,
        CData_frame_hs _ _ hcd rfl rfl⟩
    · obtain ⟨d, hd, rfl⟩ := Option.map_eq_some'.mp hs
      have hf := producerLocal_frame OFFSET c d hd
      exact ⟨PData_producerLocal mem0 c d hp hd, CData_frame_hs _ _ hcd hf.1 hf.2.1⟩
  · -- the child runs
    simp only [step] at hs
    split at hs
    · split_ifs at hs
      simp only [Option.some.injEq] at hs; subst hs
      refine ⟨PData_same mem0 c _ hp rfl rfl rfl, hcd.1, fun j hj => by omega⟩
    · rename_i hpc
      simp only [Option.some.injEq] at hs; subst hs
      refine ⟨PData_same mem0 c _ hp rfl rfl rfl, hcd.1, ?_⟩
      have := hcd.2
      rw [hpc] at this
      exact this
    · obtain ⟨d, hd, rfl⟩ := Option.map_eq_some'.mp hs
      have hf := consumerLocal_frame c d hd
      refine ⟨PData_same mem0 c d hp hf.1 hf.2.2.1 hf.2.1, CData_consumerLocal_hs c d hcd ?_ hd⟩
      intro i hi
      rcases c with ⟨mem, tmp, ppc, pcy, w, cpc, ccy, r⟩
      simp only at hi
      subst hi
      unfold Ctl inBounds at hc
      simp only [heldC, pendingC] at hc
      refine ⟨hc.2.2.2.2.2.2.2.2.2, ?_⟩
      have hw : 1 ≤ w := by omega
      have hh : heldP ppc = 0 := by omega
      obtain ⟨_, hpd⟩ := hp
      cases ppc <;> simp only [heldP] at hh <;> first | omega | exact hpd.2 hw
  · -- a `semop` of the father fails
    simp only [step] at hs
    split at hs
    · rename_i hpc
      simp only [Option.some.injEq] at hs; subst hs
      exact ⟨PData_outside mem0 c _ hp rfl rfl (by rw [hpc]; rfl) rfl,
        CData_frame_hs _ _ hcd rfl rfl⟩
    · rename_i hpc
      simp only [Option.some.injEq] at hs; subst hs
      exact ⟨PData_outside mem0 c _ hp rfl rfl (by rw [hpc]; rfl) rfl,
        CData_frame_hs _ _ hcd rfl rfl⟩
    · contradiction
  · -- a `semop` of the child fails
    simp only [step] at hs
    split at hs
    · simp only [Option.some.injEq] at hs; subst hs
      exact ⟨PData_same mem0 c _ hp rfl rfl rfl, hcd.1, trivial⟩
    · simp only [Option.some.injEq] at hs; subst hs
      exact ⟨PData_same mem0 c _ hp rfl rfl rfl, hcd.1, trivial⟩
    · contradiction

end Synchronization

namespace Synchronization

theorem exec_inv_hs (mem0 : Buffer) (acts : List Act) (s t : Sys) (hc : Ctl s)
    (hd : Data mem0 s) (h : exec acts s = some t) : Ctl t ∧ Data mem0 t := by
  induction acts generalizing s with
  | nil =>
    simp only [exec, Option.some.injEq] at h
    subst h
    exact ⟨hc, hd⟩
  | cons a rest ih =>
    simp only [exec] at h
    cases hst : step a s with
    | none => rw [hst] at h; contradiction
    | some u =>
      rw [hst] at h
      exact ih u (step_ctl_hs a s u hc hst) (step_data_hs mem0 a s u hc hd hst) h

theorem init_inv_hs (mem0 tmp0 : Buffer) (hm : mem0.length = 16) (ht : tmp0.length = 16) :
    Ctl (init mem0 tmp0) ∧ Data mem0 (init mem0 tmp0) := by
  refine ⟨?_, ⟨hm, fun _ => rfl, fun h => ?_⟩, ht, trivial⟩
  · simp [Ctl, init, inBounds, heldP, heldC, pendingP, pendingC]
  · simp [init] at h

end Synchronization


namespace Semaphore

theorem step_ctl (a : Act) (s t : Sys) (h : Ctl s) (hs : step a s = some t) : Ctl t := by
  rcases s with ⟨sem, ⟨mem, tmp, ppc, pcy, w, cpc, ccy, r⟩⟩
  unfold Ctl inBounds at h
  rcases a with role | role <;> cases role <;>
    rcases ppc with _ | _ | ⟨i, _ | _ | _⟩ | _ | _ | _ | _ <;>
    rcases cpc with _ | _ | j | _ | _ | _ | _ | _ <;>
    simp only [step, producerLocal, consumerLocal, heldP, heldC, pendingP, pendingC,
      Option.map_some', Option.map_none', CYCLE_NUMBER, BUFFER_SIZE] at h hs <;>
    (try contradiction) <;>
    (try split_ifs at hs) <;>
    (try simp only [Option.map_some', Option.map_none', Option.some.injEq] at hs) <;>
    (try (subst hs
          simp only [Ctl, inBounds, heldP, heldC, pendingP, pendingC, CYCLE_NUMBER, and_true,
            true_and]
          omega))

theorem CData_frame (mem0 : Buffer) (c d : Core) (h : CData mem0 c)
    (ht : d.tmpBuff = c.tmpBuff) (hc : d.cpc = c.cpc)
    (hm : heldC c.cpc = 1 → d.mem = c.mem) : CData mem0 d := by
  rcases c with ⟨mem, tmp, ppc, pcy, w, cpc, ccy, r⟩
  rcases d with ⟨mem2, tmp2, ppc2, pcy2, w2, cpc2, ccy2, r2⟩
  simp only at ht hc hm
  subst ht; subst hc
  unfold CData at h ⊢
  cases cpc2 <;> simp only [heldC] at hm <;> simp only at h ⊢ <;>
    first
      | exact h
      | (rw [hm trivial]; exact h)

theorem CData_consumerLocal (mem0 : Buffer) (c d : Core) (h : CData mem0 c)
    (hl : c.mem.length = 16) (hm : ∀ i, c.cpc = CPc.copy i → i < 16)
    (hs : consumerLocal c = some d) : CData mem0 d := by
  rcases c with ⟨mem, tmp, ppc, pcy, w, cpc, ccy, r⟩
  obtain ⟨ht, hc⟩ := h
  simp only at ht hc hm hl
  cases cpc with
  | copy i =>
    have hi := hm i rfl
    simp only at hc
    have hset : ∀ j, j < i + 1 → load (copyElem mem tmp i) j = load mem j := by
      intro j hj
      rw [load_copyElem _ _ _ _ (by omega)]
      by_cases hij : i = j
      · subst hij
        rw [if_pos rfl]
      · rw [if_neg hij]
        exact hc j (by omega)
    have hlen : (copyElem mem tmp i).length = 16 := by simp [copyElem, length_store, ht]
    simp only [consumerLocal] at hs
    split_ifs at hs with hlt
    · simp only [Option.some.injEq] at hs; subst hs
      exact ⟨hlen, hset⟩
    · simp only [Option.some.injEq] at hs; subst hs
      have hi15 : i + 1 = 16 := by unfold BUFFER_SIZE at hlt; omega
      exact ⟨hlen, eq_of_load _ _ hlen hl (fun j hj => hset j (by omega))⟩
  | loopHead =>
    simp only [consumerLocal] at hs
    split_ifs at hs <;> (simp only [Option.some.injEq] at hs; subst hs; exact ⟨ht, trivial⟩)
  | verify =>
    simp only [consumerLocal, Option.some.injEq] at hs; subst hs; exact ⟨ht, trivial⟩
  | sleep =>
    simp only [consumerLocal, Option.some.injEq] at hs; subst hs; exact ⟨ht, trivial⟩
  | acquire => simp [consumerLocal] at hs
  | release => simp [consumerLocal] at hs
  | done => simp [consumerLocal] at hs
  | exited => simp [consumerLocal] at hs

/-- While the child holds the semaphore the father is outside its write pass. -/
theorem father_outside (s : Sys) (hc : Ctl s) (h : heldC s.core.cpc = 1) :
    s.core.ppc.inWrite = false := by
  rcases s with ⟨sem, ⟨mem, tmp, ppc, pcy, w, cpc, ccy, r⟩⟩
  unfold Ctl at hc
  simp only at hc h
  cases ppc <;> simp only [heldP, PPc.inWrite] at hc ⊢
  omega

theorem step_data (mem0 : Buffer) (a : Act) (s t : Sys) (hc : Ctl s) (hd : Data mem0 s)
    (hs : step a s = some t) : Data mem0 t := by
  obtain ⟨hp, hcd⟩ := hd
  have hout := father_outside s hc
  rcases s with ⟨sem, c⟩
  simp only at hout
  rcases a with role | role <;> cases role
  · -- the father runs
    simp only [step] at hs
    split at hs
    · split_ifs at hs
      simp only [Option.some.injEq] at hs; subst hs
      exact ⟨PData_enter mem0 c hp, CData_frame mem0 _ _ hcd rfl rfl (fun _ => rfl)⟩
    · rename_i hpc
      simp only [Option.some.injEq] at hs; subst hs
      exact ⟨PData_outside mem0 c _ hp rfl rfl (by rw [hpc]; rfl) rfl,
        CData_frame mem0 _ _ hcd rfl rfl (fun _ => rfl)⟩
    · obtain ⟨d, hd, rfl⟩ := Option.map_eq_some'.mp hs
      have hf := producerLocal_frame OFFSET c d hd
      exact ⟨PData_producerLocal mem0 c d hp hd,
        CData_frame mem0 _ _ hcd hf.1 hf.2.1 (fun h => (hf.2.2.2.2 (hout h)).1)⟩
  · -- the child runs
    simp only [step] at hs
    split at hs
    · split_ifs at hs
      simp only [Option.some.injEq] at hs; subst hs
      refine ⟨PData_same mem0 c _ hp rfl rfl rfl, hcd.1, fun j hj => by omega⟩
    · rename_i hpc
      simp only [Option.some.injEq] at hs; subst hs
      refine ⟨PData_same mem0 c _ hp rfl rfl rfl, hcd.1, ?_⟩
      have htm := hcd.2
      rw [hpc] at htm
      have hw := hout (by rw [hpc]; rfl)
      obtain ⟨_, hpd⟩ := hp
      show c.tmpBuff = pattern OFFSET ∨ c.tmpBuff = mem0
      have htm2 : c.tmpBuff = c.mem := htm
      rw [htm2]
      rcases c with ⟨mem, tmp, ppc, pcy, w, cpc, ccy, r⟩
      simp only at hw hpd ⊢
      cases ppc <;> simp only [PPc.inWrite] at hw <;> first
        | contradiction
        | (rcases Nat.eq_zero_or_pos w with h0 | h1
           · exact Or.inr (hpd.1 h0)
           · exact Or.inl (hpd.2 h1))
    · obtain ⟨d, hd, rfl⟩ := Option.map_eq_some'.mp hs
      have hf := consumerLocal_frame c d hd
      refine ⟨PData_same mem0 c d hp hf.1 hf.2.2.1 hf.2.1,
        CData_consumerLocal mem0 c d hcd hp.1 ?_ hd⟩
      intro i hi
      rcases c with ⟨mem, tmp, ppc, pcy, w, cpc, ccy, r⟩
      simp only at hi
      subst hi
      unfold Ctl inBounds at hc
      exact hc.2.2.2.2
  · -- a `semop` of the father fails
    simp only [step] at hs
    split at hs
    · rename_i hpc
      simp only [Option.some.injEq] at hs; subst hs
      exact ⟨PData_outside mem0 c _ hp rfl rfl (by rw [hpc]; rfl) rfl,
        CData_frame mem0 _ _ hcd rfl rfl (fun _ => rfl)⟩
    · rename_i hpc
      simp only [Option.some.injEq] at hs; subst hs
      exact ⟨PData_outside mem0 c _ hp rfl rfl (by rw [hpc]; rfl) rfl,
        CData_frame mem0 _ _ hcd rfl rfl (fun _ => rfl)⟩
    · contradiction
  · -- a `semop` of the child fails
    simp only [step] at hs
    split at hs
    · simp only [Option.some.injEq] at hs; subst hs
      exact ⟨PData_same mem0 c _ hp rfl rfl rfl, hcd.1, trivial⟩
    · simp only [Option.some.injEq] at hs; subst hs
      exact ⟨PData_same mem0 c _ hp rfl rfl rfl, hcd.1, trivial⟩
    · contradiction

theorem exec_inv (mem0 : Buffer) (acts : List Act) (s t : Sys) (hc : Ctl s)
    (hd : Data mem0 s) (h : exec acts s = some t) : Ctl t ∧ Data mem0 t := by
  induction acts generalizing s with
  | nil =>
    simp only [exec, Option.some.injEq] at h
    subst h
    exact ⟨hc, hd⟩
  | cons a rest ih =>
    simp only [exec] at h
    cases hst : step a s with
    | none => rw [hst] at h; contradiction
    | some u =>
      rw [hst] at h
      exact ih u (step_ctl a s u hc hst) (step_data mem0 a s u hc hd hst) h

theorem init_inv (mem0 tmp0 : Buffer) (hm : mem0.length = 16) (ht : tmp0.length = 16) :
    Ctl (init mem0 tmp0) ∧ Data mem0 (init mem0 tmp0) := by
  refine ⟨?_, ⟨hm, fun _ => rfl, fun h => ?_⟩, ht, trivial⟩
  · simp [Ctl, init, inBounds, heldP, heldC, pendingP, pendingC]
  · simp [init] at h

end Semaphore

/-! ### Progress: the alternating schedule runs every turn of both loops -/

namespace Synchronization

theorem exec_append_hs (a b : List Act) (s : Sys) :
    exec (a ++ b) s = (exec a s).bind (exec b) := by
  induction a generalizing s with
  | nil => rfl
  | cons x xs ih =>
    simp only [List.cons_append, exec]
    cases step x s with
    | none => rfl
    | some t => exact ih t

set_option maxHeartbeats 2000000 in
set_option maxRecDepth 100000 in
theorem turn_hs (mem tmp : Buffer) (n w r : Nat) :
    ∃ m t, exec (producerPass ++ consumerPass)
        ⟨1, 0, ⟨mem, tmp, PPc.loopHead, n + 1, w, CPc.loopHead, n + 1, r⟩⟩ =
      some ⟨1, 0, ⟨m, t, PPc.loopHead, n, w + 1, CPc.loopHead, n, r + 1⟩⟩ :=
  ⟨_, _, rfl⟩

theorem turns_hs (k : Nat) (mem tmp : Buffer) (w r : Nat) :
    ∃ m t, exec (List.replicate k (producerPass ++ consumerPass)).flatten
        ⟨1, 0, ⟨mem, tmp, PPc.loopHead, k, w, CPc.loopHead, k, r⟩⟩ =
      some ⟨1, 0, ⟨m, t, PPc.loopHead, 0, w + k, CPc.loopHead, 0, r + k⟩⟩ := by
  induction k generalizing mem tmp w r with
  | zero => exact ⟨mem, tmp, rfl⟩
  | succ k ih =>
    obtain ⟨m1, t1, h1⟩ := turn_hs mem tmp k w r
    obtain ⟨m2, t2, h2⟩ := ih m1 t1 (w + 1) (r + 1)
    refine ⟨m2, t2, ?_⟩
    rw [List.replicate_succ, List.flatten_cons, exec_append_hs, h1, Option.some_bind, h2]
    have e1 : w + 1 + k = w + (k + 1) := by omega
    have e2 : r + 1 + k = r + (k + 1) := by omega
    rw [e1, e2]

/-- Progress of the handshake: from any content of the buffers the alternating schedule is
enabled at every step and ends with both roles out of their loops after 50 write passes and
50 copy passes. -/
theorem handshake_completes (mem0 tmp0 : Buffer) :
    ∃ s, exec (alternating CYCLE_NUMBER) (init mem0 tmp0) = some s ∧
      s.core.ppc = PPc.done ∧ s.core.cpc = CPc.done ∧
      s.core.writes = 50 ∧ s.core.reads = 50 := by
  obtain ⟨m, t, h⟩ := turns_hs CYCLE_NUMBER mem0 tmp0 0 0
  refine ⟨⟨1, 0, ⟨m, t, PPc.done, 0, 50, CPc.done, 0, 50⟩⟩, ?_, rfl, rfl, rfl, rfl⟩
  unfold alternating init
  rw [exec_append_hs, h]
  rfl

end Synchronization

namespace Semaphore

theorem exec_append (a b : List Act) (s : Sys) :
    exec (a ++ b) s = (exec a s).bind (exec b) := by
  induction a generalizing s with
  | nil => rfl
  | cons x xs ih =>
    simp only [List.cons_append, exec]
    cases step x s with
    | none => rfl
    | some t => exact ih t

set_option maxHeartbeats 2000000 in
set_option maxRecDepth 100000 in
theorem turn (mem tmp : Buffer) (n w r : Nat) :
    ∃ m t, exec (producerPass ++ consumerPass)
        ⟨1, ⟨mem, tmp, PPc.loopHead, n + 1, w, CPc.loopHead, n + 1, r⟩⟩ =
      some ⟨1, ⟨m, t, PPc.loopHead, n, w + 1, CPc.loopHead, n, r + 1⟩⟩ :=
  ⟨_, _, rfl⟩

theorem turns (k : Nat) (mem tmp : Buffer) (w r : Nat) :
    ∃ m t, exec (List.replicate k (producerPass ++ consumerPass)).flatten
        ⟨1, ⟨mem, tmp, PPc.loopHead, k, w, CPc.loopHead, k, r⟩⟩ =
      some ⟨1, ⟨m, t, PPc.loopHead, 0, w + k, CPc.loopHead, 0, r + k⟩⟩ := by
  induction k generalizing mem tmp w r with
  | zero => exact ⟨mem, tmp, rfl⟩
  | succ k ih =>
    obtain ⟨m1, t1, h1⟩ := turn mem tmp k w r
    obtain ⟨m2, t2, h2⟩ := ih m1 t1 (w + 1) (r + 1)
    refine ⟨m2, t2, ?_⟩
    rw [List.replicate_succ, List.flatten_cons, exec_append, h1, Option.some_bind, h2]
    have e1 : w + 1 + k = w + (k + 1) := by omega
    have e2 : r + 1 + k = r + (k + 1) := by omega
    rw [e1, e2]

/-- Progress with the single semaphore: from any content of the buffers the alternating
schedule is enabled at every step and ends with both roles out of their loops after 100
write passes and 100 copy passes. -/
theorem mutex_completes (mem0 tmp0 : Buffer) :
    ∃ s, exec (alternating CYCLE_NUMBER) (init mem0 tmp0) = some s ∧
      s.core.ppc = PPc.done ∧ s.core.cpc = CPc.done ∧
      s.core.writes = 100 ∧ s.core.reads = 100 := by
  obtain ⟨m, t, h⟩ := turns CYCLE_NUMBER mem0 tmp0 0 0
  refine ⟨⟨1, ⟨m, t, PPc.done, 0, 100, CPc.done, 0, 100⟩⟩, ?_, rfl, rfl, rfl, rfl⟩
  unfold alternating init
  rw [exec_append, h]
  rfl

end Semaphore

/-! ## Lemmas on the race window of the write pass -/

theorem fits_OFFSET : Fits OFFSET := by
  intro i hi
  refine ⟨expected_OFFSET i hi, ?_⟩
  unfold wrap64 OFFSET
  norm_num
  omega

theorem fits_NoSemaphores : Fits NoSemaphores.OFFSET := by
  intro i hi
  refine ⟨expected_NoSemaphores i hi, ?_⟩
  unfold wrap64 NoSemaphores.OFFSET
  norm_num
  omega

theorem filling_start (off : Int) (w : Nat) (mem : Buffer) (hl : mem.length = 16)
    (hp : 1 ≤ w → mem = pattern off) : Filling off w mem 0 Stage.init := by
  refine ⟨hl, by decide, fun j hj => by omega, fun h => by simp at h, fun h => by simp at h,
    fun hw => ⟨fun j _ hj => ?_, fun _ => ?_⟩⟩
  · rw [hp hw]; exact load_pattern off j hj
  · rw [hp hw]; exact load_pattern off 0 (by decide)

theorem filling_init (off : Int) (hf : Fits off) (w : Nat) (mem : Buffer) (i : Nat)
    (h : Filling off w mem i Stage.init) :
    Filling off w (storeInit off mem i) i Stage.double := by
  obtain ⟨hl, hi, hlow, _, _, hup⟩ := h
  unfold storeInit
  refine ⟨by rw [length_store, hl], hi, fun j hj => ?_, fun _ => ?_, fun h => by simp at h,
    fun hw => ⟨fun j hj1 hj2 => ?_, fun h => by simp at h⟩⟩
  · rw [load_store, if_neg (by omega)]; exact hlow j hj
  · rw [load_store_same _ _ _ (by omega)]; exact (hf i hi).1
  · rw [load_store, if_neg (by omega)]; exact (hup hw).1 j hj1 hj2

theorem filling_double (off : Int) (hf : Fits off) (w : Nat) (mem : Buffer) (i : Nat)
    (h : Filling off w mem i Stage.double) :
    Filling off w (storeDouble mem i) i Stage.halve := by
  obtain ⟨hl, hi, hlow, hd, _, hup⟩ := h
  unfold storeDouble
  refine ⟨by rw [length_store, hl], hi, fun j hj => ?_, fun h => by simp at h, fun _ => ?_,
    fun hw => ⟨fun j hj1 hj2 => ?_, fun h => by simp at h⟩⟩
  · rw [load_store, if_neg (by omega)]; exact hlow j hj
  · rw [load_store_same _ _ _ (by omega), hd rfl]; exact (hf i hi).2
  · rw [load_store, if_neg (by omega)]; exact (hup hw).1 j hj1 hj2

theorem load_storeHalve (off : Int) (w : Nat) (mem : Buffer) (i : Nat)
    (h : Filling off w mem i Stage.halve) :
    (storeHalve mem i).length = 16 ∧
    (∀ j, j < i + 1 → load (storeHalve mem i) j = (j : Int) + off) ∧
    (1 ≤ w → ∀ j, i < j → j < 16 → load (storeHalve mem i) j = (j : Int) + off) := by
  obtain ⟨hl, hi, hlow, _, hh, hup⟩ := h
  unfold storeHalve
  refine ⟨by rw [length_store, hl], fun j hj => ?_, fun hw j hj1 hj2 => ?_⟩
  · rw [load_store]
    by_cases hij : i = j
    · subst hij
      rw [if_pos ⟨rfl, by omega⟩, hh rfl]
      exact Int.mul_tdiv_cancel_left _ (by decide)
    · rw [if_neg (fun h => hij h.1)]
      exact hlow j (by omega)
  · rw [load_store, if_neg (by omega)]; exact (hup hw).1 j hj1 hj2

theorem filling_halve_next (off : Int) (w : Nat) (mem : Buffer) (i : Nat)
    (h : Filling off w mem i Stage.halve) (hn : i + 1 < 16) :
    Filling off w (storeHalve mem i) (i + 1) Stage.init := by
  obtain ⟨hlen, hlow, hup⟩ := load_storeHalve off w mem i h
  exact ⟨hlen, hn, hlow, fun h => by simp at h, fun h => by simp at h,
    fun hw => ⟨fun j hj1 hj2 => hup hw j (by omega) hj2, fun _ => hup hw (i + 1) (by omega) hn⟩⟩

theorem filling_halve_last (off : Int) (w : Nat) (mem : Buffer) (i : Nat)
    (h : Filling off w mem i Stage.halve) (hn : ¬ i + 1 < 16) :
    (storeHalve mem i).length = 16 ∧ storeHalve mem i = pattern off := by
  obtain ⟨hlen, hlow, _⟩ := load_storeHalve off w mem i h
  exact ⟨hlen, eq_pattern_of_load off _ hlen (fun j hj => hlow j (by omega))⟩

theorem load_bump (off : Int) (i j : Nat) (hi : i < 16) (hj : j < 16) :
    load (bump off i) j = if i = j then 2 * ((i : Int) + off) else (j : Int) + off := by
  unfold bump
  have h := load_store (pattern off) i j (2 * ((i : Int) + off))
  unfold store at h
  rw [h, length_pattern]
  by_cases hij : i = j
  · rw [if_pos ⟨hij, hi⟩, if_pos hij]
  · rw [if_neg (fun hh => hij hh.1), if_neg hij]
    exact load_pattern off j hj

/-- Once a write pass is complete the buffer is the pattern, or the pattern with one slot
doubled while the father stands between the second and the third store on that slot. -/
theorem fill_window (off : Int) (c : Core) (h : Fill off c) (hw : 1 ≤ c.writes) :
    c.mem = pattern off ∨
    ∃ i, i < 16 ∧ c.ppc = PPc.write i Stage.halve ∧ c.mem = bump off i := by
  rcases c with ⟨mem, tmp, ppc, pcy, w, cpc, ccy, r⟩
  unfold Fill at h
  simp only at h hw ⊢
  cases ppc with
  | write i k =>
    simp only at h
    obtain ⟨hl, hi, hlow, hd, hh, hup⟩ := h
    obtain ⟨hup1, hup2⟩ := hup hw
    have hother : ∀ j, j < 16 → j ≠ i → load mem j = (j : Int) + off := by
      intro j hj hne
      rcases Nat.lt_or_gt_of_ne hne with h1 | h1
      · exact hlow j h1
      · exact hup1 j h1 hj
    cases k with
    | init =>
      left
      refine eq_pattern_of_load off _ hl (fun j hj => ?_)
      by_cases hji : j = i
      · subst hji; exact hup2 rfl
      · exact hother j hj hji
    | double =>
      left
      refine eq_pattern_of_load off _ hl (fun j hj => ?_)
      by_cases hji : j = i
      · subst hji; exact hd rfl
      · exact hother j hj hji
    | halve =>
      right
      refine ⟨i, hi, rfl, eq_of_load _ _ hl (by simp [bump, length_pattern]) (fun j hj => ?_)⟩
      rw [load_bump off i j hi hj]
      by_cases hji : i = j
      · subst hji; rw [if_pos rfl]; exact hh rfl
      · rw [if_neg hji]; exact hother j hj (fun h => hji h.symm)
  | loopHead => exact Or.inl (h.2 hw)
  | acquire => exact Or.inl (h.2 hw)
  | release => exact Or.inl (h.2 hw)
  | sleep => exact Or.inl (h.2 hw)
  | done => exact Or.inl (h.2 hw)
  | exited => exact Or.inl (h.2 hw)

theorem fill_same (off : Int) (c d : Core) (h : Fill off c)
    (hm : d.mem = c.mem) (hw : d.writes = c.writes) (hp : d.ppc = c.ppc) : Fill off d := by
  unfold Fill at h ⊢
  rw [hm, hw, hp]
  exact h

theorem fill_outside (off : Int) (c d : Core) (h : Fill off c)
    (hm : d.mem = c.mem) (hw : d.writes = c.writes)
    (hc : c.ppc.inWrite = false) (hd : d.ppc.inWrite = false) : Fill off d := by
  rcases c with ⟨mem, tmp, ppc, pcy, w, cpc, ccy, r⟩
  rcases d with ⟨mem2, tmp2, ppc2, pcy2, w2, cpc2, ccy2, r2⟩
  simp only at hm hw hc hd
  subst hm; subst hw
  unfold Fill at h ⊢
  cases ppc <;> cases ppc2 <;> simp_all [PPc.inWrite]

theorem fill_enter (off : Int) (c : Core) (h : Fill off c) (hc : c.ppc.inWrite = false) :
    Fill off { c with ppc := PPc.write 0 Stage.init } := by
  rcases c with ⟨mem, tmp, ppc, pcy, w, cpc, ccy, r⟩
  unfold Fill at h ⊢
  simp only at hc h ⊢
  cases ppc <;> simp only [PPc.inWrite] at hc <;> first
    | contradiction
    | exact filling_start off w mem h.1 h.2

theorem fill_producerLocal (off : Int) (hf : Fits off) (c d : Core) (h : Fill off c)
    (hs : producerLocal off c = some d) : Fill off d := by
  rcases c with ⟨mem, tmp, ppc, pcy, w, cpc, ccy, r⟩
  unfold Fill at h
  simp only at h
  rcases ppc with _ | _ | ⟨i, _ | _ | _⟩ | _ | _ | _ | _ <;>
    simp only [producerLocal] at hs <;> (try contradiction)
  · split_ifs at hs <;>
      (simp only [Option.some.injEq] at hs; subst hs; exact h)
  · simp only [Option.some.injEq] at hs; subst hs
    exact filling_init off hf w mem i h
  · simp only [Option.some.injEq] at hs; subst hs
    exact filling_double off hf w mem i h
  · split_ifs at hs with hlt
    · simp only [Option.some.injEq] at hs; subst hs
      exact filling_halve_next off w mem i h (by unfold BUFFER_SIZE at hlt; exact hlt)
    · simp only [Option.some.injEq] at hs; subst hs
      have hl := filling_halve_last off w mem i h (by unfold BUFFER_SIZE at hlt; exact hlt)
      exact ⟨hl.1, fun _ => hl.2⟩
  · simp only [Option.some.injEq] at hs; subst hs; exact h

namespace Semaphore

theorem step_fill (a : Act) (s t : Sys) (h : Fill OFFSET s.core) (hs : step a s = some t) :
    Fill OFFSET t.core := by
  rcases s with ⟨sem, c⟩
  simp only at h
  rcases a with role | role <;> cases role
  · simp only [step] at hs
    split at hs
    · rename_i hpc
      split_ifs at hs
      simp only [Option.some.injEq] at hs; subst hs
      exact fill_enter OFFSET c h (by rw [hpc]; rfl)
    · rename_i hpc
      simp only [Option.some.injEq] at hs; subst hs
      exact fill_outside OFFSET c _ h rfl rfl (by rw [hpc]; rfl) rfl
    · obtain ⟨d, hd, rfl⟩ := Option.map_eq_some'.mp hs
      exact fill_producerLocal OFFSET fits_OFFSET c d h hd
  · simp only [step] at hs
    split at hs
    · split_ifs at hs
      simp only [Option.some.injEq] at hs; subst hs
      exact fill_same OFFSET c _ h rfl rfl rfl
    · simp only [Option.some.injEq] at hs; subst hs
      exact fill_same OFFSET c _ h rfl rfl rfl
    · obtain ⟨d, hd, rfl⟩ := Option.map_eq_some'.mp hs
      have hf := consumerLocal_frame c d hd
      exact fill_same OFFSET c d h hf.1 hf.2.2.1 hf.2.1
  · simp only [step] at hs
    split at hs
    · rename_i hpc
      simp only [Option.some.injEq] at hs; subst hs
      exact fill_outside OFFSET c _ h rfl rfl (by rw [hpc]; rfl) rfl
    · rename_i hpc
      simp only [Option.some.injEq] at hs; subst hs
      exact fill_outside OFFSET c _ h rfl rfl (by rw [hpc]; rfl) rfl
    · contradiction
  · simp only [step] at hs
    split at hs
    · simp only [Option.some.injEq] at hs; subst hs
      exact fill_same OFFSET c _ h rfl rfl rfl
    · simp only [Option.some.injEq] at hs; subst hs
      exact fill_same OFFSET c _ h rfl rfl rfl
    · contradiction

theorem exec_fill (acts : List Act) (s t : Sys) (h : Fill OFFSET s.core)
    (hs : exec acts s = some t) : Fill OFFSET t.core := by
  induction acts generalizing s with
  | nil =>
    simp only [exec, Option.some.injEq] at hs
    subst hs
    exact h
  | cons a rest ih =>
    simp only [exec] at hs
    cases hst : step a s with
    | none => rw [hst] at hs; contradiction
    | some u =>
      rw [hst] at hs
      exact ih u (step_fill a s u h hst) hs

end Semaphore

namespace NoSemaphores

theorem producerStep_fill (s t : Sys) (h : Fill OFFSET s.core) (hs : producerStep s = some t) :
    Fill OFFSET t.core := by
  rcases s with ⟨⟨mem, tmp, ppc, pcy, w, cpc, ccy, r⟩, fin, finC, pend, sent, started⟩
  unfold Fill at h
  simp only at h
  rcases ppc with _ | _ | ⟨i, _ | _ | _⟩ | _ | _ | _ | _ <;>
    simp only [producerStep] at hs <;> (try contradiction)
  · split_ifs at hs
    · simp only [Option.some.injEq] at hs; subst hs; exact h
    · simp only [Option.some.injEq] at hs; subst hs
      exact filling_start OFFSET w mem h.1 h.2
  · simp only [Option.some.injEq] at hs; subst hs
    exact filling_init OFFSET fits_NoSemaphores w mem i h
  · simp only [Option.some.injEq] at hs; subst hs
    exact filling_double OFFSET fits_NoSemaphores w mem i h
  · split_ifs at hs with hlt
    · simp only [Option.some.injEq] at hs; subst hs
      exact filling_halve_next OFFSET w mem i h (by unfold BUFFER_SIZE at hlt; exact hlt)
    · simp only [Option.some.injEq] at hs; subst hs
      have hl := filling_halve_last OFFSET w mem i h (by unfold BUFFER_SIZE at hlt; exact hlt)
      exact ⟨hl.1, fun _ => hl.2⟩
  · simp only [Option.some.injEq] at hs; subst hs; exact h

theorem consumerStep_frame (ppid : Int) (s t : Sys) (hs : consumerStep ppid s = some t) :
    t.core.mem = s.core.mem ∧ t.core.writes = s.core.writes ∧ t.core.ppc = s.core.ppc ∧
    t.finished = s.finished ∧ t.started = s.started := by
  rcases s with ⟨⟨mem, tmp, ppc, pcy, w, cpc, ccy, r⟩, fin, finC, pend, sent, started⟩
  rcases cpc with _ | _ | j | _ | _ | _ | _ | _ <;>
    simp only [consumerStep] at hs <;> (try contradiction)
  · split_ifs at hs <;> (simp only [Option.some.injEq] at hs; subst hs; simp)
  · split_ifs at hs <;> (simp only [Option.some.injEq] at hs; subst hs; simp)
  · split at hs <;> (simp only [Option.some.injEq] at hs; subst hs; simp)
  · simp only [Option.some.injEq] at hs; subst hs; simp

theorem step_fill_ns (ppid : Int) (a : Move) (s t : Sys) (h : Fill OFFSET s.core)
    (hs : step ppid a s = some t) : Fill OFFSET t.core := by
  rcases a with role | _
  · cases role
    · exact producerStep_fill s t h hs
    · have hf := consumerStep_frame ppid s t hs
      exact fill_same OFFSET s.core t.core h hf.1 hf.2.1 hf.2.2.1
  · simp only [step] at hs
    split_ifs at hs
    simp only [Option.some.injEq] at hs; subst hs
    exact h

theorem exec_fill_ns (ppid : Int) (acts : List Move) (s t : Sys) (h : Fill OFFSET s.core)
    (hs : exec ppid acts s = some t) : Fill OFFSET t.core := by
  induction acts generalizing s with
  | nil =>
    simp only [exec, Option.some.injEq] at hs
    subst hs
    exact h
  | cons a rest ih =>
    simp only [exec] at hs
    cases hst : step ppid a s with
    | none => rw [hst] at hs; contradiction
    | some u =>
      rw [hst] at hs
      exact ih u (step_fill_ns ppid a s u h hst) hs

end NoSemaphores

/-- The third store closes the race window: from the doubled buffer it gives the pattern. -/
theorem filling_halve_last_or (off : Int) (i : Nat) (mem : Buffer)
    (h : Filling off 1 mem i Stage.halve) : storeHalve mem i = pattern off := by
  obtain ⟨hlen, hlow, hup⟩ := load_storeHalve off 1 mem i h
  refine eq_pattern_of_load off _ hlen (fun j hj => ?_)
  by_cases hji : j < i + 1
  · exact hlow j hji
  · exact hup (le_refl 1) j (by omega) hj

theorem Semaphore.init_fill (mem0 tmp0 : Buffer) (hm : mem0.length = 16) :
    Fill OFFSET (Semaphore.init mem0 tmp0).core := by
  unfold Fill Semaphore.init
  exact ⟨hm, fun h => by simp at h⟩

theorem NoSemaphores.init_fill_ns (mem0 tmp0 : Buffer) (hm : mem0.length = 16) :
    Fill NoSemaphores.OFFSET (NoSemaphores.init mem0 tmp0).core := by
  unfold Fill NoSemaphores.init
  exact ⟨hm, fun h => by simp at h⟩

theorem bump_fails (off : Int) (hoff : off = OFFSET ∨ off = NoSemaphores.OFFSET) (i : Nat)
    (hi : i < 16) : (verify off (bump off i)).mismatch = some i := by
  rcases hoff with h | h <;> subst h <;> interval_cases i <;> decide

/-! ## Lemmas on the abort path of the program without semaphores -/

namespace NoSemaphores

theorem tmpAfter_shift (e : Env) (s : St) (j : Nat) :
    tmpAfter e { s with tmpBuff := copyPass (e.shared s.copyPasses) s.tmpBuff,
                        copyPasses := s.copyPasses + 1 } j = tmpAfter e s (j + 1) := by
  induction j with
  | zero => simp [tmpAfter]
  | succ j ih =>
    show copyPass (e.shared (s.copyPasses + 1 + j)) _ = copyPass (e.shared (s.copyPasses + (j + 1))) _
    rw [ih, Nat.add_assoc, Nat.add_comm 1 j]

/-- A turn of the child whose copy matches the pattern: the copy pass and `usleep`, and the
loop goes on. -/
theorem childLoop_match (e : Env) (ppid : Int) (n : Nat) (s : St)
    (h : (verify OFFSET (copyPass (e.shared s.copyPasses) s.tmpBuff)).mismatch = none) :
    (childLoop e ppid (n + 1) false s).ops =
      [Op.copyPass (copyPass (e.shared s.copyPasses) s.tmpBuff), Op.usleep USLEEP_2_MS] ++
        (childLoop e ppid n false
          { s with tmpBuff := copyPass (e.shared s.copyPasses) s.tmpBuff,
                   copyPasses := s.copyPasses + 1 }).ops ∧
    (childLoop e ppid (n + 1) false s).val =
      (childLoop e ppid n false
        { s with tmpBuff := copyPass (e.shared s.copyPasses) s.tmpBuff,
                 copyPasses := s.copyPasses + 1 }).val := by
  constructor <;>
    simp [childLoop, run_bind, M.bind, copyOut, sequenceCheck, emit, h]

/-- A turn of the child whose copy fails verification: the copy pass, the printed line, the
signal to the father and `usleep`, and the loop is left. -/
theorem childLoop_fail (e : Env) (ppid : Int) (n : Nat) (s : St) (i : Nat)
    (h : (verify OFFSET (copyPass (e.shared s.copyPasses) s.tmpBuff)).mismatch = some i) :
    (childLoop e ppid (n + 1) false s).ops =
      [Op.copyPass (copyPass (e.shared s.copyPasses) s.tmpBuff),
        Op.printf (Msg.sequenceError i), Op.kill ppid Sig.SIGUSR1, Op.usleep USLEEP_2_MS] ∧
    (childLoop e ppid (n + 1) false s).val = Except.ok true := by
  constructor <;>
    cases n <;> simp [childLoop, run_bind, run_pure, M.bind, copyOut, sequenceCheck, emit, h]

theorem childLoop_first_failure (e : Env) (ppid : Int) (k : Nat) (s : St)
    (hfirst : ∀ j, j < k → (verify OFFSET (tmpAfter e s (j + 1))).mismatch = none) :
    ((childLoop e ppid k false s).val = Except.ok false ∧
      copyPasses (childLoop e ppid k false s).ops = k ∧
      sentSignals (childLoop e ppid k false s).ops = []) ∧
    (∀ i, (verify OFFSET (tmpAfter e s (k + 1))).mismatch = some i → ∀ n, k < n →
      (childLoop e ppid n false s).val = Except.ok true ∧
      (childLoop e ppid n false s).ops = (childLoop e ppid k false s).ops ++
        [Op.copyPass (tmpAfter e s (k + 1)), Op.printf (Msg.sequenceError i),
          Op.kill ppid Sig.SIGUSR1, Op.usleep USLEEP_2_MS]) := by
  induction k generalizing s with
  | zero =>
    refine ⟨⟨rfl, rfl, rfl⟩, fun i hi n hn => ?_⟩
    obtain ⟨m, rfl⟩ : ∃ m, n = m + 1 := ⟨n - 1, by omega⟩
    have hf := childLoop_fail e ppid m s i (by simpa [tmpAfter] using hi)
    refine ⟨hf.2, ?_⟩
    rw [hf.1]
    simp [childLoop, run_pure, tmpAfter]
  | succ k ih =>
    have h0 : (verify OFFSET (copyPass (e.shared s.copyPasses) s.tmpBuff)).mismatch = none := by
      have := hfirst 0 (by omega)
      simpa [tmpAfter] using this
    have hshift := tmpAfter_shift e s
    have ih2 := ih { s with tmpBuff := copyPass (e.shared s.copyPasses) s.tmpBuff,
                            copyPasses := s.copyPasses + 1 }
      (fun j hj => by rw [hshift (j + 1)]; exact hfirst (j + 1) (by omega))
    obtain ⟨⟨hv, hc, hsg⟩, hnext⟩ := ih2
    have hm := childLoop_match e ppid k s h0
    refine ⟨⟨by rw [hm.2, hv], ?_, ?_⟩, fun i hi n hn => ?_⟩
    · rw [hm.1, copyPasses_append, hc]
      simp [copyPasses, isCopyPass]
      omega
    · rw [hm.1, sentSignals_append, hsg]
      simp [sentSignals]
    · obtain ⟨m, rfl⟩ : ∃ m, n = m + 1 := ⟨n - 1, by omega⟩
      have hm2 := childLoop_match e ppid m s h0
      have hn2 := hnext i (by rw [hshift (k + 1)]; exact hi) m (by omega)
      refine ⟨by rw [hm2.2, hn2.1], ?_⟩
      rw [hm2.1, hn2.2, hm.1, hshift (k + 1)]
      simp

end NoSemaphores

namespace NoSemaphores

theorem producerStep_flag (s t : Sys) (hs : producerStep s = some t) :
    t.finished = s.finished ∧ (s.finished = true → t.started = s.started) := by
  rcases s with ⟨⟨mem, tmp, ppc, pcy, w, cpc, ccy, r⟩, fin, finC, pend, sent, started⟩
  rcases ppc with _ | _ | ⟨i, _ | _ | _⟩ | _ | _ | _ | _ <;>
    simp only [producerStep] at hs <;> (try contradiction)
  · split_ifs at hs with hfin <;> (simp only [Option.some.injEq] at hs; subst hs; simp)
    simpa using hfin
  · simp only [Option.some.injEq] at hs; subst hs; simp
  · simp only [Option.some.injEq] at hs; subst hs; simp
  · split_ifs at hs <;> (simp only [Option.some.injEq] at hs; subst hs; simp)
  · simp only [Option.some.injEq] at hs; subst hs; simp

theorem step_flag (ppid : Int) (a : Move) (s t : Sys) (hf : s.finished = true)
    (hs : step ppid a s = some t) : t.finished = true ∧ t.started = s.started := by
  rcases a with role | _
  · cases role
    · have h := producerStep_flag s t hs
      exact ⟨by rw [h.1, hf], h.2 hf⟩
    · have h := consumerStep_frame ppid s t hs
      exact ⟨by rw [h.2.2.2.1, hf], h.2.2.2.2⟩
  · simp only [step] at hs
    split_ifs at hs
    simp only [Option.some.injEq] at hs; subst hs
    exact ⟨rfl, rfl⟩

theorem exec_flag (ppid : Int) (acts : List Move) (s t : Sys) (hf : s.finished = true)
    (hs : exec ppid acts s = some t) : t.finished = true ∧ t.started = s.started := by
  induction acts generalizing s with
  | nil =>
    simp only [exec, Option.some.injEq] at hs
    subst hs
    exact ⟨hf, rfl⟩
  | cons a rest ih =>
    simp only [exec] at hs
    cases hst : step ppid a s with
    | none => rw [hst] at hs; contradiction
    | some u =>
      rw [hst] at hs
      have h1 := step_flag ppid a s u hf hst
      have h2 := ih u h1.1 hs
      exact ⟨h2.1, by rw [h2.2, h1.2]⟩

theorem handle_sets_flag (ppid : Int) (s t : Sys) (hs : step ppid Move.handle s = some t) :
    t.finished = true ∧ s.pending = true := by
  simp only [step] at hs
  split_ifs at hs with hp
  simp only [Option.some.injEq] at hs; subst hs
  exact ⟨rfl, hp⟩

theorem loopHead_leaves (ppid : Int) (s : Sys) (hf : s.finished = true)
    (hp : s.core.ppc = PPc.loopHead) :
    step ppid (Move.run Role.producer) s =
      some { s with core := { s.core with ppc := PPc.done } } := by
  simp only [step, producerStep, hp, hf, if_true]

end NoSemaphores

set_option maxRecDepth 100000 in
/-- The race of the program without semaphores can happen and ends both loops: along
`raceSchedule` the child copies the buffer with slot 0 doubled, sends its one signal, and
both roles leave their loops, the father having started two passes. -/
theorem race_run :
    NoSemaphores.exec 77 raceSchedule (NoSemaphores.init zeros zeros) = some afterRace := by
  decide


/-! ## Lemmas on termination: every schedule without a failed `semop` is finite -/

namespace Semaphore

set_option maxHeartbeats 4000000 in
theorem step_live (v : Nat) (a b : Bool) (r : Role) (s t : Sys) (h : Live v a b s)
    (hs : step (Act.run r) s = some t) :
    Live v a b t ∧ stepsLeft t.core + 1 = stepsLeft s.core := by
  rcases s with ⟨sem, ⟨mem, tmp, ppc, pcy, w, cpc, ccy, rd⟩⟩
  unfold Live Turns at h
  cases a <;> cases b <;> cases r <;>
    rcases ppc with _ | _ | ⟨i, _ | _ | _⟩ | _ | _ | _ | _ <;>
    rcases cpc with _ | _ | j | _ | _ | _ | _ | _ <;>
    simp only [step, producerLocal, consumerLocal, heldP, heldC, pendingP, pendingC,
      Option.map_some', Option.map_none', CYCLE_NUMBER, BUFFER_SIZE, ne_eq, not_true_eq_false,
      and_false, false_and, reduceCtorEq, not_false_eq_true, and_true, true_and, false_implies,
      implies_true, forall_const] at h hs <;>
    (try split_ifs at hs) <;>
    (try simp only [Option.map_some', Option.map_none', Option.some.injEq] at hs) <;>
    (try (subst hs
          simp only [Live, Turns, heldP, heldC, pendingP, pendingC, CYCLE_NUMBER, stepsLeft,
            stepsLeftP, stepsLeftC, Stage.left, ne_eq, reduceCtorEq, not_false_eq_true,
            not_true_eq_false, and_true, true_and, false_implies, implies_true, forall_const]
          omega))

theorem exec_live (v : Nat) (a b : Bool) (roles : List Role) (s t : Sys) (h : Live v a b s)
    (hs : exec (runs roles) s = some t) :
    Live v a b t ∧ stepsLeft t.core + roles.length = stepsLeft s.core := by
  induction roles generalizing s with
  | nil =>
    have hs := Option.some.inj hs
    subst hs
    exact ⟨h, rfl⟩
  | cons r rest ih =>
    simp only [runs, List.map_cons, exec] at hs
    cases hstep : step (Act.run r) s with
    | none => rw [hstep] at hs; contradiction
    | some u =>
      rw [hstep] at hs
      obtain ⟨hu, hm⟩ := step_live v a b r s u h hstep
      obtain ⟨ht, hn⟩ := ih u hu hs
      refine ⟨ht, ?_⟩
      simp only [List.length_cons]
      omega

theorem live_progress (v : Nat) (a b : Bool) (s : Sys) (h : Live v a b s) (hv : 0 < v)
    (hn : s.core.ppc ≠ PPc.done ∨ s.core.cpc ≠ CPc.done) :
    ∃ r t, step (Act.run r) s = some t := by
  rcases s with ⟨sem, ⟨mem, tmp, ppc, pcy, w, cpc, ccy, rd⟩⟩
  unfold Live Turns at h
  simp only at hn
  by_cases hp : ppc = PPc.acquire ∨ ppc = PPc.done
  · by_cases hc : cpc = CPc.acquire ∨ cpc = CPc.done
    · rcases hp with hp | hp <;> rcases hc with hc | hc <;> subst hp <;> subst hc <;>
        simp only [heldP, heldC, ne_eq, not_true_eq_false, or_self] at h hn
      · have : 0 < sem := by omega
        refine ⟨Role.producer, ?_⟩
        simp only [step, if_pos this]
        exact ⟨_, rfl⟩
      · have : 0 < sem := by omega
        refine ⟨Role.producer, ?_⟩
        simp only [step, if_pos this]
        exact ⟨_, rfl⟩
      · have : 0 < sem := by omega
        refine ⟨Role.consumer, ?_⟩
        simp only [step, if_pos this]
        exact ⟨_, rfl⟩
    · refine ⟨Role.consumer, ?_⟩
      rcases cpc with _ | _ | j | _ | _ | _ | _ | _ <;>
        simp only [step, consumerLocal, Option.map_some', reduceCtorEq, or_self, or_true,
          true_or, not_true_eq_false, ne_eq, not_false_eq_true, and_false, false_and] at hc h ⊢
      · split_ifs <;> exact ⟨_, rfl⟩
      · split_ifs <;> exact ⟨_, rfl⟩
      · exact ⟨_, rfl⟩
      · exact ⟨_, rfl⟩
      · exact ⟨_, rfl⟩
  · refine ⟨Role.producer, ?_⟩
    rcases ppc with _ | _ | ⟨i, _ | _ | _⟩ | _ | _ | _ | _ <;>
      simp only [step, producerLocal, Option.map_some', reduceCtorEq, or_self, or_true,
        true_or, not_true_eq_false, ne_eq, not_false_eq_true, and_false, false_and] at hp h ⊢
    · split_ifs <;> exact ⟨_, rfl⟩
    · exact ⟨_, rfl⟩
    · exact ⟨_, rfl⟩
    · split_ifs <;> exact ⟨_, rfl⟩
    · exact ⟨_, rfl⟩
    · exact ⟨_, rfl⟩

set_option maxHeartbeats 4000000 in
theorem live_done (v : Nat) (a b : Bool) (s : Sys) (h : Live v a b s) :
    (stepsLeft s.core = 0 ↔ s.core.ppc = PPc.done ∧ s.core.cpc = CPc.done) ∧
    s.core.writes ≤ 100 ∧ s.core.reads ≤ 100 ∧
    (s.core.ppc = PPc.done → s.core.writes = if a then 100 else 0) ∧
    (s.core.cpc = CPc.done → s.core.reads = if b then 100 else 0) := by
  rcases s with ⟨sem, ⟨mem, tmp, ppc, pcy, w, cpc, ccy, rd⟩⟩
  unfold Live Turns at h
  cases a <;> cases b <;>
    rcases ppc with _ | _ | ⟨i, _ | _ | _⟩ | _ | _ | _ | _ <;>
    rcases cpc with _ | _ | j | _ | _ | _ | _ | _ <;>
    simp only [stepsLeft, stepsLeftP, stepsLeftC, Stage.left, heldP, heldC, pendingP, pendingC,
      CYCLE_NUMBER, ne_eq, reduceCtorEq, not_false_eq_true, not_true_eq_false, and_true,
      true_and, and_false, false_and, false_implies, implies_true, forall_const, if_true,
      if_false, Bool.false_eq_true, and_self, iff_true, iff_false] at h ⊢ <;>
    omega

theorem start_live (st : St) (mem tmp : Buffer) (a b : Bool) :
    Live (start st mem tmp a b).sem a b (start st mem tmp a b) ∧
    stepsLeft (start st mem tmp a b).core ≤ 7302 := by
  cases a <;> cases b <;>
    simp [Live, Turns, start, heldP, heldC, pendingP, pendingC, stepsLeft, stepsLeftP,
      stepsLeftC, CYCLE_NUMBER]

end Semaphore

namespace Synchronization

set_option maxHeartbeats 4000000 in
theorem step_live_hs (w0 r0 : Nat) (r : Role) (s t : Sys) (h : Live w0 r0 s)
    (hs : step (Act.run r) s = some t) :
    Live w0 r0 t ∧ stepsLeft t.core + 1 = stepsLeft s.core := by
  rcases s with ⟨tw, tr, ⟨mem, tmp, ppc, pcy, w, cpc, ccy, rd⟩⟩
  unfold Live Turns at h
  cases r <;>
    rcases ppc with _ | _ | ⟨i, _ | _ | _⟩ | _ | _ | _ | _ <;>
    rcases cpc with _ | _ | j | _ | _ | _ | _ | _ <;>
    simp only [step, producerLocal, consumerLocal, tookP, owesP, tookC, owesC, pendingP,
      pendingC, Option.map_some', Option.map_none', CYCLE_NUMBER, BUFFER_SIZE, ne_eq,
      not_true_eq_false, and_false, false_and, reduceCtorEq, not_false_eq_true, and_true,
      true_and, false_implies, implies_true, forall_const] at h hs <;>
    (try split_ifs at hs) <;>
    (try simp only [Option.map_some', Option.map_none', Option.some.injEq] at hs) <;>
    (try (subst hs
          simp only [Live, Turns, tookP, owesP, tookC, owesC, pendingP, pendingC, CYCLE_NUMBER,
            stepsLeft, stepsLeftP, stepsLeftC, Stage.left, ne_eq, reduceCtorEq,
            not_false_eq_true, not_true_eq_false, and_true, true_and, false_implies,
            implies_true, forall_const]
          omega))

theorem exec_live_hs (w0 r0 : Nat) (roles : List Role) (s t : Sys) (h : Live w0 r0 s)
    (hs : exec (runs roles) s = some t) :
    Live w0 r0 t ∧ stepsLeft t.core + roles.length = stepsLeft s.core := by
  induction roles generalizing s with
  | nil =>
    have hs := Option.some.inj hs
    subst hs
    exact ⟨h, rfl⟩
  | cons r rest ih =>
    simp only [runs, List.map_cons, exec] at hs
    cases hstep : step (Act.run r) s with
    | none => rw [hstep] at hs; contradiction
    | some u =>
      rw [hstep] at hs
      obtain ⟨hu, hm⟩ := step_live_hs w0 r0 r s u h hstep
      obtain ⟨ht, hn⟩ := ih u hu hs
      refine ⟨ht, ?_⟩
      simp only [List.length_cons]
      omega

theorem live_progress_hs (w0 r0 : Nat) (s : Sys) (h : Live w0 r0 s) (hv : 0 < w0 + r0)
    (hn : s.core.ppc ≠ PPc.done ∨ s.core.cpc ≠ CPc.done) :
    ∃ r t, step (Act.run r) s = some t := by
  rcases s with ⟨tw, tr, ⟨mem, tmp, ppc, pcy, w, cpc, ccy, rd⟩⟩
  unfold Live Turns at h
  simp only at hn
  by_cases hp : ppc = PPc.acquire ∨ ppc = PPc.done
  · by_cases hc : cpc = CPc.acquire ∨ cpc = CPc.done
    · rcases hp with hp | hp <;> rcases hc with hc | hc <;> subst hp <;> subst hc <;>
        simp only [tookP, owesP, tookC, owesC, pendingP, pendingC, CYCLE_NUMBER, ne_eq,
          not_true_eq_false, or_self, forall_const, reduceCtorEq, not_false_eq_true,
          false_implies, implies_true, and_true, true_and] at h hn
      · by_cases hw : 0 < tw
        · refine ⟨Role.producer, ?_⟩
          simp only [step, if_pos hw]
          exact ⟨_, rfl⟩
        · have hr : 0 < tr := by omega
          refine ⟨Role.consumer, ?_⟩
          simp only [step, if_pos hr]
          exact ⟨_, rfl⟩
      · have hw : 0 < tw := by omega
        refine ⟨Role.producer, ?_⟩
        simp only [step, if_pos hw]
        exact ⟨_, rfl⟩
      · have hr : 0 < tr := by omega
        refine ⟨Role.consumer, ?_⟩
        simp only [step, if_pos hr]
        exact ⟨_, rfl⟩
    · refine ⟨Role.consumer, ?_⟩
      rcases cpc with _ | _ | j | _ | _ | _ | _ | _ <;>
        simp only [step, consumerLocal, Option.map_some', reduceCtorEq, or_self, or_true,
          true_or, not_true_eq_false, ne_eq, not_false_eq_true, and_false, false_and] at hc h ⊢
      · split_ifs <;> exact ⟨_, rfl⟩
      · split_ifs <;> exact ⟨_, rfl⟩
      · exact ⟨_, rfl⟩
      · exact ⟨_, rfl⟩
      · exact ⟨_, rfl⟩
  · refine ⟨Role.producer, ?_⟩
    rcases ppc with _ | _ | ⟨i, _ | _ | _⟩ | _ | _ | _ | _ <;>
      simp only [step, producerLocal, Option.map_some', reduceCtorEq, or_self, or_true,
        true_or, not_true_eq_false, ne_eq, not_false_eq_true, and_false, false_and] at hp h ⊢
    · split_ifs <;> exact ⟨_, rfl⟩
    · exact ⟨_, rfl⟩
    · exact ⟨_, rfl⟩
    · split_ifs <;> exact ⟨_, rfl⟩
    · exact ⟨_, rfl⟩
    · exact ⟨_, rfl⟩

theorem live_done_hs (w0 r0 : Nat) (s : Sys) (h : Live w0 r0 s) :
    (stepsLeft s.core = 0 ↔ s.core.ppc = PPc.done ∧ s.core.cpc = CPc.done) ∧
    s.core.writes ≤ 50 ∧ s.core.reads ≤ 50 ∧
    (s.core.ppc = PPc.done → s.core.writes = 50) ∧
    (s.core.cpc = CPc.done → s.core.reads = 50) := by
  rcases s with ⟨tw, tr, ⟨mem, tmp, ppc, pcy, w, cpc, ccy, rd⟩⟩
  unfold Live Turns at h
  rcases ppc with _ | _ | ⟨i, _ | _ | _⟩ | _ | _ | _ | _ <;>
    rcases cpc with _ | _ | j | _ | _ | _ | _ | _ <;>
    simp only [stepsLeft, stepsLeftP, stepsLeftC, Stage.left, tookP, owesP, tookC, owesC,
      pendingP, pendingC, CYCLE_NUMBER, ne_eq, reduceCtorEq, not_false_eq_true,
      not_true_eq_false, and_true, true_and, and_false, false_and, false_implies, implies_true,
      forall_const, and_self, iff_true, iff_false] at h ⊢ <;>
    omega

theorem start_live_hs (st : St) (mem tmp : Buffer) :
    Live (start st mem tmp true true).turnToWrite (start st mem tmp true true).turnToRead
      (start st mem tmp true true) ∧
    stepsLeft (start st mem tmp true true).core = 3652 := by
  simp [Live, Turns, start, tookP, owesP, tookC, owesC, pendingP, pendingC, stepsLeft,
    stepsLeftP, stepsLeftC, CYCLE_NUMBER]

end Synchronization

/-! ## Lemmas on the counters the startup leaves -/

namespace Semaphore

theorem startup_counter (e : Env) (s : St) (ids : Int × Int)
    (hdone : (startup e s).val = Except.ok ids) :
    ids = (e.shmgetRet, 112) ∧
    (startup e s).st.sems 112 = some (if e.setValFails then (s.sems 112).getD 0 else 1) := by
  by_cases h1 : 0 ≤ e.shmgetRet
  · cases h2 : e.semgetFails 112
    · revert hdone
      unfold startup
      cases hs : s.sems 112 <;> cases hc : e.statCreate <;> cases hv : e.setValFails <;>
        simp [run_bind, run_pure, M.bind, emit, printf, exit, sharedMemCreation,
          createUnlocked, semCreate, semSetVal, semget, semctlSetVal,
          semctlGetVal, shmctlStat, MY_SEM_ID, h1, h2, hs, hc, hv, setSem] <;>
        exact fun h => h.symm
    · revert hdone
      unfold startup
      cases hc : e.statCreate <;>
        simp [run_bind, run_pure, M.bind, emit, printf, exit, sharedMemCreation,
          createUnlocked, semCreate, semSetVal, semget, semctlSetVal,
          semctlGetVal, shmctlStat, MY_SEM_ID, h1, h2, hc, setSem]
  · revert hdone
    unfold startup
    simp [run_bind, run_pure, M.bind, emit, printf, exit, sharedMemCreation, h1]

end Semaphore

namespace Synchronization

theorem startup_counters (e : Env) (s : St) (ids : Int × Int × Int)
    (hdone : (startup e s).val = Except.ok ids) :
    ids = (e.shmgetRet, 112, 113) ∧
    (startup e s).ops.filter isSetVal =
      [Op.semctlSetVal 112 1 (if e.setValFails then -1 else 0)] ∧
    (startup e s).st.sems 112 = some (if e.setValFails then (s.sems 112).getD 0 else 1) ∧
    (startup e s).st.sems 113 = some ((s.sems 113).getD 0) := by
  by_cases h1 : 0 ≤ e.shmgetRet
  · cases h2 : e.semgetFails 112
    · cases h3 : e.semgetFails 113
      · revert hdone
        unfold startup
        cases hs : s.sems 112 <;> cases ht : s.sems 113 <;> cases hc : e.statCreate <;>
          cases hv : e.setValFails <;>
          simp [run_bind, run_pure, M.bind, emit, printf, exit, sharedMemCreation,
            createUnlocked, createLocked, semCreate, semSetVal, semget, semctlSetVal,
            semctlGetVal, shmctlStat, SEM_ID_1, SEM_ID_2,
            h1, h2, h3, hs, ht, hc, hv, setSem, isSetVal] <;>
          exact fun h => h.symm
      · revert hdone
        unfold startup
        cases hs : s.sems 112 <;> cases hc : e.statCreate <;> cases hv : e.setValFails <;>
          simp [run_bind, run_pure, M.bind, emit, printf, exit, sharedMemCreation,
            createUnlocked, createLocked, semCreate, semSetVal, semget, semctlSetVal,
            semctlGetVal, shmctlStat, SEM_ID_1, SEM_ID_2,
            h1, h2, h3, hs, hc, hv, setSem, isSetVal]
    · revert hdone
      unfold startup
      cases hc : e.statCreate <;>
        simp [run_bind, run_pure, M.bind, emit, printf, exit, sharedMemCreation,
          createUnlocked, createLocked, semCreate, semSetVal, semget, semctlSetVal,
          semctlGetVal, shmctlStat, SEM_ID_1, SEM_ID_2,
          h1, h2, hc, setSem, isSetVal]
  · revert hdone
    unfold startup
    simp [run_bind, run_pure, M.bind, emit, printf, exit, sharedMemCreation, h1]

end Synchronization

/-! ## Lemmas on what the child loop prints -/

theorem sequenceErrors_append (a b : List Op) :
    sequenceErrors (a ++ b) = sequenceErrors a ++ sequenceErrors b := by
  induction a with
  | nil => rfl
  | cons o rest ih =>
    cases o with
    | printf m => cases m <;> simp [sequenceErrors, ih]
    | _ => simp [sequenceErrors, ih]

theorem tmpAfter_next (e : Env) (t u : St)
    (h1 : u.tmpBuff = copyPass (e.shared t.copyPasses) t.tmpBuff)
    (h2 : u.copyPasses = t.copyPasses + 1) (k : Nat) :
    NoSemaphores.tmpAfter e u k = NoSemaphores.tmpAfter e t (k + 1) := by
  induction k with
  | zero =>
    simp only [NoSemaphores.tmpAfter, Nat.add_zero]
    exact h1
  | succ k ih =>
    simp only [NoSemaphores.tmpAfter] at ih ⊢
    rw [ih, h2, Nat.add_assoc, Nat.add_comm 1 k]

theorem firstMismatches_succ (e : Env) (t u : St)
    (h1 : u.tmpBuff = copyPass (e.shared t.copyPasses) t.tmpBuff)
    (h2 : u.copyPasses = t.copyPasses + 1) (n : Nat) :
    firstMismatches e t (n + 1) =
      (verify OFFSET (copyPass (e.shared t.copyPasses) t.tmpBuff)).mismatch.toList ++
        firstMismatches e u n := by
  have hshift := tmpAfter_next e t u h1 h2
  have h0 : NoSemaphores.tmpAfter e t (0 + 1) = copyPass (e.shared t.copyPasses) t.tmpBuff := by
    simp only [NoSemaphores.tmpAfter, Nat.add_zero, Nat.zero_add]
  have hrest : List.filterMap
      ((fun k => (verify OFFSET (NoSemaphores.tmpAfter e t (k + 1))).mismatch) ∘ Nat.succ)
      (List.range n) =
      List.filterMap (fun k => (verify OFFSET (NoSemaphores.tmpAfter e u (k + 1))).mismatch)
        (List.range n) := by
    apply List.filterMap_congr
    intro k _
    simp only [Function.comp, Nat.succ_eq_add_one]
    rw [hshift (k + 1)]
  unfold firstMismatches
  rw [List.range_succ_eq_map, List.filterMap_cons, List.filterMap_map, hrest, h0]
  cases (verify OFFSET (copyPass (e.shared t.copyPasses) t.tmpBuff)).mismatch <;> rfl

namespace Semaphore

/-- One turn of the child loop when its two `semop` calls return without error. -/
theorem childLoop_turn (e : Env) (hop : ∀ k, e.semopRet k ≠ -1) (semid : Int) (n : Nat)
    (t : St) :
    (childLoop e semid (n + 1) t).val =
      (childLoop e semid n
        { t with semopCalls := t.semopCalls + 1 + 1,
                 tmpBuff := copyPass (e.shared t.copyPasses) t.tmpBuff,
                 copyPasses := t.copyPasses + 1 }).val ∧
    (childLoop e semid (n + 1) t).ops =
      [Op.semop semid (-1) (e.semopRet t.semopCalls),
        Op.copyPass (copyPass (e.shared t.copyPasses) t.tmpBuff),
        Op.semop semid 1 (e.semopRet (t.semopCalls + 1))] ++
      ((verify OFFSET (copyPass (e.shared t.copyPasses) t.tmpBuff)).mismatch.toList.map
        (fun i => Op.printf (Msg.sequenceError i))) ++
      [Op.usleep USLEEP_40_MS] ++
      (childLoop e semid n
        { t with semopCalls := t.semopCalls + 1 + 1,
                 tmpBuff := copyPass (e.shared t.copyPasses) t.tmpBuff,
                 copyPasses := t.copyPasses + 1 }).ops := by
  constructor <;>
    cases hm : (verify OFFSET (copyPass (e.shared t.copyPasses) t.tmpBuff)).mismatch <;>
    simp [childLoop, run_bind, run_pure, M.bind, M.pure, semAcquire, semRelease, semop, copyOut,
      patternControl, emit, printf, hop, hm]

/-- The child loop when no `semop` call fails: it takes every turn, sends no signal, and
prints one sequence-error line for each turn whose copy departs from the pattern. -/
theorem childLoop_log (e : Env) (hop : ∀ k, e.semopRet k ≠ -1) (semid : Int) (n : Nat)
    (t : St) :
    (childLoop e semid n t).val = Except.ok () ∧
    copyPasses (childLoop e semid n t).ops = n ∧
    sentSignals (childLoop e semid n t).ops = [] ∧
    sequenceErrors (childLoop e semid n t).ops = firstMismatches e t n := by
  induction n generalizing t with
  | zero => exact ⟨rfl, rfl, rfl, rfl⟩
  | succ n ih =>
    obtain ⟨hv, hops⟩ := childLoop_turn e hop semid n t
    obtain ⟨iv, ic, is, il⟩ := ih
      { t with semopCalls := t.semopCalls + 1 + 1,
               tmpBuff := copyPass (e.shared t.copyPasses) t.tmpBuff,
               copyPasses := t.copyPasses + 1 }
    have hnext := firstMismatches_succ e t
      { t with semopCalls := t.semopCalls + 1 + 1,
               tmpBuff := copyPass (e.shared t.copyPasses) t.tmpBuff,
               copyPasses := t.copyPasses + 1 } (by dsimp only) (by dsimp only) n
    refine ⟨by rw [hv, iv], ?_, ?_, ?_⟩
    · rw [hops, copyPasses_append, ic]
      cases (verify OFFSET (copyPass (e.shared t.copyPasses) t.tmpBuff)).mismatch <;>
        simp [copyPasses, isCopyPass] <;> omega
    · rw [hops, sentSignals_append, is]
      cases (verify OFFSET (copyPass (e.shared t.copyPasses) t.tmpBuff)).mismatch <;>
        simp [sentSignals]
    · rw [hops, sequenceErrors_append, il, hnext]
      cases (verify OFFSET (copyPass (e.shared t.copyPasses) t.tmpBuff)).mismatch <;>
        simp [sequenceErrors]

end Semaphore

namespace Synchronization

/-- One turn of the child loop when its two `semop` calls return without error. -/
theorem childLoop_turn_hs (e : Env) (hop : ∀ k, e.semopRet k ≠ -1) (semid1 semid2 : Int)
    (n : Nat) (t : St) :
    (childLoop e semid1 semid2 (n + 1) t).val =
      (childLoop e semid1 semid2 n
        { t with semopCalls := t.semopCalls + 1 + 1,
                 tmpBuff := copyPass (e.shared t.copyPasses) t.tmpBuff,
                 copyPasses := t.copyPasses + 1 }).val ∧
    (childLoop e semid1 semid2 (n + 1) t).ops =
      [Op.semop semid2 (-1) (e.semopRet t.semopCalls),
        Op.copyPass (copyPass (e.shared t.copyPasses) t.tmpBuff),
        Op.semop semid1 1 (e.semopRet (t.semopCalls + 1))] ++
      ((verify OFFSET (copyPass (e.shared t.copyPasses) t.tmpBuff)).mismatch.toList.map
        (fun i => Op.printf (Msg.sequenceError i))) ++
      [Op.usleep USLEEP_100_MS] ++
      (childLoop e semid1 semid2 n
        { t with semopCalls := t.semopCalls + 1 + 1,
                 tmpBuff := copyPass (e.shared t.copyPasses) t.tmpBuff,
                 copyPasses := t.copyPasses + 1 }).ops := by
  constructor <;>
    cases hm : (verify OFFSET (copyPass (e.shared t.copyPasses) t.tmpBuff)).mismatch <;>
    simp [childLoop, run_bind, run_pure, M.bind, M.pure, semAcquire, semRelease, semop, copyOut,
      patternControl, emit, printf, hop, hm]

/-- The child loop when no `semop` call fails: it takes every turn, sends no signal, and
prints one sequence-error line for each turn whose copy departs from the pattern. -/
theorem childLoop_log_hs (e : Env) (hop : ∀ k, e.semopRet k ≠ -1) (semid1 semid2 : Int)
    (n : Nat) (t : St) :
    (childLoop e semid1 semid2 n t).val = Except.ok () ∧
    copyPasses (childLoop e semid1 semid2 n t).ops = n ∧
    sentSignals (childLoop e semid1 semid2 n t).ops = [] ∧
    sequenceErrors (childLoop e semid1 semid2 n t).ops = firstMismatches e t n := by
  induction n generalizing t with
  | zero => exact ⟨rfl, rfl, rfl, rfl⟩
  | succ n ih =>
    obtain ⟨hv, hops⟩ := childLoop_turn_hs e hop semid1 semid2 n t
    obtain ⟨iv, ic, is, il⟩ := ih
      { t with semopCalls := t.semopCalls + 1 + 1,
               tmpBuff := copyPass (e.shared t.copyPasses) t.tmpBuff,
               copyPasses := t.copyPasses + 1 }
    have hnext := firstMismatches_succ e t
      { t with semopCalls := t.semopCalls + 1 + 1,
               tmpBuff := copyPass (e.shared t.copyPasses) t.tmpBuff,
               copyPasses := t.copyPasses + 1 } (by dsimp only) (by dsimp only) n
    refine ⟨by rw [hv, iv], ?_, ?_, ?_⟩
    · rw [hops, copyPasses_append, ic]
      cases (verify OFFSET (copyPass (e.shared t.copyPasses) t.tmpBuff)).mismatch <;>
        simp [copyPasses, isCopyPass] <;> omega
    · rw [hops, sentSignals_append, is]
      cases (verify OFFSET (copyPass (e.shared t.copyPasses) t.tmpBuff)).mismatch <;>
        simp [sentSignals]
    · rw [hops, sequenceErrors_append, il, hnext]
      cases (verify OFFSET (copyPass (e.shared t.copyPasses) t.tmpBuff)).mismatch <;>
        simp [sequenceErrors]

end Synchronization

namespace Semaphore

theorem exists_run (v : Nat) (a b : Bool) (s0 : Sys) (h : Live v a b s0) (hv : 0 < v)
    (n : Nat) (hn : n ≤ stepsLeft s0.core) :
    ∃ roles s, roles.length = n ∧ exec (runs roles) s0 = some s := by
  induction n with
  | zero => exact ⟨[], s0, rfl, rfl⟩
  | succ n ih =>
    obtain ⟨roles, s, hl, hs⟩ := ih (by omega)
    obtain ⟨hlive, hm⟩ := exec_live v a b roles s0 s h hs
    have hnd : s.core.ppc ≠ PPc.done ∨ s.core.cpc ≠ CPc.done := by
      by_contra hcon
      have hd : s.core.ppc = PPc.done ∧ s.core.cpc = CPc.done := by
        constructor <;> by_contra hx <;> simp [hx] at hcon
      have := (live_done v a b s hlive).1.2 hd
      omega
    obtain ⟨r, t, ht⟩ := live_progress v a b s hlive hv hnd
    refine ⟨roles ++ [r], t, by simp [hl], ?_⟩
    have : runs (roles ++ [r]) = runs roles ++ [Act.run r] := by simp [runs]
    rw [this, exec_append, hs]
    simp [exec, ht]

/-- Every schedule without a failed `semop` from the start of the loops with a positive
counter: it is no longer than 7302 steps, it can be continued as long as a loop is not left,
and a loop that was entered is left after exactly 100 passes. -/
theorem runs_terminate (st : St) (mem tmp : Buffer) (a b : Bool)
    (hpos : 0 < (start st mem tmp a b).sem) (roles : List Role) (s : Sys)
    (hs : exec (runs roles) (start st mem tmp a b) = some s) :
    roles.length ≤ 7302 ∧
    (s.core.ppc ≠ PPc.done ∨ s.core.cpc ≠ CPc.done →
      ∃ r t, step (Act.run r) s = some t) ∧
    s.core.writes ≤ 100 ∧ s.core.reads ≤ 100 ∧
    (s.core.ppc = PPc.done → s.core.writes = if a then 100 else 0) ∧
    (s.core.cpc = CPc.done → s.core.reads = if b then 100 else 0) := by
  obtain ⟨hi, h0⟩ := start_live st mem tmp a b
  obtain ⟨hlive, hm⟩ := exec_live _ a b roles _ s hi hs
  exact ⟨by omega, live_progress _ a b s hlive hpos, (live_done _ a b s hlive).2⟩

theorem runs_complete (st : St) (mem tmp : Buffer) (a b : Bool)
    (hpos : 0 < (start st mem tmp a b).sem) :
    ∃ roles s, exec (runs roles) (start st mem tmp a b) = some s ∧
      s.core.ppc = PPc.done ∧ s.core.cpc = CPc.done := by
  obtain ⟨hi, _⟩ := start_live st mem tmp a b
  obtain ⟨roles, s, hl, hs⟩ := exists_run _ a b _ hi hpos _ (le_refl _)
  obtain ⟨hlive, hm⟩ := exec_live _ a b roles _ s hi hs
  exact ⟨roles, s, hs, (live_done _ a b s hlive).1.1 (by omega)⟩

end Semaphore

namespace Synchronization

theorem exists_run_hs (w0 r0 : Nat) (s0 : Sys) (h : Live w0 r0 s0) (hv : 0 < w0 + r0)
    (n : Nat) (hn : n ≤ stepsLeft s0.core) :
    ∃ roles s, roles.length = n ∧ exec (runs roles) s0 = some s := by
  induction n with
  | zero => exact ⟨[], s0, rfl, rfl⟩
  | succ n ih =>
    obtain ⟨roles, s, hl, hs⟩ := ih (by omega)
    obtain ⟨hlive, hm⟩ := exec_live_hs w0 r0 roles s0 s h hs
    have hnd : s.core.ppc ≠ PPc.done ∨ s.core.cpc ≠ CPc.done := by
      by_contra hcon
      have hd : s.core.ppc = PPc.done ∧ s.core.cpc = CPc.done := by
        constructor <;> by_contra hx <;> simp [hx] at hcon
      have := (live_done_hs w0 r0 s hlive).1.2 hd
      omega
    obtain ⟨r, t, ht⟩ := live_progress_hs w0 r0 s hlive hv hnd
    refine ⟨roles ++ [r], t, by simp [hl], ?_⟩
    have : runs (roles ++ [r]) = runs roles ++ [Act.run r] := by simp [runs]
    rw [this, exec_append_hs, hs]
    simp [exec, ht]

/-- Every schedule without a failed `semop` from the start of the two loops with a token in
one of the counters: it is no longer than 3652 steps, it can be continued as long as a loop
is not left, and a loop is left after exactly 50 passes. -/
theorem runs_terminate_hs (st : St) (mem tmp : Buffer)
    (hpos : 0 < (start st mem tmp true true).turnToWrite +
      (start st mem tmp true true).turnToRead) (roles : List Role) (s : Sys)
    (hs : exec (runs roles) (start st mem tmp true true) = some s) :
    roles.length ≤ 3652 ∧
    (s.core.ppc ≠ PPc.done ∨ s.core.cpc ≠ CPc.done →
      ∃ r t, step (Act.run r) s = some t) ∧
    (roles.length = 3652 ↔ s.core.ppc = PPc.done ∧ s.core.cpc = CPc.done) ∧
    s.core.writes ≤ 50 ∧ s.core.reads ≤ 50 ∧
    (s.core.ppc = PPc.done → s.core.writes = 50) ∧
    (s.core.cpc = CPc.done → s.core.reads = 50) := by
  obtain ⟨hi, h0⟩ := start_live_hs st mem tmp
  obtain ⟨hlive, hm⟩ := exec_live_hs _ _ roles _ s hi hs
  obtain ⟨hd, hrest⟩ := live_done_hs _ _ s hlive
  refine ⟨by omega, live_progress_hs _ _ s hlive hpos,
    ⟨fun h => hd.1 (by omega), fun h => ?_⟩, hrest⟩
  have := hd.2 h
  omega

theorem runs_complete_hs (st : St) (mem tmp : Buffer)
    (hpos : 0 < (start st mem tmp true true).turnToWrite +
      (start st mem tmp true true).turnToRead) :
    ∃ roles s, exec (runs roles) (start st mem tmp true true) = some s ∧
      s.core.ppc = PPc.done ∧ s.core.cpc = CPc.done := by
  obtain ⟨hi, _⟩ := start_live_hs st mem tmp
  obtain ⟨roles, s, hl, hs⟩ := exists_run_hs _ _ _ hi hpos _ (le_refl _)
  obtain ⟨hlive, hm⟩ := exec_live_hs _ _ roles _ s hi hs
  exact ⟨roles, s, hs, (live_done_hs _ _ s hlive).1.1 (by omega)⟩

end Synchronization

/-! ## The claims -/

/-- C1: for every prior content of the 16-slot shared buffer and of the private copy, the
write pass of the father (the three stores per slot, in signed 64-bit arithmetic) followed by
the copy pass of the child leaves the private copy equal to the pattern, which for
OFFSET = 65000 is 65000, 65001, ..., 65015. -/
theorem roundtrip (mem tmpBuff : Buffer) (hm : mem.length = 16) (ht : tmpBuff.length = 16) :
    copyPass (writePass OFFSET mem) tmpBuff = pattern OFFSET ∧
    pattern OFFSET = [65000, 65001, 65002, 65003, 65004, 65005, 65006, 65007, 65008, 65009,
      65010, 65011, 65012, 65013, 65014, 65015] := by
  refine ⟨?_, by decide⟩
  obtain ⟨hl, hv⟩ := copyPass_spec (writePass OFFSET mem) tmpBuff ht
  apply eq_pattern_of_load _ _ hl
  intro j hj
  rw [hv j hj, (writePass_OFFSET mem hm).2 j hj]; rfl

theorem roundtrip_witness :
    copyPass (writePass OFFSET zeros) zeros = pattern OFFSET ∧
    pattern OFFSET = [65000, 65001, 65002, 65003, 65004, 65005, 65006, 65007, 65008, 65009,
      65010, 65011, 65012, 65013, 65014, 65015] :=
  roundtrip zeros zeros (by decide) (by decide)

/-- C2: for every private copy and for the offset of each program (65000, 6500), the
verification scan reports a mismatch exactly when some index below 16 holds a value other
than index + offset; the index it reports is the smallest such index, and the indices it has
examined are those up to the reported one and no later one (all sixteen when it reports
nothing). -/
theorem verify_reports_first_mismatch (off : Int)
    (hoff : off = OFFSET ∨ off = NoSemaphores.OFFSET) (tmpBuff : Buffer) :
    ((verify off tmpBuff).mismatch ≠ none ↔
        ∃ i, i < 16 ∧ load tmpBuff i ≠ (i : Int) + off) ∧
    (∀ k, (verify off tmpBuff).mismatch = some k →
        k < 16 ∧ load tmpBuff k ≠ (k : Int) + off ∧
        (∀ j, j < k → load tmpBuff j = (j : Int) + off) ∧
        (verify off tmpBuff).examined = List.range (k + 1)) ∧
    ((verify off tmpBuff).mismatch = none →
        (verify off tmpBuff).examined = List.range 16) := by
  have ex : ∀ j, j < 16 → expected off j = (j : Int) + off := fun j hj => by
    rcases hoff with h | h <;> subst h
    · exact expected_OFFSET j hj
    · exact expected_NoSemaphores j hj
  unfold verify BUFFER_SIZE
  rcases checkLoop_spec off tmpBuff 16 0 [] with ⟨h1, h2, h3⟩ | ⟨k, h1, h2, h3, h4, h5, h6⟩
  · refine ⟨⟨fun h => absurd h1 h, ?_⟩, fun k hk => ?_, fun _ => ?_⟩
    · rintro ⟨i, hi, hne⟩
      exact absurd (by rw [h2 i (Nat.zero_le _) (by omega), ex i hi]) hne
    · rw [h1] at hk; exact absurd hk (by simp)
    · rw [h3, List.nil_append, List.range_eq_range']
  · have hk16 : k < 16 := by omega
    refine ⟨⟨fun _ => ⟨k, hk16, by rw [← ex k hk16]; exact h4⟩, fun _ => by rw [h1]; simp⟩,
      fun k2 hk2 => ?_, fun hn => ?_⟩
    · rw [h1] at hk2
      have e : k = k2 := Option.some.inj hk2
      subst e
      refine ⟨hk16, by rw [← ex k hk16]; exact h4, fun j hj => ?_, ?_⟩
      · rw [h5 j (Nat.zero_le _) hj, ex j (by omega)]
      · rw [h6, List.nil_append, List.range_eq_range']; rfl
    · rw [h1] at hn; exact absurd hn (by simp)

theorem verify_reports_first_mismatch_witness :
    (verify OFFSET twoMismatches).mismatch = some 5 ∧
    (verify OFFSET twoMismatches).examined = [0, 1, 2, 3, 4, 5] :=
  ⟨by decide,
   by
    have h := ((verify_reports_first_mismatch OFFSET (Or.inl rfl) twoMismatches).2.1 5
      (by decide)).2.2.2
    rw [h]; decide⟩

/-- C3: in every state the handshake reaches from `turnToWrite` = 1, `turnToRead` = 0, by any
interleaving of the steps of the two roles: both counters are 0 or 1; the father is not in
its write pass while the child is in its copy pass; the completed write passes are as many
as the completed copy passes or one more, and never more than 50; the father is in a write
pass only when every earlier pass has been copied; the child is in a copy pass only when
exactly one completed write pass is not yet copied, the father is outside its write pass and
the buffer holds what that pass left; and a completed copy pass leaves the pattern in the
private copy. -/
theorem handshake_strict_alternation (mem0 tmp0 : Buffer) (hm : mem0.length = 16)
    (ht : tmp0.length = 16) (acts : List Act) (s : Synchronization.Sys)
    (h : Synchronization.exec acts (Synchronization.init mem0 tmp0) = some s) :
    (s.turnToWrite ≤ 1 ∧ s.turnToRead ≤ 1) ∧
    ¬ (s.core.ppc.inWrite = true ∧ s.core.cpc.inCopy = true) ∧
    (s.core.writes = s.core.reads ∨ s.core.writes = s.core.reads + 1) ∧
    (s.core.writes ≤ 50 ∧ s.core.reads ≤ 50) ∧
    (s.core.ppc.inWrite = true → s.core.writes = s.core.reads) ∧
    (s.core.cpc.inCopy = true →
      s.core.writes = s.core.reads + 1 ∧ s.core.ppc.inWrite = false ∧
      s.core.mem = pattern OFFSET) ∧
    (s.core.cpc = CPc.release →
      s.core.writes = s.core.reads ∧ s.core.tmpBuff = pattern OFFSET) := by
  obtain ⟨hi1, hi2⟩ := Synchronization.init_inv_hs mem0 tmp0 hm ht
  obtain ⟨hc, hp, hcd⟩ := Synchronization.exec_inv_hs mem0 acts _ s hi1 hi2 h
  rcases s with ⟨tw, tr, ⟨mem, tmp, ppc, pcy, w, cpc, ccy, r⟩⟩
  unfold Synchronization.Ctl inBounds at hc
  unfold PData at hp
  unfold Synchronization.CData at hcd
  simp only [Synchronization.CYCLE_NUMBER] at hc hp hcd ⊢
  refine ⟨by omega, ?_, hc.2.2.2.2.2.1, by omega, ?_, ?_, ?_⟩
  · rintro ⟨h1, h2⟩
    cases ppc <;> cases cpc <;> simp [PPc.inWrite, CPc.inCopy, heldP, heldC] at h1 h2 hc
  · intro h1
    cases ppc <;> simp [PPc.inWrite] at h1
    exact hc.2.2.2.1
  · intro h1
    cases cpc <;> simp [CPc.inCopy] at h1
    simp only [heldC] at hc
    have hw : w = r + 1 := hc.2.2.2.2.1
    refine ⟨hw, ?_, ?_⟩
    · cases ppc <;> simp [PPc.inWrite, heldP] at hc ⊢
    · cases ppc <;> simp only [heldP] at hc <;> first | omega | exact hp.2.2 (by omega)
  · intro h1
    subst h1
    exact ⟨hc.2.2.2.2.1, hcd.2⟩

theorem handshake_strict_alternation_witness :
    Synchronization.exec firstCopySchedule (Synchronization.init zeros zeros) =
      some firstCopyState ∧
    firstCopyState.core.writes = firstCopyState.core.reads + 1 ∧
    firstCopyState.core.ppc.inWrite = false ∧
    firstCopyState.core.mem = pattern OFFSET :=
  ⟨by decide,
   (handshake_strict_alternation zeros zeros (by decide) (by decide) firstCopySchedule
      firstCopyState (by decide)).2.2.2.2.2.1 rfl⟩

/-- C4, counterexample: from a zeroed segment and semaphore value 1, the schedule in which
the child runs first completes a copy pass before any write pass, and the private copy it
leaves is sixteen zeros, not the pattern. -/
theorem consumer_first_reads_initial_content :
    (Semaphore.exec consumerFirst (Semaphore.init zeros zeros)).map
      (fun s => (s.core.cpc, s.core.reads, s.core.writes, s.core.tmpBuff)) =
      some (CPc.release, 1, 0, zeros) ∧
    zeros ≠ pattern OFFSET := by
  decide

/-- C4, amended: in every state the single-semaphore program reaches from semaphore value 1,
by any interleaving: the counter is 0 or 1 and the father is not in its write pass while the
child is in its copy pass; no role completes more than 100 passes; a completed copy pass
leaves in the private copy the shared buffer as it is, which is the pattern when a write
pass has been completed and the initial content of the segment when none has; and the copy
that the pattern control examines is the pattern or that initial content, never a mix. -/
theorem mutex_reads_whole_buffer (mem0 tmp0 : Buffer) (hm : mem0.length = 16)
    (ht : tmp0.length = 16) (acts : List Act) (s : Semaphore.Sys)
    (h : Semaphore.exec acts (Semaphore.init mem0 tmp0) = some s) :
    s.sem ≤ 1 ∧
    ¬ (s.core.ppc.inWrite = true ∧ s.core.cpc.inCopy = true) ∧
    (s.core.writes ≤ 100 ∧ s.core.reads ≤ 100) ∧
    (s.core.cpc = CPc.release →
      s.core.tmpBuff = s.core.mem ∧
      (1 ≤ s.core.writes → s.core.tmpBuff = pattern OFFSET) ∧
      (s.core.writes = 0 → s.core.tmpBuff = mem0)) ∧
    (s.core.cpc = CPc.verify →
      s.core.tmpBuff = pattern OFFSET ∨ s.core.tmpBuff = mem0) := by
  obtain ⟨hi1, hi2⟩ := Semaphore.init_inv mem0 tmp0 hm ht
  obtain ⟨hc, hp, hcd⟩ := Semaphore.exec_inv mem0 acts _ s hi1 hi2 h
  have hout := Semaphore.father_outside s hc
  rcases s with ⟨sem, ⟨mem, tmp, ppc, pcy, w, cpc, ccy, r⟩⟩
  unfold Semaphore.Ctl inBounds at hc
  unfold PData at hp
  unfold Semaphore.CData at hcd
  simp only [Semaphore.CYCLE_NUMBER] at hc hp hcd hout ⊢
  refine ⟨by omega, ?_, by omega, ?_, ?_⟩
  · rintro ⟨h1, h2⟩
    cases ppc <;> cases cpc <;> simp [PPc.inWrite, CPc.inCopy, heldP, heldC] at h1 h2 hc
  · intro h1
    subst h1
    have hw := hout rfl
    have htm : tmp = mem := hcd.2
    subst htm
    refine ⟨rfl, ?_, ?_⟩ <;>
      cases ppc <;> simp only [PPc.inWrite] at hw <;> first
        | contradiction
        | exact hp.2.2
        | exact hp.2.1
  · intro h1
    subst h1
    exact hcd.2

theorem mutex_reads_whole_buffer_witness :
    Semaphore.exec producerFirst (Semaphore.init zeros zeros) = some afterFirstRead ∧
    afterFirstRead.core.tmpBuff = pattern OFFSET :=
  ⟨by decide,
   ((mutex_reads_whole_buffer zeros zeros (by decide) (by decide) producerFirst
      afterFirstRead (by decide)).2.2.2.1 rfl).2.1 (by decide)⟩

/-- C5: whenever the handshake startup completes, for every prior state of the semaphores,
its only `SETVAL` call is the one that gives turnToWrite (key 112) the value 1; turnToRead
(key 113) is passed to no `SETVAL` call and keeps the counter it had: 0 for a set the startup
creates, the old value for a set that was already there. -/
theorem startup_never_sets_turnToRead (e : Env) (s : St) (ids : Int × Int × Int)
    (hdone : (Synchronization.startup e s).val = Except.ok ids) :
    ids = (e.shmgetRet, 112, 113) ∧
    (Synchronization.startup e s).ops.filter isSetVal =
      [Op.semctlSetVal 112 1 (if e.setValFails then -1 else 0)] ∧
    (Synchronization.startup e s).st.sems 112 =
      some (if e.setValFails then (s.sems 112).getD 0 else 1) ∧
    (Synchronization.startup e s).st.sems 113 = some ((s.sems 113).getD 0) :=
  Synchronization.startup_counters e s ids hdone

/-- C5, the failing input: with a set left under key 113 at counter 1, the startup completes
with its one `SETVAL` call, on key 112, and the loops start with turnToWrite and turnToRead
both at 1; the father, two stores into slot 0, and the child, in its copy pass, are then in
their critical sections together, and the child has copied 130000 where the pattern has
65000. -/
theorem startup_keeps_stale_turnToRead :
    (Synchronization.startup calmEnv staleSt).val = Except.ok (3, 112, 113) ∧
    (Synchronization.startup calmEnv staleSt).ops.filter isSetVal =
      [Op.semctlSetVal 112 1 0] ∧
    (Synchronization.startup calmEnv staleSt).st.sems 112 = some 1 ∧
    (Synchronization.startup calmEnv staleSt).st.sems 113 = some 1 ∧
    Synchronization.start (Synchronization.startup calmEnv staleSt).st zeros zeros true true =
      { Synchronization.init zeros zeros with turnToRead := 1 } ∧
    Synchronization.exec overlapSchedule
      (Synchronization.start (Synchronization.startup calmEnv staleSt).st zeros zeros true
        true) =
      some overlapState ∧
    overlapState.core.ppc.inWrite = true ∧ overlapState.core.cpc.inCopy = true ∧
    load overlapState.core.tmpBuff 0 = 130000 ∧ expected OFFSET 0 = 65000 :=
  have h := startup_never_sets_turnToRead calmEnv staleSt (3, 112, 113) rfl
  ⟨rfl, h.2.1, h.2.2.1, h.2.2.2, by decide, by decide, rfl, rfl, by decide, by decide⟩

/-- C6, the failing input: with 4-byte pointers `sharedMemCreation` asks `shmget` for 64
bytes, fewer than the 16 x 8 bytes the passes index; with 8-byte pointers it asks for 128. -/
theorem sharedMemCreation_size_follows_pointer :
    (sharedMemCreation { calmEnv with sizeofPtr := 4 } SHARED_MEM_ID freshSt).ops.head? =
      some (Op.shmget 111 64 true 3) ∧
    64 < BUFFER_SIZE * 8 ∧
    (sharedMemCreation calmEnv SHARED_MEM_ID freshSt).ops.head? =
      some (Op.shmget 111 128 true 3) :=
  ⟨by decide, by decide, by decide⟩

/-- C7, counterexample: in the father, with every other result the same, a failed stat
query in `sharedMemAttach` leaves no write pass at all, where a successful one leaves 100. -/
theorem stat_failure_in_attach_skips_loop :
    writePasses (Semaphore.main { calmEnv with forkRet := 7, statAttach := false }
      freshSt).ops = 0 ∧
    writePasses (Semaphore.main { calmEnv with forkRet := 7 } freshSt).ops = 100 := by
  refine ⟨by decide, ?_⟩
  have hr := Semaphore.run_main { calmEnv with forkRet := 7 } freshSt
  obtain ⟨a, ha⟩ := run_ok hr (calm_no_cause _ (by decide) (fun _ => rfl)
    (fun _ => (by decide : (0 : Int) ≠ -1)))
  exact (hr.ok a ha).2.1

/-- C7, amended: the outcome of the stat query in segment create and in detach never changes
what the process does (same operations, same state, same result; stat results and printed
lines apart); the outcome of the stat query in `sharedMemAttach` does: when it fails the role
makes no write pass and no copy pass. -/
theorem stat_outcome_effect (e : Env) (s : St) (create detach : Bool) :
    sameProtocol (Semaphore.main (withStat e create detach) s) (Semaphore.main e s) ∧
    writePasses (Semaphore.main { e with statAttach := false } s).ops = 0 ∧
    copyPasses (Semaphore.main { e with statAttach := false } s).ops = 0 := by
  refine ⟨Semaphore.sameProtocol_main e create detach s, ?_⟩
  have hr := Semaphore.run_main { e with statAttach := false } s
  have h0 : Semaphore.passes { e with statAttach := false } = (0, 0) := by
    unfold Semaphore.passes
    by_cases h1 : 0 < e.forkRet
    · simp [h1]
    · by_cases h2 : e.forkRet = 0 <;> simp [h1, h2]
  rw [h0] at hr
  exact ⟨Nat.le_zero.mp hr.atMost.1, Nat.le_zero.mp hr.atMost.2⟩

/-- C8, counterexample: run in the role without a child (`childPid = 0`), here process 200,
the handler sends one signal only, to itself; nothing is forwarded to another process. -/
theorem handler_without_child_signals_itself_only :
    sentSignals (endProcessesSignaller 0 200) = [(200, Sig.SIGUSR1)] ∧
    ¬ ∃ other, sentSignals (endProcessesSignaller 0 200) =
      [(other, Sig.SIGUSR1), (200, Sig.SIGUSR1)] := by
  refine ⟨by decide, ?_⟩
  rintro ⟨other, h⟩
  have h2 : sentSignals (endProcessesSignaller 0 200) = [(200, Sig.SIGUSR1)] := by decide
  rw [h2] at h
  simp at h

/-- C8, amended: run in the role without a child (`childPid = 0`) the handler delivers one
abort signal, to itself; run in the role that owns a child it forwards an abort signal to
the child and then delivers one to itself. -/
theorem endProcessesSignaller_signals (childPid pid : Int) :
    sentSignals (endProcessesSignaller childPid pid) =
      if childPid = 0 then [(pid, Sig.SIGUSR1)]
      else [(childPid, Sig.SIGUSR1), (pid, Sig.SIGUSR1)] := by
  unfold endProcessesSignaller
  by_cases h : childPid = 0
  · simp [h, sentSignals]
  · simp [h, sentSignals]

/-- C9: in every run of the single-semaphore `main`: a failed segment creation ends the trace
right after `shmget`; a failed `semget` ends it right after `semget`; every fatal call of the
trace (these two and a `semop` with result -1) is followed by one printed line and
`exit(-1)` and by nothing else; and when no call of the trace is fatal, `main` returns 0 and
no `exit` is taken. -/
theorem fatal_errors_exit_at_once (e : Env) (s : St) :
    (e.shmgetRet < 0 →
      (Semaphore.main e s).ops =
        [Op.signal Sig.SIGINT, Op.shmget 111 (e.sizeofPtr * 16) true e.shmgetRet,
          Op.printf Msg.shmNotFound, Op.exit (-1)] ∧
      (Semaphore.main e s).val = Except.error (-1)) ∧
    (0 ≤ e.shmgetRet → e.semgetFails 112 = true →
      (∃ pre, (Semaphore.main e s).ops =
        pre ++ [Op.semget 112 (-1), Op.printf Msg.semCreationError, Op.exit (-1)]) ∧
      (Semaphore.main e s).val = Except.error (-1)) ∧
    (∀ pre o post, (Semaphore.main e s).ops = pre ++ o :: post → fatal o = true →
      (∃ m, post = [Op.printf m, Op.exit (-1)]) ∧
      (Semaphore.main e s).val = Except.error (-1)) ∧
    ((∀ o, o ∈ (Semaphore.main e s).ops → fatal o = false) →
      (Semaphore.main e s).val = Except.ok 0 ∧
      ∀ o, o ∈ (Semaphore.main e s).ops → isExit o = false) := by
  have hr := Semaphore.run_main e s
  refine ⟨fun h => ?_, fun h1 h2 => ?_, fun pre o post hops hf => ?_, fun hno => ?_⟩
  · have hn : ¬ 0 ≤ e.shmgetRet := by omega
    constructor <;>
      simp [Semaphore.main, Semaphore.startup, run_bind, run_pure, M.bind, emit, printf, exit,
        sharedMemCreation, hn, SHARED_MEM_ID, BUFFER_SIZE]
  · cases hc : e.statCreate
    · exact ⟨⟨[Op.signal Sig.SIGINT, Op.shmget 111 (e.sizeofPtr * 16) true e.shmgetRet,
          Op.shmctlStat e.shmgetRet false, Op.printf Msg.shmctlError], by
          simp [Semaphore.main, Semaphore.startup, run_bind, run_pure, M.bind, emit, printf,
            exit, sharedMemCreation, createUnlocked, semCreate, semget, shmctlStat, h1, h2, hc,
            SHARED_MEM_ID, BUFFER_SIZE, Semaphore.MY_SEM_ID]⟩, by
          simp [Semaphore.main, Semaphore.startup, run_bind, run_pure, M.bind, emit, printf,
            exit, sharedMemCreation, createUnlocked, semCreate, semget, shmctlStat, h1, h2, hc,
            SHARED_MEM_ID, BUFFER_SIZE, Semaphore.MY_SEM_ID]⟩
    · exact ⟨⟨[Op.signal Sig.SIGINT, Op.shmget 111 (e.sizeofPtr * 16) true e.shmgetRet,
          Op.shmctlStat e.shmgetRet true, Op.printf Msg.shmCreated], by
          simp [Semaphore.main, Semaphore.startup, run_bind, run_pure, M.bind, emit, printf,
            exit, sharedMemCreation, createUnlocked, semCreate, semget, shmctlStat, h1, h2, hc,
            SHARED_MEM_ID, BUFFER_SIZE, Semaphore.MY_SEM_ID]⟩, by
          simp [Semaphore.main, Semaphore.startup, run_bind, run_pure, M.bind, emit, printf,
            exit, sharedMemCreation, createUnlocked, semCreate, semget, shmctlStat, h1, h2, hc,
            SHARED_MEM_ID, BUFFER_SIZE, Semaphore.MY_SEM_ID]⟩
  · refine ⟨failFast_split _ hr.fast pre post o hf hops, ?_⟩
    cases hv : (Semaphore.main e s).val with
    | ok a =>
      have := ((hr.ok a hv).1 o (by rw [hops]; simp)).1
      rw [hf] at this
      exact Bool.noConfusion this
    | error x => rw [(hr.err x hv).1]
  · cases hv : (Semaphore.main e s).val with
    | ok a =>
      rw [Semaphore.main_val e s a hv]
      exact ⟨rfl, fun o ho => ((hr.ok a hv).1 o ho).2⟩
    | error x =>
      obtain ⟨_, _, pre, o, m, hf, hops⟩ := hr.err x hv
      have := hno o (by rw [hops]; simp)
      rw [hf] at this
      exact Bool.noConfusion this

theorem fatal_errors_exit_at_once_witness :
    (Semaphore.main { calmEnv with shmgetRet := -1 } freshSt).val = Except.error (-1) ∧
    (Semaphore.main { calmEnv with semgetFails := fun _ => true } freshSt).val =
      Except.error (-1) ∧
    (Semaphore.main failingEnv freshSt).val = Except.error (-1) ∧
    (Semaphore.main waitFailsEnv freshSt).val = Except.error (-1) ∧
    writePasses (Semaphore.main waitFailsEnv freshSt).ops = 0 :=
  ⟨((fatal_errors_exit_at_once { calmEnv with shmgetRet := -1 } freshSt).1 (by decide)).2,
   ((fatal_errors_exit_at_once { calmEnv with semgetFails := fun _ => true } freshSt).2.1
      (by decide) rfl).2,
   ((fatal_errors_exit_at_once failingEnv freshSt).2.2.1
      ((Semaphore.main failingEnv freshSt).ops.take 16) (Op.semop 112 1 (-1))
      [Op.printf Msg.semAcquisitionFailed, Op.exit (-1)] (by decide) rfl).2,
   ((fatal_errors_exit_at_once waitFailsEnv freshSt).2.2.1
      ((Semaphore.main waitFailsEnv freshSt).ops.take 14) (Op.semop 112 (-1) (-1))
      [Op.printf Msg.semAcquisitionFailed, Op.exit (-1)] (by decide) rfl).2,
   by decide⟩

/-- C10, counterexample: with `SETVAL` refused the startup completes without a fatal call and
leaves the counter of a new set at 0; with the single semaphore, and in the handshake, both
roles then stand at their first wait, neither can take a step, and no pass has been made. In
the handshake after a startup without any failure, when the child has skipped its loop, the
father makes one write pass of its 50 and then stands at its second `semWait`, unable to
take a step. -/
theorem loops_block_without_token :
    (Semaphore.startup refusedEnv freshSt).val = Except.ok (3, 112) ∧
    (Semaphore.startup refusedEnv freshSt).ops.all (fun o => !fatal o) = true ∧
    (Semaphore.startup refusedEnv freshSt).st.sems 112 = some 0 ∧
    Semaphore.exec (runs [Role.producer, Role.consumer])
      (Semaphore.start (Semaphore.startup refusedEnv freshSt).st zeros zeros true true) =
      some bothWaiting ∧
    Semaphore.step (Act.run Role.producer) bothWaiting = none ∧
    Semaphore.step (Act.run Role.consumer) bothWaiting = none ∧
    bothWaiting.core.writes = 0 ∧ bothWaiting.core.reads = 0 ∧
    (Synchronization.startup refusedEnv freshSt).val = Except.ok (3, 112, 113) ∧
    Synchronization.exec (runs [Role.producer, Role.consumer])
      (Synchronization.start (Synchronization.startup refusedEnv freshSt).st zeros zeros true
        true) = some bothWaitingHs ∧
    Synchronization.step (Act.run Role.producer) bothWaitingHs = none ∧
    Synchronization.step (Act.run Role.consumer) bothWaitingHs = none ∧
    bothWaitingHs.core.writes = 0 ∧ bothWaitingHs.core.reads = 0 ∧
    (Synchronization.startup calmEnv freshSt).val = Except.ok (3, 112, 113) ∧
    Synchronization.exec (runs (List.replicate 53 Role.producer))
      (Synchronization.start (Synchronization.startup calmEnv freshSt).st zeros zeros true
        false) = some fatherWaiting ∧
    Synchronization.step (Act.run Role.producer) fatherWaiting = none ∧
    Synchronization.step (Act.run Role.consumer) fatherWaiting = none ∧
    fatherWaiting.core.writes = 1 ∧ fatherWaiting.core.pcycle = 48 :=
  ⟨rfl, by decide, by decide, by decide, by decide, by decide, rfl, rfl,
    rfl, by decide, by decide, by decide, rfl, rfl,
    rfl, by decide, by decide, by decide, rfl, rfl⟩

/-- C10, amended: the loops are bounded and a mismatch does not end them, but they end only
when a token is there to wait for. With the single semaphore, when the counter is positive
as the loops start (it is 1 when `SETVAL` was accepted), whichever roles entered their loop,
for every content of the two buffers and every schedule in which no `semop` fails: the run
is no longer than 7302 steps, as long as a loop is not left one of the roles can take a
step, and a loop that was entered is left after exactly 100 passes and after no other
number. In the handshake the same holds with 3652 steps and 50 passes when both roles
entered their loops and one of the two counters is positive (turnToWrite is 1 when `SETVAL`
was accepted). Runs that leave both loops exist. In the child loop, when its `semop` calls
return without error, whatever the copy passes read, every turn is taken, no signal is sent,
and the sequence-error lines printed are, turn by turn, the first mismatching index of each
copy that departs from the pattern. -/
theorem loops_run_fixed_cycles (e : Env) (st : St) (mem0 tmp0 : Buffer) :
    (∀ ids, (Semaphore.startup e st).val = Except.ok ids → ∀ fatherIn childIn : Bool,
      (e.setValFails = false →
        (Semaphore.start (Semaphore.startup e st).st mem0 tmp0 fatherIn childIn).sem = 1) ∧
      (0 < (Semaphore.start (Semaphore.startup e st).st mem0 tmp0 fatherIn childIn).sem →
        (∀ roles s,
          Semaphore.exec (runs roles)
            (Semaphore.start (Semaphore.startup e st).st mem0 tmp0 fatherIn childIn) =
            some s →
          roles.length ≤ 7302 ∧
          (s.core.ppc ≠ PPc.done ∨ s.core.cpc ≠ CPc.done →
            ∃ r t, Semaphore.step (Act.run r) s = some t) ∧
          s.core.writes ≤ 100 ∧ s.core.reads ≤ 100 ∧
          (s.core.ppc = PPc.done → s.core.writes = if fatherIn then 100 else 0) ∧
          (s.core.cpc = CPc.done → s.core.reads = if childIn then 100 else 0)) ∧
        ∃ roles s,
          Semaphore.exec (runs roles)
            (Semaphore.start (Semaphore.startup e st).st mem0 tmp0 fatherIn childIn) =
            some s ∧
          s.core.ppc = PPc.done ∧ s.core.cpc = CPc.done)) ∧
    (∀ ids, (Synchronization.startup e st).val = Except.ok ids →
      (e.setValFails = false →
        (Synchronization.start (Synchronization.startup e st).st mem0 tmp0 true
          true).turnToWrite = 1) ∧
      (0 < (Synchronization.start (Synchronization.startup e st).st mem0 tmp0 true
            true).turnToWrite +
          (Synchronization.start (Synchronization.startup e st).st mem0 tmp0 true
            true).turnToRead →
        (∀ roles s,
          Synchronization.exec (runs roles)
            (Synchronization.start (Synchronization.startup e st).st mem0 tmp0 true true) =
            some s →
          roles.length ≤ 3652 ∧
          (s.core.ppc ≠ PPc.done ∨ s.core.cpc ≠ CPc.done →
            ∃ r t, Synchronization.step (Act.run r) s = some t) ∧
          (roles.length = 3652 ↔ s.core.ppc = PPc.done ∧ s.core.cpc = CPc.done) ∧
          s.core.writes ≤ 50 ∧ s.core.reads ≤ 50 ∧
          (s.core.ppc = PPc.done → s.core.writes = 50) ∧
          (s.core.cpc = CPc.done → s.core.reads = 50)) ∧
        ∃ roles s,
          Synchronization.exec (runs roles)
            (Synchronization.start (Synchronization.startup e st).st mem0 tmp0 true true) =
            some s ∧
          s.core.ppc = PPc.done ∧ s.core.cpc = CPc.done)) ∧
    ((∀ k, e.semopRet k ≠ -1) → ∀ (semid : Int) (t : St),
      (Semaphore.childLoop e semid Semaphore.CYCLE_NUMBER t).val = Except.ok () ∧
      copyPasses (Semaphore.childLoop e semid Semaphore.CYCLE_NUMBER t).ops = 100 ∧
      sentSignals (Semaphore.childLoop e semid Semaphore.CYCLE_NUMBER t).ops = [] ∧
      sequenceErrors (Semaphore.childLoop e semid Semaphore.CYCLE_NUMBER t).ops =
        firstMismatches e t 100) ∧
    ((∀ k, e.semopRet k ≠ -1) → ∀ (semid1 semid2 : Int) (t : St),
      (Synchronization.childLoop e semid1 semid2 Synchronization.CYCLE_NUMBER t).val =
        Except.ok () ∧
      copyPasses (Synchronization.childLoop e semid1 semid2
        Synchronization.CYCLE_NUMBER t).ops = 50 ∧
      sentSignals (Synchronization.childLoop e semid1 semid2
        Synchronization.CYCLE_NUMBER t).ops = [] ∧
      sequenceErrors (Synchronization.childLoop e semid1 semid2
        Synchronization.CYCLE_NUMBER t).ops = firstMismatches e t 50) := by
  refine ⟨fun ids hdone fatherIn childIn => ⟨fun hset => ?_, fun hpos => ?_⟩,
    fun ids hdone => ⟨fun hset => ?_, fun hpos => ?_⟩,
    fun hop semid t => Semaphore.childLoop_log e hop semid 100 t,
    fun hop semid1 semid2 t => Synchronization.childLoop_log_hs e hop semid1 semid2 50 t⟩
  · have h := (Semaphore.startup_counter e st ids hdone).2
    rw [hset] at h
    simp [Semaphore.start, Semaphore.MY_SEM_ID, h]
  · exact ⟨fun roles s hs => Semaphore.runs_terminate _ mem0 tmp0 _ _ hpos roles s hs,
      Semaphore.runs_complete _ mem0 tmp0 _ _ hpos⟩
  · have h := (Synchronization.startup_counters e st ids hdone).2.2.1
    rw [hset] at h
    simp [Synchronization.start, Synchronization.SEM_ID_1, h]
  · exact ⟨fun roles s hs => Synchronization.runs_terminate_hs _ mem0 tmp0 hpos roles s hs,
      Synchronization.runs_complete_hs _ mem0 tmp0 hpos⟩

set_option maxRecDepth 100000 in
theorem loops_run_fixed_cycles_witness :
    Semaphore.exec (runs firstPass)
      (Semaphore.start (Semaphore.startup calmEnv freshSt).st zeros zeros true true) =
      some afterFirstPass ∧
    (∃ r t, Semaphore.step (Act.run r) afterFirstPass = some t) ∧
    afterFirstPass.core.writes ≤ 100 ∧
    copyPasses (Semaphore.childLoop zeroEnv 112 Semaphore.CYCLE_NUMBER freshSt).ops = 100 ∧
    sentSignals (Semaphore.childLoop zeroEnv 112 Semaphore.CYCLE_NUMBER freshSt).ops = [] ∧
    sequenceErrors (Semaphore.childLoop zeroEnv 112 Semaphore.CYCLE_NUMBER freshSt).ops =
      List.replicate 100 0 ∧
    sequenceErrors (Synchronization.childLoop zeroEnv 112 113 Synchronization.CYCLE_NUMBER
      freshSt).ops = List.replicate 50 0 :=
  have hp := (((loops_run_fixed_cycles calmEnv freshSt zeros zeros).1 (3, 112) rfl true
    true).2 (by decide)).1 firstPass afterFirstPass (by decide)
  have hz := loops_run_fixed_cycles zeroEnv freshSt zeros zeros
  have hm := hz.2.2.1 (fun _ => (by decide : (0 : Int) ≠ -1)) 112 freshSt
  have hh := hz.2.2.2 (fun _ => (by decide : (0 : Int) ≠ -1)) 112 113 freshSt
  ⟨by decide, hp.2.1 (Or.inl (by decide)), hp.2.2.1, hm.2.1, hm.2.2.1,
    hm.2.2.2.trans (by decide), hh.2.2.2.trans (by decide)⟩

/-- C11: in the program without semaphores, for every sequence of snapshots: as long as the
private copies of the first `k` read passes match the pattern, the child has sent no signal
and its loop goes on; when the copy of the next pass fails verification, the child sends
exactly one signal, `SIGUSR1` to the process `getppid()` returns, in that pass, and leaves
its loop after it, however many more turns it is given. The handler of the father sets
`finished`; at its loop-head check with `finished` set the father leaves the loop; and once
`finished` is set no schedule makes the father start another write pass. -/
theorem nolock_abort_path (e : Env) (ppid : Int) (s : St) (k : Nat)
    (hfirst : ∀ j, j < k →
      (verify NoSemaphores.OFFSET (NoSemaphores.tmpAfter e s (j + 1))).mismatch = none) :
    ((NoSemaphores.childLoop e ppid k false s).val = Except.ok false ∧
      copyPasses (NoSemaphores.childLoop e ppid k false s).ops = k ∧
      sentSignals (NoSemaphores.childLoop e ppid k false s).ops = []) ∧
    (∀ i, (verify NoSemaphores.OFFSET (NoSemaphores.tmpAfter e s (k + 1))).mismatch = some i →
      ∀ n, k < n →
        (NoSemaphores.childLoop e ppid n false s).val = Except.ok true ∧
        copyPasses (NoSemaphores.childLoop e ppid n false s).ops = k + 1 ∧
        sentSignals (NoSemaphores.childLoop e ppid n false s).ops = [(ppid, Sig.SIGUSR1)] ∧
        (NoSemaphores.childLoop e ppid n false s).ops =
          (NoSemaphores.childLoop e ppid k false s).ops ++
            [Op.copyPass (NoSemaphores.tmpAfter e s (k + 1)), Op.printf (Msg.sequenceError i),
              Op.kill ppid Sig.SIGUSR1, Op.usleep NoSemaphores.USLEEP_2_MS]) ∧
    (∀ t : NoSemaphores.Sys, (NoSemaphores.raceConditionSignaller t).finished = true) ∧
    (∀ t u : NoSemaphores.Sys, NoSemaphores.step ppid NoSemaphores.Move.handle t = some u →
      u.finished = true) ∧
    (∀ t : NoSemaphores.Sys, t.finished = true → t.core.ppc = PPc.loopHead →
      NoSemaphores.step ppid (NoSemaphores.Move.run Role.producer) t =
        some { t with core := { t.core with ppc := PPc.done } }) ∧
    (∀ (acts : List NoSemaphores.Move) (t u : NoSemaphores.Sys), t.finished = true →
      NoSemaphores.exec ppid acts t = some u →
      u.finished = true ∧ u.started = t.started) := by
  obtain ⟨hrun, hfail⟩ := NoSemaphores.childLoop_first_failure e ppid k s hfirst
  refine ⟨hrun, fun i hi n hn => ?_, fun _ => rfl,
    fun t u h => (NoSemaphores.handle_sets_flag ppid t u h).1,
    fun t hf hp => NoSemaphores.loopHead_leaves ppid t hf hp,
    fun acts t u hf h => NoSemaphores.exec_flag ppid acts t u hf h⟩
  obtain ⟨hv, hops⟩ := hfail i hi n hn
  refine ⟨hv, ?_, ?_, hops⟩
  · rw [hops, copyPasses_append, hrun.2.1]
    simp [copyPasses, isCopyPass]
  · rw [hops, sentSignals_append, hrun.2.2]
    simp [sentSignals]

theorem nolock_abort_path_witness :
    (NoSemaphores.childLoop thirdPassFails 77 10 false freshSt).val = Except.ok true ∧
    copyPasses (NoSemaphores.childLoop thirdPassFails 77 10 false freshSt).ops = 3 ∧
    sentSignals (NoSemaphores.childLoop thirdPassFails 77 10 false freshSt).ops =
      [(77, Sig.SIGUSR1)] :=
  have h := (nolock_abort_path thirdPassFails 77 freshSt 2
    (by intro j hj; interval_cases j <;> decide)).2.1 3 (by decide) 10 (by decide)
  ⟨h.1, h.2.1, h.2.2.1⟩

/-- C12: each store to `mem[i]` being one step, in every state either program reaches after
one complete write pass (the program without semaphores with offset 6500, the
single-semaphore program with offset 65000) the shared buffer is the pattern, or it is the
pattern but for one slot `i`, which holds `2 * (i + OFFSET)`, the father standing between its
second and third store on that slot. For both offsets and every slot, `i + OFFSET` is not 0,
the doubling does not leave signed 64 bits, the doubled buffer differs from the pattern at
slot `i` only, and its verification fails, at `i`. -/
theorem race_window (mem0 tmp0 : Buffer) (hm : mem0.length = 16) :
    (∀ (ppid : Int) (moves : List NoSemaphores.Move) (s : NoSemaphores.Sys),
      NoSemaphores.exec ppid moves (NoSemaphores.init mem0 tmp0) = some s →
      1 ≤ s.core.writes →
      s.core.mem = pattern NoSemaphores.OFFSET ∨
      ∃ i, i < 16 ∧ s.core.ppc = PPc.write i Stage.halve ∧
        s.core.mem = bump NoSemaphores.OFFSET i) ∧
    (∀ (acts : List Act) (s : Semaphore.Sys),
      Semaphore.exec acts (Semaphore.init mem0 tmp0) = some s →
      1 ≤ s.core.writes →
      s.core.mem = pattern OFFSET ∨
      ∃ i, i < 16 ∧ s.core.ppc = PPc.write i Stage.halve ∧ s.core.mem = bump OFFSET i) ∧
    (∀ off, off = OFFSET ∨ off = NoSemaphores.OFFSET → ∀ i : Nat, i < 16 →
      (i : Int) + off ≠ 0 ∧
      wrap64 (((i : Int) + off) * 2) = 2 * ((i : Int) + off) ∧
      storeDouble (storeInit off (pattern off) i) i = bump off i ∧
      storeHalve (bump off i) i = pattern off ∧
      load (bump off i) i = 2 * ((i : Int) + off) ∧
      load (bump off i) i ≠ load (pattern off) i ∧
      (∀ j, j < 16 → j ≠ i → load (bump off i) j = load (pattern off) j) ∧
      (verify off (bump off i)).mismatch = some i) := by
  refine ⟨fun ppid moves s hs hw => ?_, fun acts s hs hw => ?_, fun off hoff i hi => ?_⟩
  · exact fill_window _ s.core
      (NoSemaphores.exec_fill_ns ppid moves _ s (NoSemaphores.init_fill_ns mem0 tmp0 hm) hs) hw
  · exact fill_window _ s.core
      (Semaphore.exec_fill acts _ s (Semaphore.init_fill mem0 tmp0 hm) hs) hw
  · have hf : Fits off := by
      rcases hoff with h | h <;> subst h
      · exact fits_OFFSET
      · exact fits_NoSemaphores
    have hpos : 0 < (i : Int) + off := by
      rcases hoff with h | h <;> subst h <;> simp [OFFSET, NoSemaphores.OFFSET] <;> omega
    have hbi : load (bump off i) i = 2 * ((i : Int) + off) := by
      rw [load_bump off i i hi hi, if_pos rfl]
    have hfill : Filling off 1 (pattern off) i Stage.init :=
      ⟨length_pattern off, hi, fun j hj => load_pattern off j (by omega),
        fun h => by simp at h, fun h => by simp at h,
        fun _ => ⟨fun j _ hj => load_pattern off j hj, fun _ => load_pattern off i hi⟩⟩
    have hd := filling_double off hf 1 _ i (filling_init off hf 1 _ i hfill)
    have hw := fill_window off
      ⟨storeDouble (storeInit off (pattern off) i) i, [], PPc.write i Stage.halve, 0, 1,
        CPc.loopHead, 0, 0⟩ hd (le_refl 1)
    have hdb : storeDouble (storeInit off (pattern off) i) i = bump off i := by
      rcases hw with h | ⟨j, hj, hpc, hmem⟩
      · exfalso
        have h1 := hd.2.2.2.2.1 rfl
        have h2 : storeDouble (storeInit off (pattern off) i) i = pattern off := h
        rw [h2, load_pattern off i hi] at h1
        omega
      · have hji : i = j := by
          have := PPc.write.inj hpc
          exact this.1
        subst hji
        exact hmem
    refine ⟨by omega, (hf i hi).2, hdb, ?_, hbi, ?_, fun j hj hne => ?_,
      bump_fails off hoff i hi⟩
    · rw [← hdb]
      exact filling_halve_last_or off i _ hd
    · rw [hbi, load_pattern off i hi]; omega
    · rw [load_bump off i j hi hj, if_neg (fun h => hne h.symm), load_pattern off j hj]

theorem race_window_witness :
    NoSemaphores.exec 77 (raceSchedule.take 53) (NoSemaphores.init zeros zeros) =
      some inWindow ∧
    (inWindow.core.mem = pattern NoSemaphores.OFFSET ∨
      ∃ i, i < 16 ∧ inWindow.core.ppc = PPc.write i Stage.halve ∧
        inWindow.core.mem = bump NoSemaphores.OFFSET i) ∧
    Semaphore.exec (producerPass ++ List.replicate 4 (Act.run Role.producer))
      (Semaphore.init zeros zeros) = some inWindowLocked ∧
    (inWindowLocked.core.mem = pattern OFFSET ∨
      ∃ i, i < 16 ∧ inWindowLocked.core.ppc = PPc.write i Stage.halve ∧
        inWindowLocked.core.mem = bump OFFSET i) :=
  ⟨by decide,
   (race_window zeros zeros (by decide)).1 77 (raceSchedule.take 53) inWindow (by decide)
     (by decide),
   by decide,
   (race_window zeros zeros (by decide)).2.1
     (producerPass ++ List.replicate 4 (Act.run Role.producer)) inWindowLocked (by decide)
     (by decide)⟩

end ShmTutorial
